import Mathlib

/-!
# esa-account-bot: approval workflow and pending-request store

A shallow embedding of the Go sources `repository.go`, `handler.go`,
`listener.go` and `slack.go`, followed by theorems about the embedded
functions.

Conventions of the embedding.

* A Go `map[string]Callback` is an association list; `mapIndex`, `mapAssign`
  and `mapDelete` are the three map primitives the source uses.
* A `time.Time` is an instant counted in nanoseconds since the Unix epoch and
  a `time.Duration` is a signed 64-bit count of nanoseconds.
* Library functions whose text is not part of the repository
  (`time.Parse`, the clock, the HTTP client behind `EsaClient`) are
  parameters of the functions that call them.
* Calls to the logger are not modelled: they have no effect on the store, on
  the reply or on the account service.
-/

namespace EsaAccountBot

/-! ## Time -/

/-- An instant of the Go type time.Time, in nanoseconds since the Unix epoch. -/
structure Time where
  unixNano : Int
deriving DecidableEq, Repr

/-- A Go time.Duration, a count of nanoseconds. -/
abbrev Duration := Int

/-- Smallest value of a time.Duration (int64). -/
def minDuration : Duration := -(2 ^ 63)

/-- Largest value of a time.Duration (int64). -/
def maxDuration : Duration := 2 ^ 63 - 1

/-- The constant time.Hour. -/
def Hour : Duration := 3600 * 1000000000

/-- The method Time.Sub: the duration t - u, saturated to the range of int64. -/
def Time.Sub (t u : Time) : Duration :=
  let d := t.unixNano - u.unixNano
  if d > maxDuration then maxDuration
  else if d < minDuration then minDuration
  else d

/-- The method Time.After: t is strictly later than u. -/
def Time.After (t u : Time) : Bool :=
  decide (u.unixNano < t.unixNano)

/-! ## repository.go: users, callbacks and the callback map -/

/-- The struct User of repository.go. -/
structure User where
  ID : String
  Name : String
  Email : String
deriving DecidableEq, Repr

/-- The zero value of User. -/
instance : Inhabited User := ⟨⟨"", "", ""⟩⟩

/-- The struct Callback of repository.go. -/
structure Callback where
  ID : String
  Value : String
  Organization : String
  OwnerUser : User
deriving DecidableEq, Repr

/-- The zero value of Callback, which a failed map index returns. -/
instance : Inhabited Callback := ⟨⟨"", "", "", default⟩⟩

/-- Go map index with the comma-ok form: v, ok := m[key]. -/
def mapIndex (m : List (String × Callback)) (key : String) : Callback × Bool :=
  match m.lookup key with
  | some v => (v, true)
  | none => (default, false)

/-- Go builtin delete(m, key). -/
def mapDelete (m : List (String × Callback)) (key : String) : List (String × Callback) :=
  m.filter (fun e => e.1 != key)

/-- Go map assignment m[key] = v: the entry at key is inserted or replaced. -/
def mapAssign (m : List (String × Callback)) (key : String) (v : Callback) :
    List (String × Callback) :=
  (key, v) :: mapDelete m key

/-- The struct CallbackMap of repository.go. The mutex is not modelled (every
operation below is one atomic step), and the clock field timeNow is passed to
the operations that read it. -/
structure CallbackMap where
  values : List (String × Callback)
deriving DecidableEq, Repr

/-- NewCallbackMap: the empty map. -/
def NewCallbackMap : CallbackMap := ⟨[]⟩

/-- CallbackMap.Set: cm.values[value.ID] = value. -/
def CallbackMap.Set (cm : CallbackMap) (value : Callback) : CallbackMap :=
  ⟨mapAssign cm.values value.ID value⟩

/-- The retention window of cleanup: time.Hour*24*7. -/
def retention : Duration := Hour * 24 * 7

/-- One iteration of the loop of CallbackMap.cleanup, for the key visited.
The argument parse is time.Parse(time.RFC3339Nano, ·) (none for an error) and
timeNow is the reading of cm.timeNow(). -/
def cleanupStep (parse : String → Option Time) (timeNow : Time)
    (values : List (String × Callback)) (key : String) : List (String × Callback) :=
  match parse key with
  | none => mapDelete values key
  | some t =>
    if timeNow.Sub t > retention then mapDelete values key
    else values

/-- CallbackMap.cleanup: the loop over the keys of the map. The clock is read
as the same instant timeNow for every key of one sweep. -/
def CallbackMap.cleanup (parse : String → Option Time) (timeNow : Time)
    (cm : CallbackMap) : CallbackMap :=
  ⟨(cm.values.map Prod.fst).foldl (cleanupStep parse timeNow) cm.values⟩

/-- CallbackMap.Get: sweep, then index. Returns the value, the found flag and
the map after the sweep. -/
def CallbackMap.Get (parse : String → Option Time) (timeNow : Time)
    (cm : CallbackMap) (key : String) : (Callback × Bool) × CallbackMap :=
  let cm1 := cm.cleanup parse timeNow
  (mapIndex cm1.values key, cm1)

/-- A key survives the sweep at timeNow: it parses and is at most seven days old. -/
def fresh (parse : String → Option Time) (timeNow : Time) (key : String) : Bool :=
  match parse key with
  | none => false
  | some t => decide (timeNow.unixNano - t.unixNano ≤ 7 * 24 * 3600 * 1000000000)

/-- The struct Repository of repository.go. The map admins is keyed by the
configured administrator ids; allowEmailDomains is a set of domain names. -/
structure Repository where
  callbacks : CallbackMap
  admins : List (String × User)
  allowEmailDomains : List String
  organizationList : List String

/-- Repository.IsAdminUserID: the id is a key of the map admins. -/
def Repository.IsAdminUserID (r : Repository) (userID : String) : Bool :=
  match r.admins.lookup userID with
  | some _ => true
  | none => false

/-! ## slack.go: constants and text helpers -/

def actionInviteSelectOrganization : String := "inviteSelectOrganization"
def actionInviteConfirm : String := "inviteConfirm"
def actionInviteApprove : String := "inviteApprove"
def actionDeleteConfirm : String := "deleteConfirm"
def actionDeleteApprove : String := "deleteApprove"
def actionCleanupConfirm : String := "cleanupConfirm"
def actionCleanupApprove : String := "cleanupApprove"
def actionCancel : String := "cancel"
def actionReject : String := "reject"

def ColorCodeRed : String := "#FF0000"
def ColorCodeOrange : String := "#FFA500"
def ColorCodeYellow : String := "#FFFF00"
def ColorCodeGreen : String := "#00FF00"
def ColorCodeBlue : String := "#0000FF"

/-- WrapTextsInCodeBlock: the texts joined by newlines inside a code block. -/
def WrapTextsInCodeBlock (texts : List String) : String :=
  "```\n" ++ "\n".intercalate texts ++ "\n```"

/-- WrapTextInInlineCodeBlock. -/
def WrapTextInInlineCodeBlock (text : String) : String :=
  "`" ++ text ++ "`"

/-- WrapUserNameInLink. -/
def WrapUserNameInLink (userName : String) : String :=
  "<@" ++ userName ++ ">"

/-- WrapUserGroupIDInLink. -/
def WrapUserGroupIDInLink (userGroupID : String) : String :=
  "<!subteam^" ++ userGroupID ++ ">"

/-! ## The slack message types, restricted to the fields the source touches -/

/-- The type slack.AttachmentActionOption. -/
structure AttachmentActionOption where
  Text : String
  Value : String
deriving DecidableEq, Repr

/-- The type slack.AttachmentAction; the field Typ is the field Type of the source. -/
structure AttachmentAction where
  Name : String
  Text : String
  Typ : String
  Style : String
  Options : List AttachmentActionOption
  SelectedOptions : List AttachmentActionOption
deriving DecidableEq, Repr

/-- The type slack.AttachmentField. -/
structure AttachmentField where
  Value : String
deriving DecidableEq, Repr

/-- The type slack.Attachment. -/
structure Attachment where
  Title : String
  Text : String
  Color : String
  CallbackID : String
  Actions : List AttachmentAction
  Fields : List AttachmentField
deriving DecidableEq, Repr

/-- The type slack.Message. -/
structure Message where
  Attachments : List Attachment
  ReplaceOriginal : Bool
deriving DecidableEq, Repr

/-- The caller of an interaction: the fields ID and Name of slack.User. -/
structure SlackUser where
  ID : String
  Name : String
deriving DecidableEq, Repr

/-- The type slack.InteractionCallback. ChannelID is Channel.ID and
AttachmentActions is ActionCallback.AttachmentActions. -/
structure InteractionCallback where
  Token : String
  ChannelID : String
  User : SlackUser
  CallbackID : String
  MessageTs : String
  OriginalMessage : Message
  AttachmentActions : List AttachmentAction
deriving DecidableEq, Repr

/-! ## esa.go: the account service as seen by the handlers -/

/-- The EsaClient. The HTTP exchange is outside the repository: each method is
given by its result, none for a nil error and some text for an error.
DeleteAccount also receives the targets of the delete calls made before it by
the same handler run, so that the same target may fail at one position and
succeed at another. -/
structure EsaClient where
  teamName : String
  InviteAccount : String → Option String
  DeleteAccount : List String → String → Option String

/-- EsaClient.GetTeamName. -/
def EsaClient.GetTeamName (c : EsaClient) : String := c.teamName

/-! ## handler.go -/

/-- The struct InteractionHandler. The slack client is represented by the
UpdateMessage effects a handler emits. -/
structure InteractionHandler where
  esaClient : EsaClient
  repository : Repository
  channelID : String
  verificationToken : String
  adminIDs : List String
  adminGroupID : String

/-- What a handler reads from outside the repository: the time parser
time.Parse(time.RFC3339Nano, ·), the reading of the clock, the text of
DateTimePrefix(), and the error (if any) of encoding the reply onto the
http.ResponseWriter. -/
structure Env where
  parse : String → Option Time
  timeNow : Time
  dateTimePrefix : String
  writeErr : Option String

/-- The call a handler ends its synchronous part with: one of the response
helpers with its arguments, the bare status 500 of an unknown action, or a
run-time panic of an index expression (net/http recovers it and sends no
reply). -/
inductive Reply where
  | response (msg : Message)
  | responseHint (msg : Message) (text : String)
  | responseWarning (msg : Message) (text : String)
  | responseError (msg : Message) (text : String)
  | responseSuccess (msg : Message) (text : String)
  | statusInternalServerError
  | indexOutOfRange
deriving DecidableEq, Repr

/-- An effect on the outside world made by the goroutine an approve handler
starts: an update of the chat message or a call of the account service. -/
inductive Effect where
  | UpdateMessage (channelID : String) (messageTs : String) (attachments : List Attachment)
  | InviteAccount (email : String)
  | DeleteAccount (screenName : String)
deriving DecidableEq, Repr

/-- The result of running a handler: its reply, the error it returns, the
callback map afterwards, and the effects of its goroutine in order. -/
structure Outcome where
  reply : Reply
  err : Option String
  callbacks : CallbackMap
  effects : List Effect
deriving DecidableEq, Repr

/-- Apply f to the last element of a slice, if there is one: the pattern
if last := len(in) - 1; last >= 0 of the source. -/
def modifyLast (f : Attachment → Attachment) : List Attachment → List Attachment
  | [] => []
  | [a] => [f a]
  | a :: b :: l => a :: modifyLast f (b :: l)

/-- InteractionHandler.setToLastAttachment. -/
def setToLastAttachment (ins : List Attachment) (color : String) (text : String) :
    List Attachment :=
  modifyLast (fun a =>
    let a1 := { a with Color := color, Actions := [], Fields := [] }
    if text != "" then { a1 with Text := text } else a1) ins

/-- InteractionHandler.setErrorToLastAttachment. -/
def setErrorToLastAttachment (ins : List Attachment) (text : String) : List Attachment :=
  setToLastAttachment ins ColorCodeRed text

/-- InteractionHandler.setWarningToLastAttachment. -/
def setWarningToLastAttachment (ins : List Attachment) (text : String) : List Attachment :=
  setToLastAttachment ins ColorCodeYellow text

/-- InteractionHandler.setSuccessToLastAttachment. -/
def setSuccessToLastAttachment (ins : List Attachment) (text : String) : List Attachment :=
  setToLastAttachment ins ColorCodeGreen text

/-- InteractionHandler.response: the message written as the JSON body. -/
def response (msg : Message) : Message :=
  { msg with ReplaceOriginal := true }

/-- InteractionHandler.responseHint. -/
def responseHint (msg : Message) (text : String) : Message :=
  response { msg with Attachments := modifyLast (fun a =>
    { a with Color := ColorCodeOrange, Fields := a.Fields ++ [⟨text⟩] }) msg.Attachments }

/-- InteractionHandler.responseWarning. -/
def responseWarning (msg : Message) (text : String) : Message :=
  response { msg with Attachments := setWarningToLastAttachment msg.Attachments text }

/-- InteractionHandler.responseError. -/
def responseError (msg : Message) (text : String) : Message :=
  response { msg with Attachments := setErrorToLastAttachment msg.Attachments text }

/-- InteractionHandler.responseSuccess. -/
def responseSuccess (msg : Message) (text : String) : Message :=
  response { msg with Attachments := setSuccessToLastAttachment msg.Attachments text }

/-- The HTTP status and JSON body a reply puts on the wire; none when the
handler panicked. -/
def Reply.write : Reply → Option (Nat × Option Message)
  | .response msg => some (200, some (EsaAccountBot.response msg))
  | .responseHint msg text => some (200, some (EsaAccountBot.responseHint msg text))
  | .responseWarning msg text => some (200, some (EsaAccountBot.responseWarning msg text))
  | .responseError msg text => some (200, some (EsaAccountBot.responseError msg text))
  | .responseSuccess msg text => some (200, some (EsaAccountBot.responseSuccess msg text))
  | .statusInternalServerError => some (500, none)
  | .indexOutOfRange => none

/-- InteractionHandler.handleCancel. -/
def handleCancel (h : InteractionHandler) (env : Env) (message : InteractionCallback) :
    Outcome :=
  let got := h.repository.callbacks.Get env.parse env.timeNow message.CallbackID
  let cb := got.1.1
  let ok := got.1.2
  if !ok then
    let text := ":x: Request has expired: " ++ message.CallbackID
    ⟨.responseError message.OriginalMessage text, env.writeErr, got.2, []⟩
  else
    let original := message.OriginalMessage
    if cb.OwnerUser.ID != message.User.ID then
      let text := ":warning: " ++ WrapUserNameInLink message.User.Name
        ++ " does not have cancel permission"
      ⟨.responseHint original text, env.writeErr, got.2, []⟩
    else
      let text := ":x: " ++ WrapUserNameInLink message.User.Name ++ " canceled the request"
      ⟨.responseWarning original text, env.writeErr, got.2, []⟩

/-- InteractionHandler.handleReject. -/
def handleReject (h : InteractionHandler) (env : Env) (message : InteractionCallback) :
    Outcome :=
  let got := h.repository.callbacks.Get env.parse env.timeNow message.CallbackID
  let cb := got.1.1
  let ok := got.1.2
  if !ok then
    let text := ":x: Request has expired: " ++ message.CallbackID
    ⟨.responseError message.OriginalMessage text, env.writeErr, got.2, []⟩
  else
    let original := message.OriginalMessage
    if !h.repository.IsAdminUserID message.User.ID && cb.OwnerUser.ID != message.User.ID then
      let text := ":warning: " ++ WrapUserNameInLink message.User.Name
        ++ " does not have reject permission"
      ⟨.responseHint original text, env.writeErr, got.2, []⟩
    else
      let text := ":x: " ++ WrapUserNameInLink message.User.Name ++ " rejected the request"
      ⟨.responseWarning original text, env.writeErr, got.2, []⟩

/-- The text admins built in handleConfirm: the group link when a group is
configured, otherwise the links of the administrator ids separated by blanks. -/
def confirmAdmins (h : InteractionHandler) : String :=
  if h.adminGroupID != "" then WrapUserGroupIDInLink h.adminGroupID
  else h.adminIDs.foldl (fun admins v =>
    if admins == "" then WrapUserGroupIDInLink v
    else admins ++ " " ++ WrapUserGroupIDInLink v) ""

/-- InteractionHandler.handleConfirm. -/
def handleConfirm (h : InteractionHandler) (env : Env) (message : InteractionCallback)
    (nextAction : String) : Outcome :=
  let got := h.repository.callbacks.Get env.parse env.timeNow message.CallbackID
  let cb := got.1.1
  let ok := got.1.2
  if !ok then
    let text := ":x: Request has expired: " ++ message.CallbackID
    ⟨.responseError message.OriginalMessage text, env.writeErr, got.2, []⟩
  else
    let original := message.OriginalMessage
    if cb.OwnerUser.ID != message.User.ID then
      let text := ":warning: " ++ WrapUserNameInLink message.User.Name
        ++ " does not have confirm permission"
      ⟨.responseHint original text, env.writeErr, got.2, []⟩
    else
      let attachments := setSuccessToLastAttachment original.Attachments ""
      let admins := confirmAdmins h
      let review : Attachment :=
        { Title := env.dateTimePrefix ++ "Review"
          Text := ":pray: 管理者 " ++ admins ++ " の承認が必要です"
          Color := ColorCodeBlue
          CallbackID := cb.ID
          Actions := [
            { Name := nextAction, Text := "Approve", Typ := "button", Style := "primary",
              Options := [], SelectedOptions := [] },
            { Name := actionReject, Text := "Reject", Typ := "button", Style := "danger",
              Options := [], SelectedOptions := [] }]
          Fields := [] }
      ⟨.response { original with Attachments := attachments ++ [review] },
        env.writeErr, got.2, []⟩

/-- InteractionHandler.handleInviteSelectOrganization. The two index
expressions AttachmentActions[0] and SelectedOptions[0] panic on an empty
slice. -/
def handleInviteSelectOrganization (h : InteractionHandler) (env : Env)
    (message : InteractionCallback) : Outcome :=
  let got := h.repository.callbacks.Get env.parse env.timeNow message.CallbackID
  let cb := got.1.1
  let ok := got.1.2
  if !ok then
    let text := ":x: Request has expired: " ++ message.CallbackID
    ⟨.responseError message.OriginalMessage text, env.writeErr, got.2, []⟩
  else
    let original := message.OriginalMessage
    if cb.OwnerUser.ID != message.User.ID then
      let text := ":warning: " ++ WrapUserNameInLink message.User.Name
        ++ " does not have select organization permission"
      ⟨.responseHint original text, env.writeErr, got.2, []⟩
    else
      match message.AttachmentActions with
      | [] => ⟨.indexOutOfRange, none, got.2, []⟩
      | action :: _ =>
        match action.SelectedOptions with
        | [] => ⟨.indexOutOfRange, none, got.2, []⟩
        | selected :: _ =>
          let cb1 := { cb with Organization := selected.Value }
          if cb1.Organization == "" then
            let text := ":warning: organization is required"
            ⟨.responseHint original text, env.writeErr, got.2, []⟩
          else
            let cm := got.2.Set cb1
            let texts := [
              "Requester: " ++ WrapUserNameInLink cb1.OwnerUser.Name,
              "招待メール送信先: " ++ cb1.Value,
              "対象者の所属組織: " ++ cb1.Organization]
            let confirm : Attachment :=
              { Title := env.dateTimePrefix ++ "Confirm"
                Text := "アカウント招待申請の内容を確認してください\n" ++ WrapTextsInCodeBlock texts
                Color := ColorCodeBlue
                CallbackID := cb1.ID
                Actions := [
                  { Name := actionInviteConfirm, Text := "OK, invite", Typ := "button",
                    Style := "primary", Options := [], SelectedOptions := [] },
                  { Name := actionCancel, Text := "Cancel", Typ := "button",
                    Style := "danger", Options := [], SelectedOptions := [] }]
                Fields := [] }
            ⟨.response { original with Attachments := [confirm] }, env.writeErr, cm, []⟩

/-- Go strings.Split(s, sep) on the characters of s, for a separator of one
character: the pieces between the separators, one more than there are
separators. -/
def splitChars (sep : Char) : List Char → List (List Char)
  | [] => [[]]
  | c :: cs =>
    if c = sep then [] :: splitChars sep cs
    else
      match splitChars sep cs with
      | [] => [[c]]
      | w :: ws => (c :: w) :: ws

/-- Go strings.Split(s, sep) for a separator of one character. -/
def stringsSplit (s : String) (sep : Char) : List String :=
  (splitChars sep s.data).map String.mk

/-- The Execute attachment every approve goroutine appends. -/
def executeAttachment (env : Env) (text : String) : Attachment :=
  { Title := env.dateTimePrefix ++ "Execute", Text := text, Color := ColorCodeBlue,
    CallbackID := "", Actions := [], Fields := [] }

/-- InteractionHandler.handleInviteApprove. The goroutine runs after the
reply was written; its effects are listed in the order it makes them. -/
def handleInviteApprove (h : InteractionHandler) (env : Env) (message : InteractionCallback) :
    Outcome :=
  let got := h.repository.callbacks.Get env.parse env.timeNow message.CallbackID
  let cb := got.1.1
  let ok := got.1.2
  if !ok then
    let text := ":x: Request has expired: " ++ message.CallbackID
    ⟨.responseError message.OriginalMessage text, env.writeErr, got.2, []⟩
  else
    let original := message.OriginalMessage
    if !h.repository.IsAdminUserID message.User.ID then
      let text := ":warning: " ++ WrapUserNameInLink message.User.Name
        ++ " does not have approve permission"
      ⟨.responseHint original text, env.writeErr, got.2, []⟩
    else
      let text := ":white_check_mark: " ++ WrapUserNameInLink message.User.Name
        ++ " approved the request"
      match env.writeErr with
      | some e =>
        ⟨.responseSuccess original text, some ("failed to write message: " ++ e), got.2, []⟩
      | none =>
        let attachments := setSuccessToLastAttachment original.Attachments text
          ++ [executeAttachment env ":car: Starting invite account ..."]
        let started := Effect.UpdateMessage message.ChannelID message.MessageTs attachments
        match h.esaClient.InviteAccount cb.Value with
        | some e =>
          let failed := setErrorToLastAttachment attachments
            (":x: Failed to invite account for " ++ WrapTextInInlineCodeBlock cb.Value
              ++ ": " ++ e)
          ⟨.responseSuccess original text, none, got.2,
            [started, .InviteAccount cb.Value,
              .UpdateMessage message.ChannelID message.MessageTs failed]⟩
        | none =>
          let done := setSuccessToLastAttachment attachments
            ":+1: 招待メールを確認し 72 時間以内にアカウント登録を行なってください"
          ⟨.responseSuccess original text, none, got.2,
            [started, .InviteAccount cb.Value,
              .UpdateMessage message.ChannelID message.MessageTs done]⟩

/-- InteractionHandler.handleDeleteApprove. -/
def handleDeleteApprove (h : InteractionHandler) (env : Env) (message : InteractionCallback) :
    Outcome :=
  let got := h.repository.callbacks.Get env.parse env.timeNow message.CallbackID
  let cb := got.1.1
  let ok := got.1.2
  if !ok then
    let text := ":x: Request has expired: " ++ message.CallbackID
    ⟨.responseError message.OriginalMessage text, env.writeErr, got.2, []⟩
  else
    let original := message.OriginalMessage
    if !h.repository.IsAdminUserID message.User.ID then
      let text := ":warning: " ++ WrapUserNameInLink message.User.Name
        ++ " does not have approve permission"
      ⟨.responseHint original text, env.writeErr, got.2, []⟩
    else
      let text := ":white_check_mark: " ++ WrapUserNameInLink message.User.Name
        ++ " approved the request"
      match env.writeErr with
      | some e =>
        ⟨.responseSuccess original text, some ("failed to write message: " ++ e), got.2, []⟩
      | none =>
        let attachments := setSuccessToLastAttachment original.Attachments text
          ++ [executeAttachment env ":car: Starting delete account ..."]
        let started := Effect.UpdateMessage message.ChannelID message.MessageTs attachments
        match h.esaClient.DeleteAccount [] cb.Value with
        | some e =>
          let failed := setErrorToLastAttachment attachments
            (":x: Failed to delete account " ++ WrapTextInInlineCodeBlock cb.Value
              ++ ": " ++ e)
          ⟨.responseSuccess original text, none, got.2,
            [started, .DeleteAccount cb.Value,
              .UpdateMessage message.ChannelID message.MessageTs failed]⟩
        | none =>
          let results := [
            "対象アカウント " ++ cb.Value ++ " を削除しました",
            "- https://" ++ h.esaClient.GetTeamName ++ ".esa.io/team?keyword=" ++ cb.Value]
          let done := setSuccessToLastAttachment attachments
            (":+1: Account has been deleted\n" ++ WrapTextsInCodeBlock results)
          ⟨.responseSuccess original text, none, got.2,
            [started, .DeleteAccount cb.Value,
              .UpdateMessage message.ChannelID message.MessageTs done]⟩

/-- The loop of the goroutine of handleCleanupApprove over the targets still
to visit. The argument called lists the targets already passed to
DeleteAccount and results is the slice of result lines built so far. Returns
the delete calls made, and either the failed target with its error or the
final result lines. -/
def cleanupLoop (esa : EsaClient) (called : List String) (results : List String) :
    List String → List Effect × (String × String ⊕ List String)
  | [] => ([], .inr results)
  | target :: rest =>
    match esa.DeleteAccount called target with
    | some e => ([.DeleteAccount target], .inl (target, e))
    | none =>
      let r := cleanupLoop esa (called ++ [target])
        (results ++ ["- https://" ++ esa.GetTeamName ++ ".esa.io/team?keyword=" ++ target]) rest
      (.DeleteAccount target :: r.1, r.2)

/-- InteractionHandler.handleCleanupApprove. -/
def handleCleanupApprove (h : InteractionHandler) (env : Env) (message : InteractionCallback) :
    Outcome :=
  let got := h.repository.callbacks.Get env.parse env.timeNow message.CallbackID
  let cb := got.1.1
  let ok := got.1.2
  if !ok then
    let text := ":x: Request has expired: " ++ message.CallbackID
    ⟨.responseError message.OriginalMessage text, env.writeErr, got.2, []⟩
  else
    let original := message.OriginalMessage
    if !h.repository.IsAdminUserID message.User.ID then
      let text := ":warning: " ++ WrapUserNameInLink message.User.Name
        ++ " does not have approve permission"
      ⟨.responseHint original text, env.writeErr, got.2, []⟩
    else
      let text := ":white_check_mark: " ++ WrapUserNameInLink message.User.Name
        ++ " approved the request"
      match env.writeErr with
      | some e =>
        ⟨.responseSuccess original text, some ("failed to write message: " ++ e), got.2, []⟩
      | none =>
        let attachments := setSuccessToLastAttachment original.Attachments text
          ++ [executeAttachment env ":car: Starting delete expired account ..."]
        let started := Effect.UpdateMessage message.ChannelID message.MessageTs attachments
        let targets := stringsSplit cb.Value ','
        let results := ["期限切れアカウント (" ++ toString targets.length ++ "件) を削除しました"]
        let run := cleanupLoop h.esaClient [] results targets
        match run.2 with
        | .inl (target, e) =>
          let failed := setErrorToLastAttachment attachments
            (":x: Failed to delete expired account " ++ WrapTextInInlineCodeBlock target
              ++ ": " ++ e)
          ⟨.responseSuccess original text, none, got.2,
            [started] ++ run.1 ++ [.UpdateMessage message.ChannelID message.MessageTs failed]⟩
        | .inr results =>
          let done := setSuccessToLastAttachment attachments
            (":+1: Expired account has been deleted\n" ++ WrapTextsInCodeBlock results)
          ⟨.responseSuccess original text, none, got.2,
            [started] ++ run.1 ++ [.UpdateMessage message.ChannelID message.MessageTs done]⟩

/-- InteractionHandler.handle: dispatch on the name of the first attachment
action. -/
def handle (h : InteractionHandler) (env : Env) (message : InteractionCallback) : Outcome :=
  match message.AttachmentActions with
  | [] => ⟨.indexOutOfRange, none, h.repository.callbacks, []⟩
  | action :: _ =>
    if action.Name = actionInviteConfirm then handleConfirm h env message actionInviteApprove
    else if action.Name = actionInviteSelectOrganization then
      handleInviteSelectOrganization h env message
    else if action.Name = actionInviteApprove then handleInviteApprove h env message
    else if action.Name = actionDeleteConfirm then
      handleConfirm h env message actionDeleteApprove
    else if action.Name = actionDeleteApprove then handleDeleteApprove h env message
    else if action.Name = actionCleanupConfirm then
      handleConfirm h env message actionCleanupApprove
    else if action.Name = actionCleanupApprove then handleCleanupApprove h env message
    else if action.Name = actionCancel then handleCancel h env message
    else if action.Name = actionReject then handleReject h env message
    else
      ⟨.statusInternalServerError, some ("invalid action was submitted: " ++ action.Name),
        h.repository.callbacks, []⟩

/-- The parts of the http.Request that ServeHTTP reads: the method and the
result of ioutil.ReadAll(r.Body), the bytes of the body or an error. -/
structure HTTPRequest where
  Method : String
  Body : Except String (List UInt8)

/-- The two decoders ServeHTTP calls, outside the repository: url.QueryUnescape
and json.Unmarshal into a slack.InteractionCallback; none stands for an error.
Both work on the bytes of a Go string. -/
structure Decoder where
  QueryUnescape : List UInt8 → Option (List UInt8)
  Unmarshal : List UInt8 → Option InteractionCallback

/-- The result of ServeHTTP: the HTTP status written, none when the handler
goroutine panicked before any status was written (net/http recovers the panic
and closes the connection), and the outcome of handle when handle was called. -/
structure ServeOutcome where
  status : Option Nat
  ran : Option Outcome
deriving DecidableEq, Repr

/-- InteractionHandler.ServeHTTP. The slice expression string(buf)[8:] panics
on a body of fewer than eight bytes. -/
def ServeHTTP (h : InteractionHandler) (env : Env) (dec : Decoder) (r : HTTPRequest) :
    ServeOutcome :=
  if r.Method != "POST" then ⟨some 405, none⟩
  else
    match r.Body with
    | .error _ => ⟨some 500, none⟩
    | .ok buf =>
      if buf.length < 8 then ⟨none, none⟩
      else
        match dec.QueryUnescape (buf.drop 8) with
        | none => ⟨some 500, none⟩
        | some body =>
          match dec.Unmarshal body with
          | none => ⟨some 500, none⟩
          | some message =>
            if message.Token != h.verificationToken then ⟨some 401, none⟩
            else if message.ChannelID != h.channelID then ⟨some 401, none⟩
            else
              let out := handle h env message
              ⟨out.reply.write.map (fun w => w.1), some out⟩

/-- The callback map after ServeHTTP: that of the handler outcome when handle
was called, the map as it was otherwise. -/
def ServeOutcome.callbacks (h : InteractionHandler) (o : ServeOutcome) : CallbackMap :=
  match o.ran with
  | some out => out.callbacks
  | none => h.repository.callbacks

/-- The effects of ServeHTTP: those of the handler outcome when handle was
called, none otherwise. -/
def ServeOutcome.effects (o : ServeOutcome) : List Effect :=
  match o.ran with
  | some out => out.effects
  | none => []

/-! ## esa.go and listener.go: the command interpreter -/

/-- The struct Member of esa.go. -/
structure Member where
  Name : String
  ScreenName : String
  Icon : String
  PostsCount : Int
  JoinedAt : String
  LastAccessedAt : String
  Email : String
deriving DecidableEq, Repr

/-- Member.LastAccessedTime: time.Parse(time.RFC3339, m.LastAccessedAt), with
the parser as a parameter; none stands for an error. -/
def Member.LastAccessedTime (parse3339 : String → Option Time) (m : Member) : Option Time :=
  parse3339 m.LastAccessedAt

/-- The target scan of handleCleanupAccount (the loop over res.Members): a
member whose timestamp does not parse is skipped (continue), the first member
whose last access is not before expireTime ends the loop (break), every other
member is appended to screenNames and to targets. Returns both slices. The
slice expression LastAccessedAt[:10] is taken on characters. -/
def scanMembers (parse3339 : String → Option Time) (teamName : String) (expireTime : Time)
    (screenNames targets : List String) : List Member → List String × List String
  | [] => (screenNames, targets)
  | member :: rest =>
    match member.LastAccessedTime parse3339 with
    | none => scanMembers parse3339 teamName expireTime screenNames targets rest
    | some t =>
      if !expireTime.After t then (screenNames, targets)
      else
        scanMembers parse3339 teamName expireTime
          (screenNames ++ [member.ScreenName])
          (targets ++ ["- (" ++ member.LastAccessedAt.take 10 ++ ") https://" ++ teamName
            ++ ".esa.io/members/" ++ member.ScreenName])
          rest

/-- Go unicode.IsSpace. -/
def isSpace (c : Char) : Bool :=
  c = '\t' || c = '\n' || c.val = 0x0B || c.val = 0x0C || c = '\r' || c = ' '
    || c.val = 0x85 || c.val = 0xA0 || c.val = 0x1680
    || (0x2000 ≤ c.val && c.val ≤ 0x200A)
    || c.val = 0x2028 || c.val = 0x2029 || c.val = 0x202F || c.val = 0x205F
    || c.val = 0x3000

/-- Go strings.TrimSpace: leading and trailing white space removed. -/
def TrimSpace (s : String) : String :=
  String.mk ((s.data.dropWhile isSpace).reverse.dropWhile isSpace).reverse

/-- The type slack.MessageEvent: the fields Channel, User and Msg.Text. -/
structure MessageEvent where
  Channel : String
  User : String
  Text : String
deriving DecidableEq, Repr

/-- A message handed to PostMessage: the channel, the text option and the
attachments option. -/
structure Post where
  channel : String
  text : String
  attachments : List Attachment
deriving DecidableEq, Repr

/-- The slack client as the listener uses it. GetUserInfo returns the fields
ID, Name and Profile.Email of the user or an error; PostMessage returns its
error, none for nil. -/
structure SlackClient where
  GetUserInfo : String → Except String User
  PostMessage : Post → Option String

/-- The struct MessageListener. -/
structure MessageListener where
  slackClient : SlackClient
  esaClient : EsaClient
  repository : Repository
  botID : String
  botName : String
  botUsageURL : String
  accountExpireMonth : Int
  channelID : String

/-- What a command handler reads from outside the repository: the clock, the
formatter Time.Format(time.RFC3339Nano) and the text of DateTimePrefix(). -/
structure ListenerEnv where
  timeNow : Time
  format : Time → String
  dateTimePrefix : String

/-- CallbackMap.GenerateID: cm.timeNow().Format(time.RFC3339Nano). -/
def CallbackMap.GenerateID (format : Time → String) (timeNow : Time) : String :=
  format timeNow

/-- The result of a command handler: the error it returns, the callback map
afterwards and the messages it posted. -/
structure ListenerOutcome where
  err : Option String
  callbacks : CallbackMap
  posts : List Post
deriving DecidableEq, Repr

/-- MessageListener.handleDeleteAccount. The result none is the run-time panic
of the slice expression [2:] on a command of fewer than two words. -/
def handleDeleteAccount (s : MessageListener) (env : ListenerEnv) (ev : MessageEvent) :
    Option ListenerOutcome :=
  match s.slackClient.GetUserInfo ev.User with
  | .error err => some ⟨some err, s.repository.callbacks, []⟩
  | .ok user =>
    let callback : Callback :=
      { ID := CallbackMap.GenerateID env.format env.timeNow
        Value := user.Email
        Organization := ""
        OwnerUser := { ID := user.ID, Name := user.Name, Email := user.Email } }
    let cmd := stringsSplit (TrimSpace ev.Text) ' '
    if cmd.length < 2 then none
    else
      let options := cmd.drop 2
      let callback :=
        match options with
        | [o] => if o != "" then { callback with Value := o } else callback
        | _ => callback
      if callback.Value == "" then
        some ⟨some "invalid ScreenName", s.repository.callbacks, []⟩
      else
        let cm := s.repository.callbacks.Set callback
        let texts := [
          "Requester: " ++ WrapUserNameInLink user.Name,
          "対象者のプロフィール: https://" ++ s.esaClient.GetTeamName ++ ".esa.io/members/"
            ++ callback.Value]
        let post : Post :=
          { channel := ev.Channel
            text := ""
            attachments := [
              { Title := env.dateTimePrefix ++ "Confirm"
                Text := "アカウント削除申請の内容を確認してください\n" ++ WrapTextsInCodeBlock texts
                Color := ColorCodeBlue
                CallbackID := callback.ID
                Actions := [
                  { Name := actionDeleteConfirm, Text := "OK, delete", Typ := "button",
                    Style := "primary", Options := [], SelectedOptions := [] },
                  { Name := actionCancel, Text := "Cancel", Typ := "button",
                    Style := "danger", Options := [], SelectedOptions := [] }]
                Fields := [] }] }
        match s.slackClient.PostMessage post with
        | some err => some ⟨some ("failed to post message: " ++ err), cm, [post]⟩
        | none => some ⟨none, cm, [post]⟩

/-- RemoveMailtoMeta of slack.go: for a text that starts with the mailto
marker, the text after the marker up to the first vertical bar; any other text
unchanged. -/
def RemoveMailtoMeta (text : String) : String :=
  let pfx := "<mailto:"
  if pfx.data.isPrefixOf text.data then
    match stringsSplit (String.mk (text.data.drop pfx.length)) '|' with
    | first :: _ => first
    | [] => ""
  else text

/-- Repository.GetOrganizations: a copy of the organization list. -/
def Repository.GetOrganizations (r : Repository) : List String :=
  r.organizationList

/-- Repository.ValidEmail. The argument isEmail is govalidator.IsEmail. The
result some none is the nil error, some (some e) the error e, and none the
run-time panic of the index expression strings.Split(email, "@")[1] on an
address without the at sign. -/
def Repository.ValidEmail (isEmail : String → Bool) (r : Repository) (email : String) :
    Option (Option String) :=
  if !isEmail email then
    some (some ("invalid email: " ++ WrapTextInInlineCodeBlock email))
  else if r.allowEmailDomains.length == 0 then some none
  else
    match (stringsSplit email '@').drop 1 with
    | [] => none
    | domain :: _ =>
      if domain ∈ r.allowEmailDomains then some none
      else
        let hint := r.allowEmailDomains.foldl (fun hint v =>
          (if hint != "" then hint ++ " or " else hint) ++ WrapTextInInlineCodeBlock v) ""
        some (some ("invalid email domain, you must use " ++ hint ++ ": "
          ++ WrapTextInInlineCodeBlock email))

/-- MessageListener.handleInviteAccount. The result none is a run-time panic:
of the slice expression [2:] on a command of fewer than two words, or of
ValidEmail. -/
def handleInviteAccount (isEmail : String → Bool) (s : MessageListener) (env : ListenerEnv)
    (ev : MessageEvent) : Option ListenerOutcome :=
  match s.slackClient.GetUserInfo ev.User with
  | .error err => some ⟨some err, s.repository.callbacks, []⟩
  | .ok user =>
    let callback : Callback :=
      { ID := CallbackMap.GenerateID env.format env.timeNow
        Value := user.Email
        Organization := ""
        OwnerUser := { ID := user.ID, Name := user.Name, Email := user.Email } }
    let cmd := stringsSplit (TrimSpace ev.Text) ' '
    if cmd.length < 2 then none
    else
      let options := cmd.drop 2
      let callback :=
        match options with
        | [o] => if o != "" then { callback with Value := RemoveMailtoMeta o } else callback
        | _ => callback
      match s.repository.ValidEmail isEmail callback.Value with
      | none => none
      | some (some err) => some ⟨some err, s.repository.callbacks, []⟩
      | some none =>
        let cm := s.repository.callbacks.Set callback
        let organizations := s.repository.GetOrganizations
        let selectOrgOptions : List AttachmentActionOption :=
          organizations.map (fun v => { Text := v, Value := v })
        let text :=
          if callback.Value != callback.OwnerUser.Email then
            "招待するアカウントの所属組織を選択してください"
          else "所属組織を選択してください"
        let post : Post :=
          { channel := ev.Channel
            text := ""
            attachments := [
              { Title := env.dateTimePrefix ++ "Select organization"
                Text := text
                Color := ColorCodeBlue
                CallbackID := callback.ID
                Actions := [
                  { Name := actionInviteSelectOrganization, Text := "", Typ := "select",
                    Style := "primary", Options := selectOrgOptions, SelectedOptions := [] },
                  { Name := actionCancel, Text := "Cancel", Typ := "button",
                    Style := "danger", Options := [], SelectedOptions := [] }]
                Fields := [] }] }
        match s.slackClient.PostMessage post with
        | some err => some ⟨some ("failed to post message: " ++ err), cm, [post]⟩
        | none => some ⟨none, cm, [post]⟩

/-- Go strconv.Atoi on a 64-bit platform: an optional sign followed by one or
more decimal digits. Returns the value and true; 0 and false for a syntax
error; the nearest bound of int64 and false for a value out of range. -/
def Atoi (s : String) : Int × Bool :=
  let signed : Bool × List Char :=
    match s.data with
    | '-' :: rest => (true, rest)
    | '+' :: rest => (false, rest)
    | cs => (false, cs)
  if signed.2.isEmpty || !signed.2.all Char.isDigit then (0, false)
  else
    let n : Nat := signed.2.foldl (fun acc c => acc * 10 + (c.toNat - 48)) 0
    let v : Int := if signed.1 then -(n : Int) else (n : Int)
    if v > 2 ^ 63 - 1 then (2 ^ 63 - 1, false)
    else if v < -(2 ^ 63) then (-(2 ^ 63), false)
    else (v, true)

/-- Go strings.Join(elems, sep). -/
def stringsJoin (elems : List String) (sep : String) : String :=
  String.mk (List.intercalate sep.data (elems.map String.data))

/-- What handleCleanupAccount reads from outside the repository besides the
ListenerEnv: the reading of time.Now(), the calendar step
t.AddDate(0, months, 0), the formatter Format("2006/01/02"), the parser
time.Parse(time.RFC3339, ·), and the result of the one directory query
ListAccount(sort last_accessed, order asc, per_page 100) of the handler. -/
structure CleanupEnv where
  now : Time
  addMonths : Time → Int → Time
  formatDate : Time → String
  parse3339 : String → Option Time
  ListAccount : Except String (List Member)

/-- The result of handleCleanupAccount: the error it returns, the callback map
afterwards, the messages it posted and the number of directory queries
(ListAccount calls) it made. -/
structure CleanupOutcome where
  err : Option String
  callbacks : CallbackMap
  posts : List Post
  listCalls : Nat
deriving DecidableEq, Repr

/-- The month count of handleCleanupAccount: the argument when the command has
exactly one, non-empty, option, which must parse and be at least the
configured minimum; the configured minimum otherwise. -/
def cleanupTargetMonth (accountExpireMonth : Int) (options : List String) :
    Except String Int :=
  match options with
  | [o] =>
    if o != "" then
      let parsed := Atoi o
      if !parsed.2 || parsed.1 < accountExpireMonth then
        .error ("invalid month, you must be at least " ++ toString accountExpireMonth
          ++ ": " ++ toString parsed.1)
      else .ok parsed.1
    else .ok accountExpireMonth
  | _ => .ok accountExpireMonth

/-- The reply of handleCleanupAccount when no account matches: a plain text
post; its error, if any, is returned as it is. -/
def postNoAccounts (s : MessageListener) (ev : MessageEvent) (listCalls : Nat) :
    CleanupOutcome :=
  let post : Post :=
    { channel := ev.Channel, text := "No accounts matches the conditions", attachments := [] }
  ⟨s.slackClient.PostMessage post, s.repository.callbacks, [post], listCalls⟩

/-- MessageListener.handleCleanupAccount. The result none is the run-time
panic of the slice expression [2:] on a command of fewer than two words. The
members of the directory answer are taken to be non-nil. -/
def handleCleanupAccount (s : MessageListener) (env : ListenerEnv) (cenv : CleanupEnv)
    (ev : MessageEvent) : Option CleanupOutcome :=
  match s.slackClient.GetUserInfo ev.User with
  | .error err => some ⟨some err, s.repository.callbacks, [], 0⟩
  | .ok user =>
    let cmd := stringsSplit (TrimSpace ev.Text) ' '
    if cmd.length < 2 then none
    else
      let options := cmd.drop 2
      match cleanupTargetMonth s.accountExpireMonth options with
      | .error e => some ⟨some e, s.repository.callbacks, [], 0⟩
      | .ok targetMonth =>
        match cenv.ListAccount with
        | .error e =>
          some ⟨some ("failed to get the target list that matches the conditions: " ++ e),
            s.repository.callbacks, [], 1⟩
        | .ok members =>
          if members.length == 0 then some (postNoAccounts s ev 1)
          else
            let expireTime := cenv.addMonths cenv.now (-targetMonth)
            let scanned := scanMembers cenv.parse3339 s.esaClient.GetTeamName expireTime
              [] [] members
            let screenNames := scanned.1
            let targets := scanned.2
            if screenNames.length == 0 then some (postNoAccounts s ev 1)
            else
              let callback : Callback :=
                { ID := CallbackMap.GenerateID env.format env.timeNow
                  Value := stringsJoin screenNames ","
                  Organization := ""
                  OwnerUser := { ID := user.ID, Name := user.Name, Email := user.Email } }
              let texts := [
                "Requester: " ++ WrapUserNameInLink user.Name,
                "Condition: 最終アクセス日時が " ++ cenv.formatDate expireTime
                  ++ " 以前の期限切れアカウント (" ++ toString screenNames.length
                  ++ "件) を削除します"] ++ targets
              let cm := s.repository.callbacks.Set callback
              let post : Post :=
                { channel := ev.Channel
                  text := ""
                  attachments := [
                    { Title := env.dateTimePrefix ++ "Confirm"
                      Text := "期限切れアカウント削除申請の内容を確認してください\n"
                        ++ WrapTextsInCodeBlock texts
                      Color := ColorCodeBlue
                      CallbackID := callback.ID
                      Actions := [
                        { Name := actionCleanupConfirm, Text := "OK, cleanup", Typ := "button",
                          Style := "primary", Options := [], SelectedOptions := [] },
                        { Name := actionCancel, Text := "Cancel", Typ := "button",
                          Style := "danger", Options := [], SelectedOptions := [] }]
                      Fields := [] }] }
              match s.slackClient.PostMessage post with
              | some err => some ⟨some ("failed to post message: " ++ err), cm, [post], 1⟩
              | none => some ⟨none, cm, [post], 1⟩

/-! ## esa.go: buildURL and the query options

The package net/url is outside the repository. The part of it that buildURL
and the query options depend on is modelled after the package: a URL value is
reduced to the text String() writes for its scheme, authority and path, its
ForceQuery flag, its RawQuery and its fragment; String(), Query(), Values.Set
and Values.Encode are written out; url.Parse, url.QueryEscape and
url.QueryUnescape are parameters. -/

/-- Go strings.Cut(s, sep) on characters, for a separator of one character:
the text before the first separator, the text after it, and whether the
separator was found. -/
def cutChars (sep : Char) : List Char → List Char × List Char × Bool
  | [] => ([], [], false)
  | c :: cs =>
    if c = sep then ([], cs, true)
    else
      let r := cutChars sep cs
      (c :: r.1, r.2.1, r.2.2)

/-- The type url.Values, a map from a key to its list of values. -/
abbrev Values := List (String × List String)

/-- The map index v[key] of a url.Values, nil for a key that is absent. -/
def Values.get (v : Values) (key : String) : List String :=
  (v.lookup key).getD []

/-- The statement v[key] = append(v[key], value) of url.ParseQuery. -/
def Values.add (v : Values) (key value : String) : Values :=
  match v.lookup key with
  | some vs => v.map (fun e => if e.1 = key then (key, vs ++ [value]) else e)
  | none => v ++ [(key, [value])]

/-- The method Values.Set: v[key] = []string{value}. -/
def Values.Set (v : Values) (key value : String) : Values :=
  (key, [value]) :: v.filter (fun e => e.1 != key)

/-- The type url.URL as buildURL sees it: head is the text String() writes
for the scheme, the authority and the path; Fragment is the text it writes
after the number sign. -/
structure URL where
  head : String
  ForceQuery : Bool
  RawQuery : String
  Fragment : String
deriving DecidableEq, Repr

/-- The functions of net/url taken as parameters: url.Parse (with its error),
url.QueryEscape and url.QueryUnescape (none for an error). -/
structure NetURL where
  Parse : String → Except String URL
  QueryEscape : String → String
  QueryUnescape : String → Option String

/-- The method URL.String: the head, then the query after a question mark when
ForceQuery is set or RawQuery is not empty, then the fragment after a number
sign when it is not empty. -/
def URL.String (u : URL) : String :=
  u.head ++ (if u.ForceQuery || u.RawQuery != "" then "?" ++ u.RawQuery else "")
    ++ (if u.Fragment != "" then "#" ++ u.Fragment else "")

/-- One setting of url.ParseQuery: a setting with a semicolon or an empty
setting is skipped, the others are cut at the first equals sign and both
halves unescaped; a setting that fails to unescape is skipped. -/
def parseSetting (lib : NetURL) (m : Values) (setting : List Char) : Values :=
  if setting.contains ';' then m
  else if setting.isEmpty then m
  else
    let c := cutChars '=' setting
    match lib.QueryUnescape (String.mk c.1) with
    | none => m
    | some key =>
      match lib.QueryUnescape (String.mk c.2.1) with
      | none => m
      | some value => m.add key value

/-- The method URL.Query: url.ParseQuery on RawQuery, its error dropped. -/
def URL.Query (lib : NetURL) (u : URL) : Values :=
  (splitChars '&' u.RawQuery.data).foldl (parseSetting lib) []

/-- The order of Go strings, byte by byte, which on texts in UTF-8 is the order
of their characters: a is at most b. -/
def keyLE : List Char → List Char → Bool
  | [], _ => true
  | _ :: _, [] => false
  | a :: as, b :: bs => decide (a.toNat < b.toNat) || (a.toNat == b.toNat && keyLE as bs)

/-- The method Values.Encode: the keys sorted, and for each key and each of its
values the setting key=value, both escaped, the settings joined by
ampersands. -/
def Values.Encode (lib : NetURL) (v : Values) : String :=
  stringsJoin
    (((v.map Prod.fst).insertionSort (fun a b => keyLE a.data b.data = true)).flatMap
      (fun k =>
        (v.get k).map (fun value => lib.QueryEscape k ++ "=" ++ lib.QueryEscape value)))
    "&"

/-- The type QueryOption of esa.go: a function that changes the URL or fails. -/
abbrev QueryOption := URL → Except String URL

/-- The three statements shared by the query options: q := in.Query(),
q.Set(key, value), in.RawQuery = q.Encode(). -/
def setQuery (lib : NetURL) (u : URL) (key value : String) : URL :=
  { u with RawQuery := ((u.Query lib).Set key value).Encode lib }

/-- QueryOptionPage. -/
def QueryOptionPage (lib : NetURL) (value : Int) : QueryOption := fun u =>
  if value < 1 then .error ("invalid page query: " ++ toString value)
  else .ok (setQuery lib u "page" (toString value))

/-- QueryOptionPerPage; the guard of the source is value < 1 && 100 < value. -/
def QueryOptionPerPage (lib : NetURL) (value : Int) : QueryOption := fun u =>
  if value < 1 && 100 < value then .error ("invalid per page query: " ++ toString value)
  else .ok (setQuery lib u "per_page" (toString value))

/-- QueryOptionSort. -/
def QueryOptionSort (lib : NetURL) (value : String) : QueryOption := fun u =>
  if value == "" then .error ("invalid sort query: " ++ value)
  else .ok (setQuery lib u "sort" value)

/-- QueryOptionOrder. -/
def QueryOptionOrder (lib : NetURL) (value : String) : QueryOption := fun u =>
  if value != "asc" && value != "desc" then .error ("invalid order query: " ++ value)
  else .ok (setQuery lib u "order" value)

/-- The loop of buildURL over the options: the first error ends it. -/
def applyOptions (u : URL) : List QueryOption → Except String URL
  | [] => .ok u
  | opt :: rest =>
    match opt u with
    | .error e => .error e
    | .ok u1 => applyOptions u1 rest

/-- The function buildURL of esa.go. -/
def buildURL (lib : NetURL) (raw : String) (options : List QueryOption) :
    Except String String :=
  match lib.Parse raw with
  | .error e => .error e
  | .ok u =>
    match applyOptions u options with
    | .error e => .error e
    | .ok u1 => .ok u1.String

/-! ## Definitions used by the statements: predicates, outcomes and samples -/

/-- The nine action names the dispatcher knows. -/
def actionNames : List String :=
  [actionInviteSelectOrganization, actionInviteConfirm, actionInviteApprove,
    actionDeleteConfirm, actionDeleteApprove, actionCleanupConfirm, actionCleanupApprove,
    actionCancel, actionReject]

/-- The outcome every handler has when Get does not find the request: the
expired notice, the swept store and no effect. -/
def expiredOutcome (h : InteractionHandler) (env : Env) (message : InteractionCallback) :
    Outcome :=
  ⟨.responseError message.OriginalMessage (":x: Request has expired: " ++ message.CallbackID),
    env.writeErr, h.repository.callbacks.cleanup env.parse env.timeNow, []⟩

/-- The outcome of a handler whose permission check fails: the hint with the
given wording on the original message, the swept store and no effect. -/
def deniedOutcome (h : InteractionHandler) (env : Env) (message : InteractionCallback)
    (suffix : String) : Outcome :=
  ⟨.responseHint message.OriginalMessage
      (":warning: " ++ WrapUserNameInLink message.User.Name ++ suffix),
    env.writeErr, h.repository.callbacks.cleanup env.parse env.timeNow, []⟩

/-- The wording of the permission hint of each action, as its handler writes it. -/
def deniedSuffix (action : String) : String :=
  if action = actionInviteSelectOrganization then
    " does not have select organization permission"
  else if action = actionInviteConfirm ∨ action = actionDeleteConfirm
      ∨ action = actionCleanupConfirm then
    " does not have confirm permission"
  else if action = actionInviteApprove ∨ action = actionDeleteApprove
      ∨ action = actionCleanupApprove then
    " does not have approve permission"
  else if action = actionCancel then " does not have cancel permission"
  else " does not have reject permission"

/-- The Unauthorized hint of an action: the reply responseHint on the original
message with the permission wording of that action for the caller. -/
def unauthorizedHint (message : InteractionCallback) (action : String) : Reply :=
  .responseHint message.OriginalMessage
    (":warning: " ++ WrapUserNameInLink message.User.Name ++ deniedSuffix action)

/-- Every entry of the map is stored under the id of its request. This holds of
the empty map and is kept by Set, by the sweep and by every handler. -/
def WellKeyed (cm : CallbackMap) : Prop :=
  ∀ e ∈ cm.values, e.2.ID = e.1

/-- The targets of the delete calls among the effects, in the order made. -/
def deleteCalls (effects : List Effect) : List String :=
  effects.filterMap (fun e =>
    match e with
    | .DeleteAccount target => some target
    | _ => none)

/-- The attachments of the message once the goroutine of handleCleanupApprove
has started: the approved original message followed by the Execute attachment. -/
def cleanupAttachments (env : Env) (message : InteractionCallback) : List Attachment :=
  setSuccessToLastAttachment message.OriginalMessage.Attachments
      (":white_check_mark: " ++ WrapUserNameInLink message.User.Name
        ++ " approved the request")
    ++ [executeAttachment env ":car: Starting delete expired account ..."]

/-- A member whose last access parses and lies strictly before the cutoff. -/
def staleBefore (parse3339 : String → Option Time) (expireTime : Time) (m : Member) : Bool :=
  match m.LastAccessedTime parse3339 with
  | some t => decide (t.unixNano < expireTime.unixNano)
  | none => false

/-- A sample time parser for the evaluations below: it knows two keys. -/
def sampleParse : String → Option Time := fun k =>
  if k = "2024-01-01T00:00:00Z" then some ⟨1704067200000000000⟩
  else if k = "2024-01-05T00:00:00Z" then some ⟨1704412800000000000⟩
  else none

/-- A sample request created at the second key of sampleParse. -/
def sampleRequest : Callback :=
  ⟨"2024-01-05T00:00:00Z", "alice", "", ⟨"U1", "user1", "user1@example.com"⟩⟩

/-- A sample administrator table, handler, environment and callback used by
the evaluations below. -/
def sampleHandler (values : List (String × Callback)) : InteractionHandler :=
  { esaClient :=
      { teamName := "team"
        InviteAccount := fun _ => none
        DeleteAccount := fun called target =>
          if called.length = 1 then some ("invalid status code: 500 for " ++ target)
          else none }
    repository :=
      { callbacks := ⟨values⟩
        admins := [("A1", ⟨"A1", "admin1", "admin1@example.com"⟩)]
        allowEmailDomains := []
        organizationList := ["Other"] }
    channelID := "C1"
    verificationToken := "secret"
    adminIDs := ["A1"]
    adminGroupID := "" }

/-- A sample environment: the clock reads six days after the creation of
sampleRequest. -/
def sampleEnv : Env :=
  { parse := sampleParse
    timeNow := ⟨1704931200000000000⟩
    dateTimePrefix := "01/11 00:00 - "
    writeErr := none }

/-- A sample interaction callback for the given request id, caller and action. -/
def sampleMessage (id : String) (caller : SlackUser) (action : String)
    (selected : List AttachmentActionOption) : InteractionCallback :=
  { Token := "secret"
    ChannelID := "C1"
    User := caller
    CallbackID := id
    MessageTs := "1704931200.000100"
    OriginalMessage :=
      { Attachments := [
          { Title := "01/05 00:00 - Confirm", Text := "request", Color := ColorCodeBlue,
            CallbackID := id, Actions := [], Fields := [] }]
        ReplaceOriginal := false }
    AttachmentActions := [
      { Name := action, Text := "", Typ := "button", Style := "",
        Options := [], SelectedOptions := selected }] }

/-- A sample parser of last-access timestamps for the evaluation below. -/
def sampleParse3339 : String → Option Time := fun k =>
  if k = "2023-01-01T00:00:00+09:00" then some ⟨1672498800000000000⟩
  else if k = "2023-12-01T00:00:00+09:00" then some ⟨1701356400000000000⟩
  else if k = "2023-02-01T00:00:00+09:00" then some ⟨1675177200000000000⟩
  else none

/-- Three sample members: the second is past the cutoff of the evaluation
below, the third is before it again. -/
def sampleMembers : List Member :=
  [⟨"Old", "old", "", 0, "", "2023-01-01T00:00:00+09:00", "old@example.com"⟩,
    ⟨"New", "new", "", 0, "", "2023-12-01T00:00:00+09:00", "new@example.com"⟩,
    ⟨"Late", "late", "", 0, "", "2023-02-01T00:00:00+09:00", "late@example.com"⟩]

/-- A sample listener: the user U1 has the address user1@example.com, every
post succeeds and the store is empty. -/
def sampleListener : MessageListener :=
  { slackClient :=
      { GetUserInfo := fun id =>
          if id = "U1" then .ok ⟨"U1", "user1", "user1@example.com"⟩
          else .error "user_not_found"
        PostMessage := fun _ => none }
    esaClient :=
      { teamName := "team"
        InviteAccount := fun _ => none
        DeleteAccount := fun _ _ => none }
    repository :=
      { callbacks := NewCallbackMap
        admins := [("A1", ⟨"A1", "admin1", "admin1@example.com"⟩)]
        allowEmailDomains := []
        organizationList := ["Other"] }
    botID := "B1"
    botName := "esa-bot"
    botUsageURL := ""
    accountExpireMonth := 6
    channelID := "C1" }

/-- A sample environment of the listener; the formatter knows the instant of
the sample clock. -/
def sampleListenerEnv : ListenerEnv :=
  { timeNow := ⟨1704412800000000000⟩
    format := fun _ => "2024-01-05T00:00:00Z"
    dateTimePrefix := "01/05 00:00 - " }

/-- A sample of govalidator.IsEmail for the evaluations: a text with an at
sign and without a blank. -/
def sampleIsEmail : String → Bool := fun text =>
  text.data.contains '@' && !text.data.contains ' '

/-- A sample environment of handleCleanupAccount: the directory holds
sampleMembers and a month is taken as thirty days. -/
def sampleCleanupEnv : CleanupEnv :=
  { now := ⟨1704412800000000000⟩
    addMonths := fun t months => ⟨t.unixNano + months * 2592000000000000⟩
    formatDate := fun _ => "2023/07/09"
    parse3339 := sampleParse3339
    ListAccount := .ok sampleMembers }

/-- A sample decoder: the unescaping is the identity and every body of one
byte decodes to the given callback. -/
def sampleDecoder (message : InteractionCallback) : Decoder :=
  { QueryUnescape := fun b => some b
    Unmarshal := fun b => if b.length = 1 then some message else none }

/-- The handler with its callback map replaced: the state in which the next
callback is handled. -/
def withCallbacks (h : InteractionHandler) (cm : CallbackMap) : InteractionHandler :=
  { h with repository := { h.repository with callbacks := cm } }

/-- A sequence of interaction callbacks handled one after the other, each in
its own environment, on the callback map the callback before it left. Returns
the callback map after the last one. -/
def runCallbacks (h : InteractionHandler) : List (Env × InteractionCallback) → CallbackMap
  | [] => h.repository.callbacks
  | step :: rest => runCallbacks (withCallbacks h (handle h step.1 step.2).callbacks) rest

/-- A sample of the net/url functions on the URLs of TestBuildURL and on one
URL with a fragment; the texts escaped in the evaluations have no character
that needs escaping. -/
def sampleNetURL : NetURL :=
  { Parse := fun raw =>
      if raw = "github.com" then .ok ⟨"github.com", false, "", ""⟩
      else if raw = "https://github.com" then .ok ⟨"https://github.com", false, "", ""⟩
      else if raw = "https://github.com#top" then .ok ⟨"https://github.com", false, "", "top"⟩
      else .error "parse: not a sample URL"
    QueryEscape := fun s => s
    QueryUnescape := fun s => some s }

/-- A call of one of the four option constructors of esa.go with its argument. -/
inductive OptionCall where
  | page (value : Int)
  | perPage (value : Int)
  | sort (value : String)
  | order (value : String)
deriving DecidableEq, Repr

/-- The QueryOption an option call constructs. -/
def OptionCall.toOption (lib : NetURL) : OptionCall → QueryOption
  | .page value => QueryOptionPage lib value
  | .perPage value => QueryOptionPerPage lib value
  | .sort value => QueryOptionSort lib value
  | .order value => QueryOptionOrder lib value

/-- The query parameter an option call sets: its key and its value. -/
def OptionCall.setting : OptionCall → String × String
  | .page value => ("page", toString value)
  | .perPage value => ("per_page", toString value)
  | .sort value => ("sort", value)
  | .order value => ("order", value)

/-- The key and the single value of a query parameter as an entry of url.Values. -/
def single (p : String × String) : String × List String := (p.1, [p.2])

/-- The text key=value of the parameters, escaped and joined by ampersands, in
the order of the list. -/
def encodePairs (lib : NetURL) (ps : List (String × String)) : String :=
  stringsJoin (ps.map (fun p => lib.QueryEscape p.1 ++ "=" ++ lib.QueryEscape p.2)) "&"

/-- The parameters of a list in ascending order of their keys, each key with
the first value the list gives it. -/
def canon (qs : List (String × String)) : List (String × String) :=
  ((qs.map Prod.fst).insertionSort (fun a b => keyLE a.data b.data = true)).filterMap
    (fun k => (qs.lookup k).map (fun v => (k, v)))

/-- An option call whose argument passes the check that esa.go intends: a page
of at least one, a page size from one to a hundred, a sort key that is not
empty, an order that is asc or desc. -/
def OptionCall.valid : OptionCall → Prop
  | .page value => 1 ≤ value
  | .perPage value => 1 ≤ value ∧ value ≤ 100
  | .sort value => value ≠ ""
  | .order value => value = "asc" ∨ value = "desc"

/-- What the results need of the escaping functions for one text: unescaping
its escaped form gives the text back, and the escaped form has no ampersand,
no equals sign and no semicolon. -/
def SafeText (lib : NetURL) (s : String) : Prop :=
  lib.QueryUnescape (lib.QueryEscape s) = some s
    ∧ ∀ c ∈ (lib.QueryEscape s).data, c ≠ '&' ∧ c ≠ '=' ∧ c ≠ ';'

/-! ## Lemmas on the callback map -/

theorem sub_gt_retention_iff (timeNow t : Time) :
    timeNow.Sub t > retention ↔ 604800000000000 < timeNow.unixNano - t.unixNano := by
  unfold Time.Sub retention Hour maxDuration minDuration Duration
  simp only []
  split_ifs <;> constructor <;> intro h <;> omega

theorem cleanupStep_eq (parse : String → Option Time) (timeNow : Time)
    (values : List (String × Callback)) (key : String) :
    cleanupStep parse timeNow values key
      = if fresh parse timeNow key then values else mapDelete values key := by
  unfold cleanupStep fresh
  cases h : parse key with
  | none => simp
  | some t =>
    simp only [sub_gt_retention_iff]
    by_cases h1 : 604800000000000 < timeNow.unixNano - t.unixNano
    · have : ¬ (timeNow.unixNano - t.unixNano ≤ 604800000000000) := by omega
      simp [h1, this]
    · have : timeNow.unixNano - t.unixNano ≤ 604800000000000 := by omega
      simp [h1, this]

theorem foldl_cleanupStep (parse : String → Option Time) (timeNow : Time)
    (ks : List String) (m : List (String × Callback)) :
    ks.foldl (cleanupStep parse timeNow) m
      = m.filter (fun e => !(decide (e.1 ∈ ks)) || fresh parse timeNow e.1) := by
  induction ks generalizing m with
  | nil => simp
  | cons k ks ih =>
    rw [List.foldl_cons, ih, cleanupStep_eq]
    by_cases hk : fresh parse timeNow k = true
    · simp only [hk, if_true]
      apply List.filter_congr
      intro e _
      by_cases he : e.1 = k
      · simp [he, hk]
      · simp [he]
    · simp only [hk, Bool.false_eq_true, if_false, mapDelete, List.filter_filter]
      apply List.filter_congr
      intro e _
      by_cases he : e.1 = k
      · simp [he, hk]
      · simp [he]

theorem cleanup_values (parse : String → Option Time) (timeNow : Time) (cm : CallbackMap) :
    (cm.cleanup parse timeNow).values
      = cm.values.filter (fun e => fresh parse timeNow e.1) := by
  unfold CallbackMap.cleanup
  simp only [foldl_cleanupStep]
  apply List.filter_congr
  intro e he
  have : e.1 ∈ cm.values.map Prod.fst := List.mem_map_of_mem _ he
  simp [this]

theorem lookup_filter_key (p : String → Bool) (m : List (String × Callback)) (k : String) :
    (m.filter (fun e => p e.1)).lookup k = if p k then m.lookup k else none := by
  induction m with
  | nil => simp
  | cons e m ih =>
    obtain ⟨a, b⟩ := e
    by_cases hpa : p a = true
    · rw [List.filter_cons_of_pos (by simpa using hpa)]
      by_cases hka : k = a
      · subst hka
        simp [List.lookup_cons, hpa]
      · have : (k == a) = false := by simpa using hka
        simp only [List.lookup_cons, this, ih]
    · rw [List.filter_cons_of_neg (by simpa using hpa)]
      by_cases hka : k = a
      · subst hka
        simp [List.lookup_cons, hpa, ih]
      · have : (k == a) = false := by simpa using hka
        simp only [List.lookup_cons, this, ih]

theorem lookup_cleanup (parse : String → Option Time) (timeNow : Time) (cm : CallbackMap)
    (k : String) :
    (cm.cleanup parse timeNow).values.lookup k
      = if fresh parse timeNow k then cm.values.lookup k else none := by
  rw [cleanup_values]
  exact lookup_filter_key (fresh parse timeNow) cm.values k

theorem lookup_mapDelete (m : List (String × Callback)) (key k : String) :
    (mapDelete m key).lookup k = if k = key then none else m.lookup k := by
  have h := lookup_filter_key (fun a => a != key) m k
  unfold mapDelete
  rw [h]
  by_cases hk : k = key <;> simp [hk]

theorem lookup_mapAssign (m : List (String × Callback)) (key k : String) (v : Callback) :
    (mapAssign m key v).lookup k = if k = key then some v else m.lookup k := by
  unfold mapAssign
  by_cases hk : k = key
  · subst hk
    simp [List.lookup_cons]
  · have : (k == key) = false := by simpa using hk
    simp only [List.lookup_cons, this, lookup_mapDelete, hk, if_false]

theorem fresh_iff (parse : String → Option Time) (timeNow : Time) (key : String) :
    fresh parse timeNow key = true
      ↔ ∃ t, parse key = some t ∧ timeNow.unixNano - t.unixNano ≤ 7 * 24 * 3600 * 1000000000 := by
  unfold fresh
  cases h : parse key with
  | none => simp
  | some t => simp

theorem get_fst (parse : String → Option Time) (timeNow : Time) (cm : CallbackMap)
    (k : String) :
    (cm.Get parse timeNow k).1
      = if fresh parse timeNow k then mapIndex cm.values k else (default, false) := by
  unfold CallbackMap.Get mapIndex
  simp only [lookup_cleanup]
  by_cases hk : fresh parse timeNow k = true <;> simp [hk]

theorem get_snd (parse : String → Option Time) (timeNow : Time) (cm : CallbackMap)
    (k : String) :
    (cm.Get parse timeNow k).2 = cm.cleanup parse timeNow := rfl

theorem mapIndex_eq_true (m : List (String × Callback)) (k : String) (cb : Callback) :
    mapIndex m k = (cb, true) ↔ m.lookup k = some cb := by
  unfold mapIndex
  cases h : m.lookup k with
  | none => simp
  | some v => simp

theorem mapIndex_of_none (m : List (String × Callback)) (k : String)
    (h : m.lookup k = none) : mapIndex m k = (default, false) := by
  unfold mapIndex
  rw [h]

/-! ## Lemmas on the handlers -/

theorem lookup_eq_none_iff_not_key (l : List (String × User)) (k : String) :
    l.lookup k = none ↔ k ∉ l.map Prod.fst := by
  induction l with
  | nil => simp
  | cons x xs ih =>
    obtain ⟨a, b⟩ := x
    by_cases hx : k = a
    · subst hx
      simp [List.lookup_cons]
    · have hb : (k == a) = false := by simpa using hx
      rw [List.lookup_cons, hb]
      simp only [ih, List.map_cons, List.mem_cons, hx, false_or]

theorem isAdminUserID_iff (r : Repository) (userID : String) :
    r.IsAdminUserID userID = true ↔ userID ∈ r.admins.map Prod.fst := by
  unfold Repository.IsAdminUserID
  have hl := lookup_eq_none_iff_not_key r.admins userID
  cases h : r.admins.lookup userID with
  | none =>
    have := hl.1 h
    simp [this]
  | some v =>
    have : userID ∈ r.admins.map Prod.fst := by
      by_contra hc
      rw [hl.2 hc] at h
      cases h
    simp only [true_iff]
    exact this

theorem handle_inviteConfirm (h : InteractionHandler) (env : Env) (message : InteractionCallback)
    (a : AttachmentAction) (rest : List AttachmentAction)
    (hact : message.AttachmentActions = a :: rest) (hname : a.Name = actionInviteConfirm) :
    handle h env message = handleConfirm h env message actionInviteApprove := by
  simp [handle, hact, hname]

theorem handle_inviteSelectOrganization (h : InteractionHandler) (env : Env)
    (message : InteractionCallback) (a : AttachmentAction) (rest : List AttachmentAction)
    (hact : message.AttachmentActions = a :: rest)
    (hname : a.Name = actionInviteSelectOrganization) :
    handle h env message = handleInviteSelectOrganization h env message := by
  simp [handle, hact, hname, actionInviteSelectOrganization, actionInviteConfirm]

theorem handle_inviteApprove (h : InteractionHandler) (env : Env) (message : InteractionCallback)
    (a : AttachmentAction) (rest : List AttachmentAction)
    (hact : message.AttachmentActions = a :: rest) (hname : a.Name = actionInviteApprove) :
    handle h env message = handleInviteApprove h env message := by
  simp [handle, hact, hname, actionInviteSelectOrganization, actionInviteConfirm,
    actionInviteApprove]

theorem handle_deleteConfirm (h : InteractionHandler) (env : Env) (message : InteractionCallback)
    (a : AttachmentAction) (rest : List AttachmentAction)
    (hact : message.AttachmentActions = a :: rest) (hname : a.Name = actionDeleteConfirm) :
    handle h env message = handleConfirm h env message actionDeleteApprove := by
  simp [handle, hact, hname, actionInviteSelectOrganization, actionInviteConfirm,
    actionInviteApprove, actionDeleteConfirm]

theorem handle_deleteApprove (h : InteractionHandler) (env : Env) (message : InteractionCallback)
    (a : AttachmentAction) (rest : List AttachmentAction)
    (hact : message.AttachmentActions = a :: rest) (hname : a.Name = actionDeleteApprove) :
    handle h env message = handleDeleteApprove h env message := by
  simp [handle, hact, hname, actionInviteSelectOrganization, actionInviteConfirm,
    actionInviteApprove, actionDeleteConfirm, actionDeleteApprove]

theorem handle_cleanupConfirm (h : InteractionHandler) (env : Env) (message : InteractionCallback)
    (a : AttachmentAction) (rest : List AttachmentAction)
    (hact : message.AttachmentActions = a :: rest) (hname : a.Name = actionCleanupConfirm) :
    handle h env message = handleConfirm h env message actionCleanupApprove := by
  simp [handle, hact, hname, actionInviteSelectOrganization, actionInviteConfirm,
    actionInviteApprove, actionDeleteConfirm, actionDeleteApprove, actionCleanupConfirm]

theorem handle_cleanupApprove (h : InteractionHandler) (env : Env) (message : InteractionCallback)
    (a : AttachmentAction) (rest : List AttachmentAction)
    (hact : message.AttachmentActions = a :: rest) (hname : a.Name = actionCleanupApprove) :
    handle h env message = handleCleanupApprove h env message := by
  simp [handle, hact, hname, actionInviteSelectOrganization, actionInviteConfirm,
    actionInviteApprove, actionDeleteConfirm, actionDeleteApprove, actionCleanupConfirm,
    actionCleanupApprove]

theorem handle_cancel (h : InteractionHandler) (env : Env) (message : InteractionCallback)
    (a : AttachmentAction) (rest : List AttachmentAction)
    (hact : message.AttachmentActions = a :: rest) (hname : a.Name = actionCancel) :
    handle h env message = handleCancel h env message := by
  simp [handle, hact, hname, actionInviteSelectOrganization, actionInviteConfirm,
    actionInviteApprove, actionDeleteConfirm, actionDeleteApprove, actionCleanupConfirm,
    actionCleanupApprove, actionCancel]

theorem handle_reject (h : InteractionHandler) (env : Env) (message : InteractionCallback)
    (a : AttachmentAction) (rest : List AttachmentAction)
    (hact : message.AttachmentActions = a :: rest) (hname : a.Name = actionReject) :
    handle h env message = handleReject h env message := by
  simp [handle, hact, hname, actionInviteSelectOrganization, actionInviteConfirm,
    actionInviteApprove, actionDeleteConfirm, actionDeleteApprove, actionCleanupConfirm,
    actionCleanupApprove, actionCancel, actionReject]

theorem required_ne_denied (name : String) :
    ":warning: organization is required"
      ≠ ":warning: " ++ WrapUserNameInLink name
          ++ " does not have select organization permission" := by
  intro h
  have h1 := congrArg String.data h
  simp [WrapUserNameInLink, String.data_append] at h1

theorem handleCancel_expired (h : InteractionHandler) (env : Env) (message : InteractionCallback)
    (hnot : (h.repository.callbacks.Get env.parse env.timeNow message.CallbackID).1.2 = false) :
    handleCancel h env message = expiredOutcome h env message := by
  simp [handleCancel, hnot, expiredOutcome, get_snd]

theorem handleReject_expired (h : InteractionHandler) (env : Env) (message : InteractionCallback)
    (hnot : (h.repository.callbacks.Get env.parse env.timeNow message.CallbackID).1.2 = false) :
    handleReject h env message = expiredOutcome h env message := by
  simp [handleReject, hnot, expiredOutcome, get_snd]

theorem handleConfirm_expired (h : InteractionHandler) (env : Env) (message : InteractionCallback)
    (next : String)
    (hnot : (h.repository.callbacks.Get env.parse env.timeNow message.CallbackID).1.2 = false) :
    handleConfirm h env message next = expiredOutcome h env message := by
  simp [handleConfirm, hnot, expiredOutcome, get_snd]

theorem handleInviteSelectOrganization_expired (h : InteractionHandler) (env : Env)
    (message : InteractionCallback)
    (hnot : (h.repository.callbacks.Get env.parse env.timeNow message.CallbackID).1.2 = false) :
    handleInviteSelectOrganization h env message = expiredOutcome h env message := by
  simp [handleInviteSelectOrganization, hnot, expiredOutcome, get_snd]

theorem handleInviteApprove_expired (h : InteractionHandler) (env : Env)
    (message : InteractionCallback)
    (hnot : (h.repository.callbacks.Get env.parse env.timeNow message.CallbackID).1.2 = false) :
    handleInviteApprove h env message = expiredOutcome h env message := by
  simp [handleInviteApprove, hnot, expiredOutcome, get_snd]

theorem handleDeleteApprove_expired (h : InteractionHandler) (env : Env)
    (message : InteractionCallback)
    (hnot : (h.repository.callbacks.Get env.parse env.timeNow message.CallbackID).1.2 = false) :
    handleDeleteApprove h env message = expiredOutcome h env message := by
  simp [handleDeleteApprove, hnot, expiredOutcome, get_snd]

theorem handleCleanupApprove_expired (h : InteractionHandler) (env : Env)
    (message : InteractionCallback)
    (hnot : (h.repository.callbacks.Get env.parse env.timeNow message.CallbackID).1.2 = false) :
    handleCleanupApprove h env message = expiredOutcome h env message := by
  simp [handleCleanupApprove, hnot, expiredOutcome, get_snd]

theorem handle_expired (h : InteractionHandler) (env : Env) (message : InteractionCallback)
    (a : AttachmentAction) (rest : List AttachmentAction)
    (hact : message.AttachmentActions = a :: rest) (hname : a.Name ∈ actionNames)
    (hnot : (h.repository.callbacks.Get env.parse env.timeNow message.CallbackID).1.2 = false) :
    handle h env message = expiredOutcome h env message := by
  simp only [actionNames, List.mem_cons, List.mem_singleton, List.not_mem_nil, or_false]
    at hname
  rcases hname with hn | hn | hn | hn | hn | hn | hn | hn | hn
  · rw [handle_inviteSelectOrganization h env message a rest hact hn]
    exact handleInviteSelectOrganization_expired h env message hnot
  · rw [handle_inviteConfirm h env message a rest hact hn]
    exact handleConfirm_expired h env message _ hnot
  · rw [handle_inviteApprove h env message a rest hact hn]
    exact handleInviteApprove_expired h env message hnot
  · rw [handle_deleteConfirm h env message a rest hact hn]
    exact handleConfirm_expired h env message _ hnot
  · rw [handle_deleteApprove h env message a rest hact hn]
    exact handleDeleteApprove_expired h env message hnot
  · rw [handle_cleanupConfirm h env message a rest hact hn]
    exact handleConfirm_expired h env message _ hnot
  · rw [handle_cleanupApprove h env message a rest hact hn]
    exact handleCleanupApprove_expired h env message hnot
  · rw [handle_cancel h env message a rest hact hn]
    exact handleCancel_expired h env message hnot
  · rw [handle_reject h env message a rest hact hn]
    exact handleReject_expired h env message hnot

theorem get_not_found_of_stale (parse : String → Option Time) (timeNow : Time)
    (cm : CallbackMap) (k : String)
    (hexp : (∃ t, parse k = some t
        ∧ 7 * 24 * 3600 * 1000000000 < timeNow.unixNano - t.unixNano)
      ∨ cm.values.lookup k = none) :
    (cm.Get parse timeNow k).1.2 = false := by
  rw [get_fst]
  rcases hexp with ⟨t, ht, hlt⟩ | hnone
  · have : fresh parse timeNow k = false := by
      unfold fresh
      rw [ht]
      simp only [decide_eq_false_iff_not]
      omega
    simp [this]
  · rw [mapIndex_of_none _ _ hnone]
    by_cases hf : fresh parse timeNow k = true <;> simp [hf]

theorem handleCancel_denied (h : InteractionHandler) (env : Env) (message : InteractionCallback)
    (cb : Callback)
    (hget : (h.repository.callbacks.Get env.parse env.timeNow message.CallbackID).1 = (cb, true))
    (hne : cb.OwnerUser.ID ≠ message.User.ID) :
    handleCancel h env message = deniedOutcome h env message " does not have cancel permission" := by
  simp [handleCancel, hget, hne, deniedOutcome, get_snd]

theorem handleCancel_permitted (h : InteractionHandler) (env : Env)
    (message : InteractionCallback) (cb : Callback)
    (hget : (h.repository.callbacks.Get env.parse env.timeNow message.CallbackID).1 = (cb, true))
    (heq : cb.OwnerUser.ID = message.User.ID) :
    handleCancel h env message
      = ⟨.responseWarning message.OriginalMessage
          (":x: " ++ WrapUserNameInLink message.User.Name ++ " canceled the request"),
        env.writeErr, h.repository.callbacks.cleanup env.parse env.timeNow, []⟩ := by
  simp [handleCancel, hget, heq, get_snd]

theorem handleReject_denied (h : InteractionHandler) (env : Env) (message : InteractionCallback)
    (cb : Callback)
    (hget : (h.repository.callbacks.Get env.parse env.timeNow message.CallbackID).1 = (cb, true))
    (hadm : h.repository.IsAdminUserID message.User.ID = false)
    (hne : cb.OwnerUser.ID ≠ message.User.ID) :
    handleReject h env message = deniedOutcome h env message " does not have reject permission" := by
  simp [handleReject, hget, hne, hadm, deniedOutcome, get_snd]

theorem handleReject_permitted (h : InteractionHandler) (env : Env)
    (message : InteractionCallback) (cb : Callback)
    (hget : (h.repository.callbacks.Get env.parse env.timeNow message.CallbackID).1 = (cb, true))
    (hok : h.repository.IsAdminUserID message.User.ID = true
      ∨ cb.OwnerUser.ID = message.User.ID) :
    handleReject h env message
      = ⟨.responseWarning message.OriginalMessage
          (":x: " ++ WrapUserNameInLink message.User.Name ++ " rejected the request"),
        env.writeErr, h.repository.callbacks.cleanup env.parse env.timeNow, []⟩ := by
  rcases hok with hadm | heq
  · simp [handleReject, hget, hadm, get_snd]
  · simp [handleReject, hget, heq, get_snd]

theorem handleConfirm_denied (h : InteractionHandler) (env : Env) (message : InteractionCallback)
    (next : String) (cb : Callback)
    (hget : (h.repository.callbacks.Get env.parse env.timeNow message.CallbackID).1 = (cb, true))
    (hne : cb.OwnerUser.ID ≠ message.User.ID) :
    handleConfirm h env message next
      = deniedOutcome h env message " does not have confirm permission" := by
  simp [handleConfirm, hget, hne, deniedOutcome, get_snd]

theorem handleConfirm_permitted (h : InteractionHandler) (env : Env)
    (message : InteractionCallback) (next : String) (cb : Callback)
    (hget : (h.repository.callbacks.Get env.parse env.timeNow message.CallbackID).1 = (cb, true))
    (heq : cb.OwnerUser.ID = message.User.ID) :
    (∃ msg, (handleConfirm h env message next).reply = .response msg)
      ∧ (handleConfirm h env message next).callbacks
          = h.repository.callbacks.cleanup env.parse env.timeNow
      ∧ (handleConfirm h env message next).effects = [] := by
  simp [handleConfirm, hget, heq, get_snd]

theorem handleInviteSelectOrganization_denied (h : InteractionHandler) (env : Env)
    (message : InteractionCallback) (cb : Callback)
    (hget : (h.repository.callbacks.Get env.parse env.timeNow message.CallbackID).1 = (cb, true))
    (hne : cb.OwnerUser.ID ≠ message.User.ID) :
    handleInviteSelectOrganization h env message
      = deniedOutcome h env message " does not have select organization permission" := by
  simp [handleInviteSelectOrganization, hget, hne, deniedOutcome, get_snd]

/-- The three ways a select-organization by the owner ends: a panic of an
index expression, the hint that an organization is required, or the stored
request rewritten with the selected organization. -/
theorem handleInviteSelectOrganization_permitted (h : InteractionHandler) (env : Env)
    (message : InteractionCallback) (cb : Callback)
    (hget : (h.repository.callbacks.Get env.parse env.timeNow message.CallbackID).1 = (cb, true))
    (heq : cb.OwnerUser.ID = message.User.ID) :
    ((handleInviteSelectOrganization h env message).reply = .indexOutOfRange
        ∧ (handleInviteSelectOrganization h env message).callbacks
            = h.repository.callbacks.cleanup env.parse env.timeNow
        ∧ (message.AttachmentActions = []
            ∨ ∃ a rest, message.AttachmentActions = a :: rest ∧ a.SelectedOptions = []))
      ∨ ((handleInviteSelectOrganization h env message).reply
            = .responseHint message.OriginalMessage ":warning: organization is required"
        ∧ (handleInviteSelectOrganization h env message).callbacks
            = h.repository.callbacks.cleanup env.parse env.timeNow
        ∧ ∃ a rest sel more, message.AttachmentActions = a :: rest
            ∧ a.SelectedOptions = sel :: more ∧ sel.Value = "")
      ∨ ((∃ msg, (handleInviteSelectOrganization h env message).reply = .response msg)
        ∧ ∃ a rest sel more, message.AttachmentActions = a :: rest
            ∧ a.SelectedOptions = sel :: more ∧ sel.Value ≠ ""
            ∧ (handleInviteSelectOrganization h env message).callbacks
              = (h.repository.callbacks.cleanup env.parse env.timeNow).Set
                  { cb with Organization := sel.Value }) := by
  cases hacts : message.AttachmentActions with
  | nil =>
    left
    simp [handleInviteSelectOrganization, hget, heq, get_snd, hacts]
  | cons a rest =>
    cases hsel : a.SelectedOptions with
    | nil =>
      left
      simp [handleInviteSelectOrganization, hget, heq, get_snd, hacts, hsel]
    | cons sel more =>
      by_cases hv : sel.Value = ""
      · right; left
        simp [handleInviteSelectOrganization, hget, heq, get_snd, hacts, hsel, hv]
      · right; right
        simp [handleInviteSelectOrganization, hget, heq, get_snd, hacts, hsel, hv]

theorem handleInviteSelectOrganization_effects (h : InteractionHandler) (env : Env)
    (message : InteractionCallback) :
    (handleInviteSelectOrganization h env message).effects = [] := by
  unfold handleInviteSelectOrganization
  simp only []
  repeat' split
  all_goals rfl

theorem handleInviteApprove_denied (h : InteractionHandler) (env : Env)
    (message : InteractionCallback) (cb : Callback)
    (hget : (h.repository.callbacks.Get env.parse env.timeNow message.CallbackID).1 = (cb, true))
    (hadm : h.repository.IsAdminUserID message.User.ID = false) :
    handleInviteApprove h env message
      = deniedOutcome h env message " does not have approve permission" := by
  simp [handleInviteApprove, hget, hadm, deniedOutcome, get_snd]

theorem handleDeleteApprove_denied (h : InteractionHandler) (env : Env)
    (message : InteractionCallback) (cb : Callback)
    (hget : (h.repository.callbacks.Get env.parse env.timeNow message.CallbackID).1 = (cb, true))
    (hadm : h.repository.IsAdminUserID message.User.ID = false) :
    handleDeleteApprove h env message
      = deniedOutcome h env message " does not have approve permission" := by
  simp [handleDeleteApprove, hget, hadm, deniedOutcome, get_snd]

theorem handleCleanupApprove_denied (h : InteractionHandler) (env : Env)
    (message : InteractionCallback) (cb : Callback)
    (hget : (h.repository.callbacks.Get env.parse env.timeNow message.CallbackID).1 = (cb, true))
    (hadm : h.repository.IsAdminUserID message.User.ID = false) :
    handleCleanupApprove h env message
      = deniedOutcome h env message " does not have approve permission" := by
  simp [handleCleanupApprove, hget, hadm, deniedOutcome, get_snd]

theorem handleInviteApprove_permitted (h : InteractionHandler) (env : Env)
    (message : InteractionCallback) (cb : Callback)
    (hget : (h.repository.callbacks.Get env.parse env.timeNow message.CallbackID).1 = (cb, true))
    (hadm : h.repository.IsAdminUserID message.User.ID = true) :
    (handleInviteApprove h env message).reply
        = .responseSuccess message.OriginalMessage
            (":white_check_mark: " ++ WrapUserNameInLink message.User.Name
              ++ " approved the request")
      ∧ (handleInviteApprove h env message).callbacks
          = h.repository.callbacks.cleanup env.parse env.timeNow := by
  simp only [handleInviteApprove, hget, hadm, get_snd]
  cases env.writeErr with
  | some e => simp
  | none => cases h.esaClient.InviteAccount cb.Value <;> simp

theorem handleDeleteApprove_permitted (h : InteractionHandler) (env : Env)
    (message : InteractionCallback) (cb : Callback)
    (hget : (h.repository.callbacks.Get env.parse env.timeNow message.CallbackID).1 = (cb, true))
    (hadm : h.repository.IsAdminUserID message.User.ID = true) :
    (handleDeleteApprove h env message).reply
        = .responseSuccess message.OriginalMessage
            (":white_check_mark: " ++ WrapUserNameInLink message.User.Name
              ++ " approved the request")
      ∧ (handleDeleteApprove h env message).callbacks
          = h.repository.callbacks.cleanup env.parse env.timeNow := by
  simp only [handleDeleteApprove, hget, hadm, get_snd]
  cases env.writeErr with
  | some e => simp
  | none => cases h.esaClient.DeleteAccount [] cb.Value <;> simp

theorem handleCleanupApprove_permitted (h : InteractionHandler) (env : Env)
    (message : InteractionCallback) (cb : Callback)
    (hget : (h.repository.callbacks.Get env.parse env.timeNow message.CallbackID).1 = (cb, true))
    (hadm : h.repository.IsAdminUserID message.User.ID = true) :
    (handleCleanupApprove h env message).reply
        = .responseSuccess message.OriginalMessage
            (":white_check_mark: " ++ WrapUserNameInLink message.User.Name
              ++ " approved the request")
      ∧ (handleCleanupApprove h env message).callbacks
          = h.repository.callbacks.cleanup env.parse env.timeNow := by
  simp only [handleCleanupApprove, hget, hadm, get_snd]
  cases env.writeErr with
  | some e => simp
  | none =>
    simp only [Bool.not_true, Bool.false_eq_true, if_false]
    split <;> simp

theorem deniedOutcome_reply (h : InteractionHandler) (env : Env)
    (message : InteractionCallback) (action : String) :
    (deniedOutcome h env message (deniedSuffix action)).reply
      = unauthorizedHint message action := rfl

theorem deniedSuffix_select : deniedSuffix actionInviteSelectOrganization
    = " does not have select organization permission" := by decide

theorem deniedSuffix_inviteConfirm : deniedSuffix actionInviteConfirm
    = " does not have confirm permission" := by decide

theorem deniedSuffix_deleteConfirm : deniedSuffix actionDeleteConfirm
    = " does not have confirm permission" := by decide

theorem deniedSuffix_cleanupConfirm : deniedSuffix actionCleanupConfirm
    = " does not have confirm permission" := by decide

theorem deniedSuffix_inviteApprove : deniedSuffix actionInviteApprove
    = " does not have approve permission" := by decide

theorem deniedSuffix_deleteApprove : deniedSuffix actionDeleteApprove
    = " does not have approve permission" := by decide

theorem deniedSuffix_cleanupApprove : deniedSuffix actionCleanupApprove
    = " does not have approve permission" := by decide

theorem deniedSuffix_cancel : deniedSuffix actionCancel
    = " does not have cancel permission" := by decide

theorem deniedSuffix_reject : deniedSuffix actionReject
    = " does not have reject permission" := by decide

/-- Owner-only actions: the handler is denied exactly when the caller is not
the owner, and then its outcome is the denied outcome. -/
theorem handle_ownerOnly (h : InteractionHandler) (env : Env) (message : InteractionCallback)
    (a : AttachmentAction) (rest : List AttachmentAction) (cb : Callback)
    (hact : message.AttachmentActions = a :: rest)
    (hget : (h.repository.callbacks.Get env.parse env.timeNow message.CallbackID).1 = (cb, true))
    (hname : a.Name ∈ [actionInviteSelectOrganization, actionInviteConfirm,
      actionDeleteConfirm, actionCleanupConfirm, actionCancel]) :
    (cb.OwnerUser.ID ≠ message.User.ID
        → handle h env message = deniedOutcome h env message (deniedSuffix a.Name))
      ∧ (cb.OwnerUser.ID = message.User.ID
        → (handle h env message).reply ≠ unauthorizedHint message a.Name) := by
  simp only [List.mem_cons, List.mem_singleton, List.not_mem_nil, or_false] at hname
  rcases hname with hn | hn | hn | hn | hn
  · rw [handle_inviteSelectOrganization h env message a rest hact hn, hn, deniedSuffix_select]
    refine ⟨handleInviteSelectOrganization_denied h env message cb hget, ?_⟩
    intro heq
    unfold unauthorizedHint
    rw [deniedSuffix_select]
    rcases handleInviteSelectOrganization_permitted h env message cb hget heq with
      h1 | h1 | h1
    · rw [h1.1]
      intro hc
      cases hc
    · rw [h1.1]
      intro hc
      injection hc with _ htxt
      exact required_ne_denied _ htxt
    · obtain ⟨⟨msg, hmsg⟩, _⟩ := h1
      rw [hmsg]
      intro hc
      cases hc
  · rw [handle_inviteConfirm h env message a rest hact hn, hn, deniedSuffix_inviteConfirm]
    refine ⟨handleConfirm_denied h env message _ cb hget, ?_⟩
    intro heq
    obtain ⟨⟨msg, hmsg⟩, _⟩ := handleConfirm_permitted h env message actionInviteApprove cb
      hget heq
    rw [hmsg]
    intro hc
    cases hc
  · rw [handle_deleteConfirm h env message a rest hact hn, hn, deniedSuffix_deleteConfirm]
    refine ⟨handleConfirm_denied h env message _ cb hget, ?_⟩
    intro heq
    obtain ⟨⟨msg, hmsg⟩, _⟩ := handleConfirm_permitted h env message actionDeleteApprove cb
      hget heq
    rw [hmsg]
    intro hc
    cases hc
  · rw [handle_cleanupConfirm h env message a rest hact hn, hn, deniedSuffix_cleanupConfirm]
    refine ⟨handleConfirm_denied h env message _ cb hget, ?_⟩
    intro heq
    obtain ⟨⟨msg, hmsg⟩, _⟩ := handleConfirm_permitted h env message actionCleanupApprove cb
      hget heq
    rw [hmsg]
    intro hc
    cases hc
  · rw [handle_cancel h env message a rest hact hn, hn, deniedSuffix_cancel]
    refine ⟨handleCancel_denied h env message cb hget, ?_⟩
    intro heq
    rw [handleCancel_permitted h env message cb hget heq]
    intro hc
    cases hc

/-- Administrator-only actions. -/
theorem handle_adminOnly (h : InteractionHandler) (env : Env) (message : InteractionCallback)
    (a : AttachmentAction) (rest : List AttachmentAction) (cb : Callback)
    (hact : message.AttachmentActions = a :: rest)
    (hget : (h.repository.callbacks.Get env.parse env.timeNow message.CallbackID).1 = (cb, true))
    (hname : a.Name ∈ [actionInviteApprove, actionDeleteApprove, actionCleanupApprove]) :
    (h.repository.IsAdminUserID message.User.ID = false
        → handle h env message = deniedOutcome h env message (deniedSuffix a.Name))
      ∧ (h.repository.IsAdminUserID message.User.ID = true
        → (handle h env message).reply ≠ unauthorizedHint message a.Name) := by
  simp only [List.mem_cons, List.mem_singleton, List.not_mem_nil, or_false] at hname
  rcases hname with hn | hn | hn
  · rw [handle_inviteApprove h env message a rest hact hn, hn, deniedSuffix_inviteApprove]
    refine ⟨handleInviteApprove_denied h env message cb hget, ?_⟩
    intro hadm
    rw [(handleInviteApprove_permitted h env message cb hget hadm).1]
    intro hc
    cases hc
  · rw [handle_deleteApprove h env message a rest hact hn, hn, deniedSuffix_deleteApprove]
    refine ⟨handleDeleteApprove_denied h env message cb hget, ?_⟩
    intro hadm
    rw [(handleDeleteApprove_permitted h env message cb hget hadm).1]
    intro hc
    cases hc
  · rw [handle_cleanupApprove h env message a rest hact hn, hn, deniedSuffix_cleanupApprove]
    refine ⟨handleCleanupApprove_denied h env message cb hget, ?_⟩
    intro hadm
    rw [(handleCleanupApprove_permitted h env message cb hget hadm).1]
    intro hc
    cases hc

/-- The action reject. -/
theorem handle_rejectAction (h : InteractionHandler) (env : Env) (message : InteractionCallback)
    (a : AttachmentAction) (rest : List AttachmentAction) (cb : Callback)
    (hact : message.AttachmentActions = a :: rest)
    (hget : (h.repository.callbacks.Get env.parse env.timeNow message.CallbackID).1 = (cb, true))
    (hname : a.Name = actionReject) :
    (h.repository.IsAdminUserID message.User.ID = false ∧ cb.OwnerUser.ID ≠ message.User.ID
        → handle h env message = deniedOutcome h env message (deniedSuffix a.Name))
      ∧ (h.repository.IsAdminUserID message.User.ID = true
          ∨ cb.OwnerUser.ID = message.User.ID
        → (handle h env message).reply ≠ unauthorizedHint message a.Name) := by
  rw [handle_reject h env message a rest hact hname, hname, deniedSuffix_reject]
  refine ⟨fun hd => handleReject_denied h env message cb hget hd.1 hd.2, ?_⟩
  intro hok
  rw [handleReject_permitted h env message cb hget hok]
  intro hc
  cases hc

theorem get_after_cleanup (parse : String → Option Time) (timeNow t : Time)
    (cm : CallbackMap) (k : String) (hf : fresh parse timeNow k = true) :
    ((cm.cleanup parse timeNow).Get parse t k).1 = (cm.Get parse t k).1 := by
  rw [get_fst, get_fst]
  unfold mapIndex
  rw [lookup_cleanup, if_pos hf]

theorem fresh_of_get (parse : String → Option Time) (timeNow : Time)
    (cm : CallbackMap) (k : String) (cb : Callback)
    (hget : (cm.Get parse timeNow k).1 = (cb, true)) :
    fresh parse timeNow k = true ∧ cm.values.lookup k = some cb := by
  rw [get_fst] at hget
  by_cases hf : fresh parse timeNow k = true
  · rw [if_pos hf, mapIndex_eq_true] at hget
    exact ⟨hf, hget⟩
  · rw [if_neg hf] at hget
    cases hget

theorem mem_of_lookup (m : List (String × Callback)) (k : String) (v : Callback)
    (hl : m.lookup k = some v) : (k, v) ∈ m := by
  induction m with
  | nil => cases hl
  | cons x xs ih =>
    obtain ⟨a, b⟩ := x
    by_cases hx : k = a
    · subst hx
      simp only [List.lookup_cons, beq_self_eq_true] at hl
      cases hl
      exact List.mem_cons_self _ _
    · have hb : (k == a) = false := by simpa using hx
      rw [List.lookup_cons, hb] at hl
      exact List.mem_cons_of_mem _ (ih hl)

theorem wellKeyed_lookup (cm : CallbackMap) (hwk : WellKeyed cm) (k : String) (v : Callback)
    (hl : cm.values.lookup k = some v) : v.ID = k :=
  hwk (k, v) (mem_of_lookup cm.values k v hl)

theorem wellKeyed_new : WellKeyed NewCallbackMap := by
  intro e he
  cases he

theorem wellKeyed_cleanup (parse : String → Option Time) (timeNow : Time) (cm : CallbackMap)
    (hwk : WellKeyed cm) : WellKeyed (cm.cleanup parse timeNow) := by
  intro e he
  rw [cleanup_values] at he
  exact hwk e (List.mem_filter.1 he).1

theorem wellKeyed_set (cm : CallbackMap) (hwk : WellKeyed cm) (v : Callback) :
    WellKeyed (cm.Set v) := by
  intro e he
  simp only [CallbackMap.Set, mapAssign, mapDelete, List.mem_cons] at he
  rcases he with h1 | h1
  · rw [h1]
  · exact hwk e (List.mem_filter.1 h1).1

theorem handleCancel_callbacks (h : InteractionHandler) (env : Env)
    (message : InteractionCallback) :
    (handleCancel h env message).callbacks
      = h.repository.callbacks.cleanup env.parse env.timeNow := by
  unfold handleCancel
  simp only []
  repeat' split
  all_goals rfl

theorem handleReject_callbacks (h : InteractionHandler) (env : Env)
    (message : InteractionCallback) :
    (handleReject h env message).callbacks
      = h.repository.callbacks.cleanup env.parse env.timeNow := by
  unfold handleReject
  simp only []
  repeat' split
  all_goals rfl

theorem handleConfirm_callbacks (h : InteractionHandler) (env : Env)
    (message : InteractionCallback) (next : String) :
    (handleConfirm h env message next).callbacks
      = h.repository.callbacks.cleanup env.parse env.timeNow := by
  unfold handleConfirm
  simp only []
  repeat' split
  all_goals rfl

theorem handleInviteApprove_callbacks (h : InteractionHandler) (env : Env)
    (message : InteractionCallback) :
    (handleInviteApprove h env message).callbacks
      = h.repository.callbacks.cleanup env.parse env.timeNow := by
  unfold handleInviteApprove
  simp only []
  repeat' split
  all_goals rfl

theorem handleDeleteApprove_callbacks (h : InteractionHandler) (env : Env)
    (message : InteractionCallback) :
    (handleDeleteApprove h env message).callbacks
      = h.repository.callbacks.cleanup env.parse env.timeNow := by
  unfold handleDeleteApprove
  simp only []
  repeat' split
  all_goals rfl

theorem handleCleanupApprove_callbacks (h : InteractionHandler) (env : Env)
    (message : InteractionCallback) :
    (handleCleanupApprove h env message).callbacks
      = h.repository.callbacks.cleanup env.parse env.timeNow := by
  unfold handleCleanupApprove
  simp only []
  repeat' split
  all_goals rfl

/-- The store after select-organization: the swept store, or the swept store
with the request found rewritten with the selected organization; the latter
only when the caller owns the request and the selection is not empty. -/
theorem handleInviteSelectOrganization_callbacks (h : InteractionHandler) (env : Env)
    (message : InteractionCallback) :
    (handleInviteSelectOrganization h env message).callbacks
        = h.repository.callbacks.cleanup env.parse env.timeNow
      ∨ ∃ cb a rest sel more,
          (h.repository.callbacks.Get env.parse env.timeNow message.CallbackID).1 = (cb, true)
          ∧ cb.OwnerUser.ID = message.User.ID
          ∧ message.AttachmentActions = a :: rest
          ∧ a.SelectedOptions = sel :: more ∧ sel.Value ≠ ""
          ∧ (handleInviteSelectOrganization h env message).callbacks
            = (h.repository.callbacks.cleanup env.parse env.timeNow).Set
                { cb with Organization := sel.Value } := by
  cases hg : (h.repository.callbacks.Get env.parse env.timeNow message.CallbackID).1 with
  | mk cb ok =>
    cases ok with
    | false =>
      left
      rw [handleInviteSelectOrganization_expired h env message (by rw [hg])]
      rfl
    | true =>
      by_cases heq : cb.OwnerUser.ID = message.User.ID
      · rcases handleInviteSelectOrganization_permitted h env message cb hg heq with
          h1 | h1 | h1
        · exact Or.inl h1.2.1
        · exact Or.inl h1.2.1
        · obtain ⟨_, a, rest, sel, more, ha, hs, hv, hc⟩ := h1
          exact Or.inr ⟨cb, a, rest, sel, more, rfl, heq, ha, hs, hv, hc⟩
      · left
        rw [handleInviteSelectOrganization_denied h env message cb hg heq]
        rfl

/-- The store after any callback, whatever its action: untouched (a panic or
an unknown action), swept, or swept and rewritten by a successful
select-organization. -/
theorem handle_callbacks (h : InteractionHandler) (env : Env) (message : InteractionCallback) :
    (handle h env message).callbacks = h.repository.callbacks
      ∨ (handle h env message).callbacks
          = h.repository.callbacks.cleanup env.parse env.timeNow
      ∨ ∃ cb a rest sel more,
          (h.repository.callbacks.Get env.parse env.timeNow message.CallbackID).1 = (cb, true)
          ∧ cb.OwnerUser.ID = message.User.ID
          ∧ message.AttachmentActions = a :: rest
          ∧ a.Name = actionInviteSelectOrganization
          ∧ a.SelectedOptions = sel :: more ∧ sel.Value ≠ ""
          ∧ (handle h env message).callbacks
            = (h.repository.callbacks.cleanup env.parse env.timeNow).Set
                { cb with Organization := sel.Value } := by
  cases hact : message.AttachmentActions with
  | nil =>
    left
    simp [handle, hact]
  | cons a rest =>
    by_cases h1 : a.Name = actionInviteConfirm
    · rw [handle_inviteConfirm h env message a rest hact h1]
      exact Or.inr (Or.inl (handleConfirm_callbacks h env message _))
    by_cases h2 : a.Name = actionInviteSelectOrganization
    · rw [handle_inviteSelectOrganization h env message a rest hact h2]
      rcases handleInviteSelectOrganization_callbacks h env message with hc | hc
      · exact Or.inr (Or.inl hc)
      · obtain ⟨cb, a1, rest1, sel, more, hg, ho, ha, hs, hv, hc⟩ := hc
        rw [hact] at ha
        cases ha
        exact Or.inr (Or.inr ⟨cb, a, rest, sel, more, hg, ho, rfl, h2, hs, hv, hc⟩)
    by_cases h3 : a.Name = actionInviteApprove
    · rw [handle_inviteApprove h env message a rest hact h3]
      exact Or.inr (Or.inl (handleInviteApprove_callbacks h env message))
    by_cases h4 : a.Name = actionDeleteConfirm
    · rw [handle_deleteConfirm h env message a rest hact h4]
      exact Or.inr (Or.inl (handleConfirm_callbacks h env message _))
    by_cases h5 : a.Name = actionDeleteApprove
    · rw [handle_deleteApprove h env message a rest hact h5]
      exact Or.inr (Or.inl (handleDeleteApprove_callbacks h env message))
    by_cases h6 : a.Name = actionCleanupConfirm
    · rw [handle_cleanupConfirm h env message a rest hact h6]
      exact Or.inr (Or.inl (handleConfirm_callbacks h env message _))
    by_cases h7 : a.Name = actionCleanupApprove
    · rw [handle_cleanupApprove h env message a rest hact h7]
      exact Or.inr (Or.inl (handleCleanupApprove_callbacks h env message))
    by_cases h8 : a.Name = actionCancel
    · rw [handle_cancel h env message a rest hact h8]
      exact Or.inr (Or.inl (handleCancel_callbacks h env message))
    by_cases h9 : a.Name = actionReject
    · rw [handle_reject h env message a rest hact h9]
      exact Or.inr (Or.inl (handleReject_callbacks h env message))
    left
    simp [handle, hact, h1, h2, h3, h4, h5, h6, h7, h8, h9]

theorem wellKeyed_handle (h : InteractionHandler) (env : Env) (message : InteractionCallback)
    (hwk : WellKeyed h.repository.callbacks) : WellKeyed (handle h env message).callbacks := by
  rcases handle_callbacks h env message with hc | hc | hc
  · rw [hc]
    exact hwk
  · rw [hc]
    exact wellKeyed_cleanup _ _ _ hwk
  · obtain ⟨cb, a, rest, sel, more, _, _, _, _, _, _, hc⟩ := hc
    rw [hc]
    exact wellKeyed_set _ (wellKeyed_cleanup _ _ _ hwk) _

/-! ## Lemmas on the cleanup goroutine -/

theorem deleteCalls_map (targets : List String) :
    deleteCalls (targets.map Effect.DeleteAccount) = targets := by
  induction targets with
  | nil => rfl
  | cons x xs ih =>
    simp only [deleteCalls, List.map_cons, List.filterMap_cons] at ih ⊢
    rw [ih]

theorem deleteCalls_run (c1 t1 c2 t2 : String) (a1 a2 : List Attachment)
    (targets : List String) :
    deleteCalls ([Effect.UpdateMessage c1 t1 a1] ++ targets.map Effect.DeleteAccount
      ++ [Effect.UpdateMessage c2 t2 a2]) = targets := by
  have h := deleteCalls_map targets
  simp only [deleteCalls, List.filterMap_append, List.filterMap_cons, List.filterMap_nil,
    List.nil_append, List.append_nil] at h ⊢
  exact h

theorem cleanupLoop_all_ok (esa : EsaClient) (targets : List String) :
    ∀ called results,
      (∀ i t, targets[i]? = some t → esa.DeleteAccount (called ++ targets.take i) t = none) →
      cleanupLoop esa called results targets
        = (targets.map Effect.DeleteAccount,
            .inr (results ++ targets.map (fun t =>
              "- https://" ++ esa.GetTeamName ++ ".esa.io/team?keyword=" ++ t))) := by
  induction targets with
  | nil =>
    intro called results _
    simp [cleanupLoop]
  | cons x xs ih =>
    intro called results hok
    have h0 : esa.DeleteAccount called x = none := by
      have := hok 0 x List.getElem?_cons_zero
      simpa using this
    have hrest : ∀ i t, xs[i]? = some t →
        esa.DeleteAccount ((called ++ [x]) ++ xs.take i) t = none := by
      intro i t hi
      have := hok (i + 1) t (by simpa using hi)
      simpa using this
    have hrec := ih (called ++ [x])
      (results ++ ["- https://" ++ esa.GetTeamName ++ ".esa.io/team?keyword=" ++ x]) hrest
    simp only [cleanupLoop, h0, hrec, List.map_cons, List.append_assoc, List.singleton_append]

theorem cleanupLoop_first_failure (esa : EsaClient) (targets : List String) :
    ∀ called results k t e,
      targets[k]? = some t →
      (∀ i u, i < k → targets[i]? = some u →
        esa.DeleteAccount (called ++ targets.take i) u = none) →
      esa.DeleteAccount (called ++ targets.take k) t = some e →
      cleanupLoop esa called results targets
        = ((targets.take (k + 1)).map Effect.DeleteAccount, .inl (t, e)) := by
  induction targets with
  | nil =>
    intro called results k t e hk
    simp at hk
  | cons x xs ih =>
    intro called results k t e hk hprev hfail
    cases k with
    | zero =>
      simp only [List.getElem?_cons_zero, Option.some.injEq] at hk
      subst hk
      have hf : esa.DeleteAccount called x = some e := by simpa using hfail
      simp [cleanupLoop, hf]
    | succ k =>
      have h0 : esa.DeleteAccount called x = none := by
        have := hprev 0 x (Nat.succ_pos k) List.getElem?_cons_zero
        simpa using this
      have hk1 : xs[k]? = some t := by simpa using hk
      have hprev1 : ∀ i u, i < k → xs[i]? = some u →
          esa.DeleteAccount ((called ++ [x]) ++ xs.take i) u = none := by
        intro i u hi hu
        have := hprev (i + 1) u (Nat.succ_lt_succ hi) (by simpa using hu)
        simpa using this
      have hfail1 : esa.DeleteAccount ((called ++ [x]) ++ xs.take k) t = some e := by
        simpa using hfail
      have hrec := ih (called ++ [x])
        (results ++ ["- https://" ++ esa.GetTeamName ++ ".esa.io/team?keyword=" ++ x])
        k t e hk1 hprev1 hfail1
      simp only [cleanupLoop, h0, hrec, List.take_succ_cons, List.map_cons]

theorem modifyLast_concat (f : Attachment → Attachment) (l : List Attachment)
    (a : Attachment) : modifyLast f (l ++ [a]) = l ++ [f a] := by
  induction l with
  | nil => rfl
  | cons x xs ih =>
    cases xs with
    | nil => rfl
    | cons y ys =>
      have h1 : modifyLast f (x :: y :: ys ++ [a])
          = x :: modifyLast f (y :: ys ++ [a]) := rfl
      rw [h1, ih]
      rfl

theorem setToLastAttachment_concat_color (l : List Attachment) (a : Attachment)
    (color text : String) :
    (setToLastAttachment (l ++ [a]) color text).getLast?.map (fun x => x.Color)
      = some color := by
  unfold setToLastAttachment
  rw [modifyLast_concat, List.getLast?_concat]
  by_cases ht : text = "" <;> simp [ht]

theorem cleanupAttachments_success_color (env : Env) (message : InteractionCallback)
    (text : String) :
    (setSuccessToLastAttachment (cleanupAttachments env message) text).getLast?.map
      (fun x => x.Color) = some ColorCodeGreen :=
  setToLastAttachment_concat_color _ _ _ _

theorem cleanupAttachments_error_color (env : Env) (message : InteractionCallback)
    (text : String) :
    (setErrorToLastAttachment (cleanupAttachments env message) text).getLast?.map
      (fun x => x.Color) = some ColorCodeRed :=
  setToLastAttachment_concat_color _ _ _ _

theorem cleanupAttachments_started_color (env : Env) (message : InteractionCallback) :
    (cleanupAttachments env message).getLast?.map (fun x => x.Color)
      = some ColorCodeBlue := by
  unfold cleanupAttachments
  rw [List.getLast?_concat]
  rfl

theorem handleCleanupApprove_run (h : InteractionHandler) (env : Env)
    (message : InteractionCallback) (cb : Callback)
    (hget : (h.repository.callbacks.Get env.parse env.timeNow message.CallbackID).1 = (cb, true))
    (hadm : h.repository.IsAdminUserID message.User.ID = true)
    (hw : env.writeErr = none) :
    (handleCleanupApprove h env message).effects
      = [Effect.UpdateMessage message.ChannelID message.MessageTs
            (cleanupAttachments env message)]
        ++ (cleanupLoop h.esaClient []
            ["期限切れアカウント (" ++ toString (stringsSplit cb.Value ',').length
              ++ "件) を削除しました"]
            (stringsSplit cb.Value ',')).1
        ++ [Effect.UpdateMessage message.ChannelID message.MessageTs
            (match (cleanupLoop h.esaClient []
                ["期限切れアカウント (" ++ toString (stringsSplit cb.Value ',').length
                  ++ "件) を削除しました"]
                (stringsSplit cb.Value ',')).2 with
              | .inl (target, e) =>
                setErrorToLastAttachment (cleanupAttachments env message)
                  (":x: Failed to delete expired account "
                    ++ WrapTextInInlineCodeBlock target ++ ": " ++ e)
              | .inr results =>
                setSuccessToLastAttachment (cleanupAttachments env message)
                  (":+1: Expired account has been deleted\n"
                    ++ WrapTextsInCodeBlock results))] := by
  simp only [handleCleanupApprove, hget, hadm, hw, cleanupAttachments]
  simp only [Bool.not_true, Bool.false_eq_true, if_false]
  split <;> rename_i heq <;> simp only [heq]

/-! ## Lemmas on the command interpreter -/

theorem scanMembers_acc (parse3339 : String → Option Time) (teamName : String)
    (expireTime : Time) (members : List Member) :
    ∀ screenNames targets,
      (∀ m ∈ members, ∃ t, m.LastAccessedTime parse3339 = some t) →
      (scanMembers parse3339 teamName expireTime screenNames targets members).1
        = screenNames
          ++ (members.takeWhile (staleBefore parse3339 expireTime)).map
              (fun m => m.ScreenName) := by
  induction members with
  | nil =>
    intro screenNames targets _
    simp [scanMembers]
  | cons m rest ih =>
    intro screenNames targets hparse
    obtain ⟨t, ht⟩ := hparse m (List.mem_cons_self _ _)
    have hrest : ∀ x ∈ rest, ∃ t, x.LastAccessedTime parse3339 = some t :=
      fun x hx => hparse x (List.mem_cons_of_mem _ hx)
    by_cases hlt : t.unixNano < expireTime.unixNano
    · have hs : staleBefore parse3339 expireTime m = true := by
        simp [staleBefore, ht, hlt]
      simp only [scanMembers, ht, Time.After, hlt, decide_True, Bool.not_true,
        Bool.false_eq_true, if_false, List.takeWhile_cons, hs, if_true, List.map_cons]
      rw [ih _ _ hrest, List.append_assoc]
      rfl
    · have hs : staleBefore parse3339 expireTime m = false := by
        simp [staleBefore, ht, hlt]
      simp [scanMembers, ht, Time.After, hlt, List.takeWhile_cons, hs]

theorem takeWhile_append_of_neg (p : Member → Bool) (pre post : List Member) (m : Member)
    (hm : p m = false) :
    (pre ++ m :: post).takeWhile p = pre.takeWhile p := by
  induction pre with
  | nil => simp [List.takeWhile_cons, hm]
  | cons x xs ih =>
    by_cases hx : p x = true
    · simp [List.takeWhile_cons, hx, ih]
    · simp [List.takeWhile_cons, hx]

theorem takeWhile_eq_filter_of_sorted (parse3339 : String → Option Time) (expireTime : Time)
    (members : List Member)
    (hparse : ∀ m ∈ members, ∃ t, m.LastAccessedTime parse3339 = some t)
    (hsorted : members.Pairwise (fun a b => ∀ ta tb,
      a.LastAccessedTime parse3339 = some ta → b.LastAccessedTime parse3339 = some tb →
      ta.unixNano ≤ tb.unixNano)) :
    members.takeWhile (staleBefore parse3339 expireTime)
      = members.filter (staleBefore parse3339 expireTime) := by
  induction members with
  | nil => rfl
  | cons m rest ih =>
    have hrest : ∀ x ∈ rest, ∃ t, x.LastAccessedTime parse3339 = some t :=
      fun x hx => hparse x (List.mem_cons_of_mem _ hx)
    rw [List.pairwise_cons] at hsorted
    by_cases hs : staleBefore parse3339 expireTime m = true
    · rw [List.takeWhile_cons, if_pos hs, List.filter_cons_of_pos hs, ih hrest hsorted.2]
    · rw [List.takeWhile_cons, if_neg hs, List.filter_cons_of_neg hs]
      symm
      rw [List.filter_eq_nil_iff]
      intro x hx hsx
      obtain ⟨t, ht⟩ := hparse m (List.mem_cons_self _ _)
      obtain ⟨tx, htx⟩ := hrest x hx
      have hle := hsorted.1 x hx t tx ht htx
      simp only [staleBefore, ht, decide_eq_true_eq] at hs
      simp only [staleBefore, htx, decide_eq_true_eq] at hsx
      omega

/-! ## Theorems on the pending-request store -/

/-- C4: after Get(k) at time timeNow, whatever k is, the store holds exactly
the earlier entries whose key parses as a timestamp t with timeNow - t at most
seven days, in their earlier order and with their values unchanged; an entry
whose key does not parse or is older than seven days is no longer stored. -/
theorem get_sweeps_store (parse : String → Option Time) (timeNow : Time) (cm : CallbackMap)
    (k : String) :
    (cm.Get parse timeNow k).2.values
        = cm.values.filter (fun e =>
            match parse e.1 with
            | some t => decide (timeNow.unixNano - t.unixNano ≤ 7 * 24 * 3600 * 1000000000)
            | none => false)
      ∧ (∀ key v, (cm.Get parse timeNow k).2.values.lookup key = some v
          ↔ (cm.values.lookup key = some v
              ∧ ∃ t, parse key = some t
                ∧ timeNow.unixNano - t.unixNano ≤ 7 * 24 * 3600 * 1000000000))
      ∧ (∀ e ∈ cm.values,
          (parse e.1 = none
            ∨ ∃ t, parse e.1 = some t
              ∧ 7 * 24 * 3600 * 1000000000 < timeNow.unixNano - t.unixNano)
          → e ∉ (cm.Get parse timeNow k).2.values) := by
  have hv : (cm.Get parse timeNow k).2.values
      = cm.values.filter (fun e => fresh parse timeNow e.1) := by
    rw [get_snd, cleanup_values]
  refine ⟨?_, ?_, ?_⟩
  · rw [hv]
    apply List.filter_congr
    intro e _
    unfold fresh
    cases parse e.1 <;> rfl
  · intro key v
    rw [get_snd, lookup_cleanup]
    by_cases hk : fresh parse timeNow key = true
    · have := (fresh_iff parse timeNow key).1 hk
      rw [if_pos hk]
      exact ⟨fun h => ⟨h, this⟩, fun h => h.1⟩
    · have hn : ¬ ∃ t, parse key = some t
          ∧ timeNow.unixNano - t.unixNano ≤ 7 * 24 * 3600 * 1000000000 :=
        fun h => hk ((fresh_iff parse timeNow key).2 h)
      rw [if_neg hk]
      exact ⟨fun h => (by cases h), fun h => absurd h.2 hn⟩
  · intro e _ hbad hmem
    rw [hv, List.mem_filter] at hmem
    obtain ⟨t, ht, hle⟩ := (fresh_iff parse timeNow e.1).1 hmem.2
    rcases hbad with hnone | ⟨t1, ht1, hlt⟩
    · rw [hnone] at ht
      cases ht
    · rw [ht1] at ht
      cases ht
      omega

/-- C5: for a request r whose id parses as a timestamp at most seven days old
at lookup time, Set(r) followed by Get(r.ID) returns (r, true), whatever was
stored under that id before; Get for every other id returns what it returned
without the Set; and Get of an id that is not stored returns found = false
(the result type of Get has no error). -/
theorem set_then_get (parse : String → Option Time) (timeNow : Time) (cm : CallbackMap)
    (r : Callback) (t : Time) (hparse : parse r.ID = some t)
    (hage : timeNow.unixNano - t.unixNano ≤ 7 * 24 * 3600 * 1000000000) :
    ((cm.Set r).Get parse timeNow r.ID).1 = (r, true)
      ∧ (∀ k, k ≠ r.ID → ((cm.Set r).Get parse timeNow k).1 = (cm.Get parse timeNow k).1)
      ∧ (∀ k, cm.values.lookup k = none → (cm.Get parse timeNow k).1.2 = false) := by
  have hf : fresh parse timeNow r.ID = true := (fresh_iff parse timeNow r.ID).2 ⟨t, hparse, hage⟩
  refine ⟨?_, ?_, ?_⟩
  · rw [get_fst, hf, if_pos rfl, mapIndex_eq_true]
    simp [CallbackMap.Set, lookup_mapAssign]
  · intro k hk
    rw [get_fst, get_fst]
    have : mapIndex (cm.Set r).values k = mapIndex cm.values k := by
      unfold mapIndex
      simp [CallbackMap.Set, lookup_mapAssign, hk]
    rw [this]
  · intro k hk
    rw [get_fst, mapIndex_of_none _ _ hk]
    by_cases h : fresh parse timeNow k = true <;> simp [h]

/-- Witness of C5: a request stored over an older one with the same id, looked
up six days after its creation. -/
theorem set_then_get_witness :
    sampleParse sampleRequest.ID = some ⟨1704412800000000000⟩
      ∧ ((1704931200000000000 : Int) - 1704412800000000000 ≤ 7 * 24 * 3600 * 1000000000)
      ∧ ((CallbackMap.Set ⟨[("2024-01-05T00:00:00Z",
            ⟨"2024-01-05T00:00:00Z", "bob", "Org", ⟨"U2", "user2", "user2@example.com"⟩⟩)]⟩
          sampleRequest).Get sampleParse ⟨1704931200000000000⟩ sampleRequest.ID).1
          = (sampleRequest, true) :=
  ⟨by decide, by decide,
    (set_then_get sampleParse ⟨1704931200000000000⟩
      ⟨[("2024-01-05T00:00:00Z",
        ⟨"2024-01-05T00:00:00Z", "bob", "Org", ⟨"U2", "user2", "user2@example.com"⟩⟩)]⟩
      sampleRequest ⟨1704412800000000000⟩ (by decide) (by decide)).1⟩

/-! ## Theorems on the interaction handlers -/

/-- C1: for a stored, unexpired request (Get returns it with found = true)
and any caller, the handlers decide by this table. The actions
select-organization, confirm (of each kind) and cancel answer with something
other than the Unauthorized hint exactly when the caller id equals the owner
id; the three approve actions do so exactly when the caller id is a key of the
administrator map; reject does so exactly when the caller is the owner or an
administrator. -/
theorem permission_table (h : InteractionHandler) (env : Env) (message : InteractionCallback)
    (a : AttachmentAction) (rest : List AttachmentAction) (cb : Callback)
    (hact : message.AttachmentActions = a :: rest)
    (hget : (h.repository.callbacks.Get env.parse env.timeNow message.CallbackID).1
      = (cb, true)) :
    (a.Name ∈ [actionInviteSelectOrganization, actionInviteConfirm, actionDeleteConfirm,
        actionCleanupConfirm, actionCancel]
      → ((handle h env message).reply ≠ unauthorizedHint message a.Name
          ↔ message.User.ID = cb.OwnerUser.ID))
    ∧ (a.Name ∈ [actionInviteApprove, actionDeleteApprove, actionCleanupApprove]
      → ((handle h env message).reply ≠ unauthorizedHint message a.Name
          ↔ message.User.ID ∈ h.repository.admins.map Prod.fst))
    ∧ (a.Name = actionReject
      → ((handle h env message).reply ≠ unauthorizedHint message a.Name
          ↔ (message.User.ID = cb.OwnerUser.ID
              ∨ message.User.ID ∈ h.repository.admins.map Prod.fst))) := by
  refine ⟨?_, ?_, ?_⟩
  · intro hname
    obtain ⟨hden, hperm⟩ := handle_ownerOnly h env message a rest cb hact hget hname
    constructor
    · intro hr
      by_contra hne
      apply hr
      rw [hden (fun heq => hne heq.symm)]
      rfl
    · intro heq
      exact hperm heq.symm
  · intro hname
    obtain ⟨hden, hperm⟩ := handle_adminOnly h env message a rest cb hact hget hname
    rw [← isAdminUserID_iff]
    constructor
    · intro hr
      by_contra hne
      apply hr
      rw [hden (by simpa using hne)]
      rfl
    · intro hadm
      exact hperm hadm
  · intro hname
    obtain ⟨hden, hperm⟩ := handle_rejectAction h env message a rest cb hact hget hname
    rw [← isAdminUserID_iff]
    constructor
    · intro hr
      by_contra hne
      apply hr
      have h1 : ¬ message.User.ID = cb.OwnerUser.ID := fun hx => hne (Or.inl hx)
      have h2 : ¬ h.repository.IsAdminUserID message.User.ID = true :=
        fun hx => hne (Or.inr hx)
      rw [hden ⟨by simpa using h2, fun heq => h1 heq.symm⟩]
      rfl
    · intro hok
      rcases hok with heq | hadm
      · exact hperm (Or.inr heq.symm)
      · exact hperm (Or.inl hadm)

/-- Witness of C1: the owner of a stored request, who is not an administrator,
sends approve for a delete; an administrator who is not the owner sends cancel. -/
theorem permission_table_witness :
    ((handle (sampleHandler [(sampleRequest.ID, sampleRequest)]) sampleEnv
        (sampleMessage sampleRequest.ID ⟨"U1", "user1"⟩ actionDeleteApprove [])).reply
        ≠ unauthorizedHint
            (sampleMessage sampleRequest.ID ⟨"U1", "user1"⟩ actionDeleteApprove [])
            actionDeleteApprove
      ↔ "U1" ∈ [("A1", (⟨"A1", "admin1", "admin1@example.com"⟩ : User))].map Prod.fst)
    ∧ ((handle (sampleHandler [(sampleRequest.ID, sampleRequest)]) sampleEnv
        (sampleMessage sampleRequest.ID ⟨"A1", "admin1"⟩ actionCancel [])).reply
        ≠ unauthorizedHint
            (sampleMessage sampleRequest.ID ⟨"A1", "admin1"⟩ actionCancel [])
            actionCancel
      ↔ "A1" = sampleRequest.OwnerUser.ID) :=
  ⟨(permission_table (sampleHandler [(sampleRequest.ID, sampleRequest)]) sampleEnv
      (sampleMessage sampleRequest.ID ⟨"U1", "user1"⟩ actionDeleteApprove [])
      { Name := actionDeleteApprove, Text := "", Typ := "button", Style := "",
        Options := [], SelectedOptions := [] } [] sampleRequest rfl (by decide)).2.1
      (by decide),
    (permission_table (sampleHandler [(sampleRequest.ID, sampleRequest)]) sampleEnv
      (sampleMessage sampleRequest.ID ⟨"A1", "admin1"⟩ actionCancel [])
      { Name := actionCancel, Text := "", Typ := "button", Style := "",
        Options := [], SelectedOptions := [] } [] sampleRequest rfl (by decide)).1
      (by decide)⟩

/-- C2: whenever the permission check of an action fails (the caller is not
the owner for select-organization, confirm and cancel; not an administrator
for approve, also when the caller owns the request; neither for reject), the
handler answers with the Unauthorized hint, Get for the request id returns
after the handler what it returned before (at the time of the call and at any
other time), and the handler has no effect at all, so it makes no invite and
no delete call. -/
theorem unauthorized_changes_nothing (h : InteractionHandler) (env : Env)
    (message : InteractionCallback) (a : AttachmentAction) (rest : List AttachmentAction)
    (cb : Callback)
    (hact : message.AttachmentActions = a :: rest)
    (hget : (h.repository.callbacks.Get env.parse env.timeNow message.CallbackID).1
      = (cb, true))
    (hdenied :
      (a.Name ∈ [actionInviteSelectOrganization, actionInviteConfirm, actionDeleteConfirm,
          actionCleanupConfirm, actionCancel]
        ∧ message.User.ID ≠ cb.OwnerUser.ID)
      ∨ (a.Name ∈ [actionInviteApprove, actionDeleteApprove, actionCleanupApprove]
        ∧ message.User.ID ∉ h.repository.admins.map Prod.fst)
      ∨ (a.Name = actionReject ∧ message.User.ID ≠ cb.OwnerUser.ID
        ∧ message.User.ID ∉ h.repository.admins.map Prod.fst)) :
    (handle h env message).reply = unauthorizedHint message a.Name
      ∧ ((handle h env message).callbacks.Get env.parse env.timeNow message.CallbackID).1
          = (cb, true)
      ∧ (∀ t, ((handle h env message).callbacks.Get env.parse t message.CallbackID).1
          = (h.repository.callbacks.Get env.parse t message.CallbackID).1)
      ∧ (handle h env message).effects = [] := by
  have hout : handle h env message = deniedOutcome h env message (deniedSuffix a.Name) := by
    rcases hdenied with ⟨hname, hne⟩ | ⟨hname, hna⟩ | ⟨hname, hne, hna⟩
    · exact (handle_ownerOnly h env message a rest cb hact hget hname).1
        (fun heq => hne heq.symm)
    · rw [← isAdminUserID_iff] at hna
      exact (handle_adminOnly h env message a rest cb hact hget hname).1 (by simpa using hna)
    · rw [← isAdminUserID_iff] at hna
      exact (handle_rejectAction h env message a rest cb hact hget hname).1
        ⟨by simpa using hna, fun heq => hne heq.symm⟩
  have hf := (fresh_of_get env.parse env.timeNow h.repository.callbacks message.CallbackID cb
    hget).1
  rw [hout]
  refine ⟨rfl, ?_, ?_, rfl⟩
  · simp only [deniedOutcome]
    rw [get_after_cleanup _ _ _ _ _ hf, hget]
  · intro t
    simp only [deniedOutcome]
    exact get_after_cleanup _ _ _ _ _ hf

/-- Witness of C2: the owner of a stored delete request, not an administrator,
sends approve. -/
theorem unauthorized_changes_nothing_witness :
    (handle (sampleHandler [(sampleRequest.ID, sampleRequest)]) sampleEnv
        (sampleMessage sampleRequest.ID ⟨"U1", "user1"⟩ actionDeleteApprove [])).reply
        = unauthorizedHint
            (sampleMessage sampleRequest.ID ⟨"U1", "user1"⟩ actionDeleteApprove [])
            actionDeleteApprove
      ∧ (handle (sampleHandler [(sampleRequest.ID, sampleRequest)]) sampleEnv
        (sampleMessage sampleRequest.ID ⟨"U1", "user1"⟩ actionDeleteApprove [])).effects = [] :=
  have w := unauthorized_changes_nothing (sampleHandler [(sampleRequest.ID, sampleRequest)])
    sampleEnv (sampleMessage sampleRequest.ID ⟨"U1", "user1"⟩ actionDeleteApprove [])
    { Name := actionDeleteApprove, Text := "", Typ := "button", Style := "",
      Options := [], SelectedOptions := [] } [] sampleRequest rfl (by decide)
    (Or.inr (Or.inl ⟨by decide, by decide⟩))
  ⟨w.1, w.2.2.2⟩

/-- C3: for each of the nine actions, a callback whose request id encodes a
creation time more than seven days before the current time, or whose id is
not stored, is answered with the notice "Request has expired" on the original
message, whoever the caller is; the store afterwards is the store before
without its swept entries (nothing is added or changed), and the handler has
no effect on the account service or the chat. -/
theorem expired_notice (h : InteractionHandler) (env : Env) (message : InteractionCallback)
    (a : AttachmentAction) (rest : List AttachmentAction)
    (hact : message.AttachmentActions = a :: rest) (hname : a.Name ∈ actionNames)
    (hexp : (∃ t, env.parse message.CallbackID = some t
        ∧ 7 * 24 * 3600 * 1000000000 < env.timeNow.unixNano - t.unixNano)
      ∨ h.repository.callbacks.values.lookup message.CallbackID = none) :
    (handle h env message).reply
        = .responseError message.OriginalMessage
            (":x: Request has expired: " ++ message.CallbackID)
      ∧ (handle h env message).callbacks = h.repository.callbacks.cleanup env.parse env.timeNow
      ∧ (∀ k v, (handle h env message).callbacks.values.lookup k = some v
          → h.repository.callbacks.values.lookup k = some v)
      ∧ (handle h env message).effects = [] := by
  have hnot := get_not_found_of_stale env.parse env.timeNow h.repository.callbacks
    message.CallbackID hexp
  rw [handle_expired h env message a rest hact hname hnot]
  refine ⟨rfl, rfl, ?_, rfl⟩
  intro k v hk
  simp only [expiredOutcome, lookup_cleanup] at hk
  by_cases hf : fresh env.parse env.timeNow k = true
  · rw [if_pos hf] at hk
    exact hk
  · rw [if_neg hf] at hk
    cases hk

/-- Witness of C3: an approve by an administrator of a request created ten
days before the current time. -/
theorem expired_notice_witness :
    (handle (sampleHandler [("2024-01-01T00:00:00Z",
        ⟨"2024-01-01T00:00:00Z", "alice", "", ⟨"U1", "user1", "user1@example.com"⟩⟩)])
      sampleEnv
      (sampleMessage "2024-01-01T00:00:00Z" ⟨"A1", "admin1"⟩ actionDeleteApprove [])).effects
      = [] :=
  (expired_notice
    (sampleHandler [("2024-01-01T00:00:00Z",
        ⟨"2024-01-01T00:00:00Z", "alice", "", ⟨"U1", "user1", "user1@example.com"⟩⟩)])
    sampleEnv
    (sampleMessage "2024-01-01T00:00:00Z" ⟨"A1", "admin1"⟩ actionDeleteApprove [])
    { Name := actionDeleteApprove, Text := "", Typ := "button", Style := "",
      Options := [], SelectedOptions := [] } [] rfl (by decide)
    (Or.inl ⟨⟨1704067200000000000⟩, by decide, by decide⟩)).2.2.2

/-- C8: a callback of any action leaves the id, value and owner of every
stored request as they were. On a store in which every request is kept under
its own id: each request stored afterwards was stored before under the same
key with the same id, value and owner, and each unexpired request stored
before is still stored; the organization of a request differs afterwards only
for the request addressed by a select-organization of its owner with a
non-empty selection, and then it is the selected value; after such a
select-organization Get returns the request with that organization and the
same id, value and owner. -/
theorem transition_frame (h : InteractionHandler) (env : Env) (message : InteractionCallback)
    (hwk : WellKeyed h.repository.callbacks) :
    (∀ k cb1, (handle h env message).callbacks.values.lookup k = some cb1 →
      ∃ cb0, h.repository.callbacks.values.lookup k = some cb0
        ∧ cb1.ID = cb0.ID ∧ cb1.Value = cb0.Value ∧ cb1.OwnerUser = cb0.OwnerUser
        ∧ (cb1.Organization ≠ cb0.Organization →
            k = message.CallbackID ∧ message.User.ID = cb0.OwnerUser.ID
            ∧ ∃ a rest sel more, message.AttachmentActions = a :: rest
              ∧ a.Name = actionInviteSelectOrganization
              ∧ a.SelectedOptions = sel :: more ∧ sel.Value ≠ ""
              ∧ cb1.Organization = sel.Value))
    ∧ (∀ k cb0, h.repository.callbacks.values.lookup k = some cb0 →
        fresh env.parse env.timeNow k = true →
        ∃ cb1, (handle h env message).callbacks.values.lookup k = some cb1
          ∧ cb1.ID = cb0.ID ∧ cb1.Value = cb0.Value ∧ cb1.OwnerUser = cb0.OwnerUser)
    ∧ (∀ cb a rest sel more,
        (h.repository.callbacks.Get env.parse env.timeNow message.CallbackID).1 = (cb, true) →
        message.User.ID = cb.OwnerUser.ID →
        message.AttachmentActions = a :: rest →
        a.Name = actionInviteSelectOrganization →
        a.SelectedOptions = sel :: more → sel.Value ≠ "" →
        ((handle h env message).callbacks.Get env.parse env.timeNow message.CallbackID).1
          = ({ cb with Organization := sel.Value }, true)) := by
  refine ⟨?_, ?_, ?_⟩
  · intro k cb1 hl
    rcases handle_callbacks h env message with hc | hc | hc
    · rw [hc] at hl
      exact ⟨cb1, hl, rfl, rfl, rfl, fun hne => absurd rfl hne⟩
    · rw [hc, lookup_cleanup] at hl
      by_cases hf : fresh env.parse env.timeNow k = true
      · rw [if_pos hf] at hl
        exact ⟨cb1, hl, rfl, rfl, rfl, fun hne => absurd rfl hne⟩
      · rw [if_neg hf] at hl
        cases hl
    · obtain ⟨cb, a, rest, sel, more, hg, ho, ha, hn, hs, hv, hc⟩ := hc
      obtain ⟨hfr, hlk⟩ := fresh_of_get _ _ _ _ _ hg
      have hid : cb.ID = message.CallbackID := wellKeyed_lookup _ hwk _ _ hlk
      rw [hc] at hl
      simp only [CallbackMap.Set, lookup_mapAssign] at hl
      by_cases hk : k = cb.ID
      · rw [if_pos hk] at hl
        cases hl
        refine ⟨cb, ?_, rfl, rfl, rfl, ?_⟩
        · rw [hk, hid]
          exact hlk
        · intro _
          exact ⟨hk.trans hid, ho.symm, a, rest, sel, more, ha, hn, hs, hv, rfl⟩
      · rw [if_neg hk, lookup_cleanup] at hl
        by_cases hf : fresh env.parse env.timeNow k = true
        · rw [if_pos hf] at hl
          exact ⟨cb1, hl, rfl, rfl, rfl, fun hne => absurd rfl hne⟩
        · rw [if_neg hf] at hl
          cases hl
  · intro k cb0 hl hf
    rcases handle_callbacks h env message with hc | hc | hc
    · rw [hc]
      exact ⟨cb0, hl, rfl, rfl, rfl⟩
    · rw [hc, lookup_cleanup, if_pos hf]
      exact ⟨cb0, hl, rfl, rfl, rfl⟩
    · obtain ⟨cb, a, rest, sel, more, hg, ho, ha, hn, hs, hv, hc⟩ := hc
      obtain ⟨hfr, hlk⟩ := fresh_of_get _ _ _ _ _ hg
      have hid : cb.ID = message.CallbackID := wellKeyed_lookup _ hwk _ _ hlk
      rw [hc]
      simp only [CallbackMap.Set, lookup_mapAssign]
      by_cases hk : k = cb.ID
      · rw [if_pos hk]
        rw [hk, hid, hlk] at hl
        cases hl
        exact ⟨_, rfl, rfl, rfl, rfl⟩
      · rw [if_neg hk, lookup_cleanup, if_pos hf]
        exact ⟨cb0, hl, rfl, rfl, rfl⟩
  · intro cb a rest sel more hg ho ha hn hs hv
    obtain ⟨hfr, hlk⟩ := fresh_of_get _ _ _ _ _ hg
    have hid : cb.ID = message.CallbackID := wellKeyed_lookup _ hwk _ _ hlk
    rw [handle_inviteSelectOrganization h env message a rest ha hn]
    rcases handleInviteSelectOrganization_permitted h env message cb hg ho.symm with
      h1 | h1 | h1
    · rcases h1.2.2 with h2 | ⟨a1, rest1, h2, h3⟩
      · rw [ha] at h2
        cases h2
      · rw [ha] at h2
        cases h2
        rw [hs] at h3
        cases h3
    · obtain ⟨_, _, a1, rest1, sel1, more1, h2, h3, h4⟩ := h1
      rw [ha] at h2
      cases h2
      rw [hs] at h3
      cases h3
      exact absurd h4 hv
    · obtain ⟨_, a1, rest1, sel1, more1, h2, h3, _, h5⟩ := h1
      rw [ha] at h2
      cases h2
      rw [hs] at h3
      cases h3
      rw [h5, get_fst, if_pos hfr, mapIndex_eq_true]
      simp only [CallbackMap.Set, lookup_mapAssign]
      rw [if_pos hid.symm]

/-- Witness of C8: the owner selects the organization Org1 for a stored request. -/
theorem transition_frame_witness :
    ((handle (sampleHandler [(sampleRequest.ID, sampleRequest)]) sampleEnv
        (sampleMessage sampleRequest.ID ⟨"U1", "user1"⟩ actionInviteSelectOrganization
          [⟨"Org1", "Org1"⟩])).callbacks.Get sampleParse sampleEnv.timeNow sampleRequest.ID).1
      = (⟨"2024-01-05T00:00:00Z", "alice", "Org1", ⟨"U1", "user1", "user1@example.com"⟩⟩,
          true) :=
  (transition_frame (sampleHandler [(sampleRequest.ID, sampleRequest)]) sampleEnv
    (sampleMessage sampleRequest.ID ⟨"U1", "user1"⟩ actionInviteSelectOrganization
      [⟨"Org1", "Org1"⟩])
    (by intro e he; simp only [sampleHandler, List.mem_singleton] at he; rw [he])).2.2
    sampleRequest
    { Name := actionInviteSelectOrganization, Text := "", Typ := "button", Style := "",
      Options := [], SelectedOptions := [⟨"Org1", "Org1"⟩] } [] ⟨"Org1", "Org1"⟩ []
    (by decide) rfl rfl rfl rfl (by decide)

/-- C9: a select-organization by the owner of a stored request whose selected
value is the empty string is answered with the hint "organization is
required"; the handler writes nothing (the store afterwards is the swept
store), Get returns the request exactly as before, organization included, and
there is no effect. -/
theorem empty_organization_rejected (h : InteractionHandler) (env : Env)
    (message : InteractionCallback) (a : AttachmentAction) (rest : List AttachmentAction)
    (sel : AttachmentActionOption) (more : List AttachmentActionOption) (cb : Callback)
    (hact : message.AttachmentActions = a :: rest)
    (hname : a.Name = actionInviteSelectOrganization)
    (hsel : a.SelectedOptions = sel :: more) (hempty : sel.Value = "")
    (hget : (h.repository.callbacks.Get env.parse env.timeNow message.CallbackID).1
      = (cb, true))
    (howner : message.User.ID = cb.OwnerUser.ID) :
    (handle h env message).reply
        = .responseHint message.OriginalMessage ":warning: organization is required"
      ∧ (handle h env message).callbacks
          = h.repository.callbacks.cleanup env.parse env.timeNow
      ∧ ((handle h env message).callbacks.Get env.parse env.timeNow message.CallbackID).1
          = (cb, true)
      ∧ (handle h env message).effects = [] := by
  rw [handle_inviteSelectOrganization h env message a rest hact hname]
  have hf := (fresh_of_get _ _ _ _ _ hget).1
  have hcb : (handleInviteSelectOrganization h env message).callbacks
      = h.repository.callbacks.cleanup env.parse env.timeNow := by
    rcases handleInviteSelectOrganization_callbacks h env message with hc | hc
    · exact hc
    · obtain ⟨cb2, a1, rest1, sel1, more1, _, _, h2, h3, h4, _⟩ := hc
      rw [hact] at h2
      cases h2
      rw [hsel] at h3
      cases h3
      exact absurd hempty h4
  refine ⟨?_, hcb, ?_, handleInviteSelectOrganization_effects h env message⟩
  · simp [handleInviteSelectOrganization, hget, howner, hact, hsel, hempty]
  · rw [hcb, get_after_cleanup _ _ _ _ _ hf, hget]

/-- Witness of C9: the owner submits an empty selection for a stored request. -/
theorem empty_organization_rejected_witness :
    (handle (sampleHandler [(sampleRequest.ID, sampleRequest)]) sampleEnv
        (sampleMessage sampleRequest.ID ⟨"U1", "user1"⟩ actionInviteSelectOrganization
          [⟨"", ""⟩])).reply
      = .responseHint
          (sampleMessage sampleRequest.ID ⟨"U1", "user1"⟩ actionInviteSelectOrganization
            [⟨"", ""⟩]).OriginalMessage
          ":warning: organization is required" :=
  (empty_organization_rejected (sampleHandler [(sampleRequest.ID, sampleRequest)]) sampleEnv
    (sampleMessage sampleRequest.ID ⟨"U1", "user1"⟩ actionInviteSelectOrganization
      [⟨"", ""⟩])
    { Name := actionInviteSelectOrganization, Text := "", Typ := "button", Style := "",
      Options := [], SelectedOptions := [⟨"", ""⟩] } [] ⟨"", ""⟩ [] sampleRequest
    rfl rfl rfl rfl (by decide) rfl).1

/-! ## Theorems on the execution of an approved cleanup -/

/-- C6: for a cleanup request approved by an administrator (found by Get,
reply written), with targets t1..tn the pieces of its value between commas.
When no delete fails, the delete calls made are t1..tn in order and the last
update of the message is the success message. When the delete at position k
is the first to fail, the delete calls made are t1..tk in order (none for a
later target), the last update is the failure message for tk with its error,
and no update of the message is a success message. -/
theorem cleanup_fail_fast (h : InteractionHandler) (env : Env)
    (message : InteractionCallback) (cb : Callback)
    (hget : (h.repository.callbacks.Get env.parse env.timeNow message.CallbackID).1
      = (cb, true))
    (hadm : message.User.ID ∈ h.repository.admins.map Prod.fst)
    (hw : env.writeErr = none) :
    ((∀ i t, (stringsSplit cb.Value ',')[i]? = some t →
        h.esaClient.DeleteAccount ((stringsSplit cb.Value ',').take i) t = none) →
      deleteCalls (handleCleanupApprove h env message).effects = stringsSplit cb.Value ','
      ∧ (handleCleanupApprove h env message).effects.getLast?
          = some (.UpdateMessage message.ChannelID message.MessageTs
              (setSuccessToLastAttachment (cleanupAttachments env message)
                (":+1: Expired account has been deleted\n" ++ WrapTextsInCodeBlock
                  (["期限切れアカウント (" ++ toString (stringsSplit cb.Value ',').length
                      ++ "件) を削除しました"]
                    ++ (stringsSplit cb.Value ',').map (fun t =>
                      "- https://" ++ h.esaClient.GetTeamName ++ ".esa.io/team?keyword="
                        ++ t))))))
    ∧ (∀ k t e, (stringsSplit cb.Value ',')[k]? = some t →
        (∀ i u, i < k → (stringsSplit cb.Value ',')[i]? = some u →
          h.esaClient.DeleteAccount ((stringsSplit cb.Value ',').take i) u = none) →
        h.esaClient.DeleteAccount ((stringsSplit cb.Value ',').take k) t = some e →
        deleteCalls (handleCleanupApprove h env message).effects
            = (stringsSplit cb.Value ',').take (k + 1)
          ∧ (handleCleanupApprove h env message).effects.getLast?
              = some (.UpdateMessage message.ChannelID message.MessageTs
                  (setErrorToLastAttachment (cleanupAttachments env message)
                    (":x: Failed to delete expired account "
                      ++ WrapTextInInlineCodeBlock t ++ ": " ++ e)))
          ∧ ∀ text, Effect.UpdateMessage message.ChannelID message.MessageTs
                (setSuccessToLastAttachment (cleanupAttachments env message) text)
              ∉ (handleCleanupApprove h env message).effects) := by
  have hadm1 : h.repository.IsAdminUserID message.User.ID = true :=
    (isAdminUserID_iff _ _).2 hadm
  have hrun := handleCleanupApprove_run h env message cb hget hadm1 hw
  refine ⟨?_, ?_⟩
  · intro hok
    have hl := cleanupLoop_all_ok h.esaClient (stringsSplit cb.Value ',') []
      ["期限切れアカウント (" ++ toString (stringsSplit cb.Value ',').length
        ++ "件) を削除しました"]
      (by simpa using hok)
    rw [hrun, hl]
    refine ⟨deleteCalls_run _ _ _ _ _ _ _, ?_⟩
    rw [List.getLast?_concat]
  · intro k t e hk hprev hfail
    have hl := cleanupLoop_first_failure h.esaClient (stringsSplit cb.Value ',') []
      ["期限切れアカウント (" ++ toString (stringsSplit cb.Value ',').length
        ++ "件) を削除しました"]
      k t e hk (by simpa using hprev) (by simpa using hfail)
    rw [hrun, hl]
    refine ⟨deleteCalls_run _ _ _ _ _ _ _, ?_, ?_⟩
    · rw [List.getLast?_concat]
    · intro text hmem
      simp only [List.mem_append, List.mem_singleton, List.mem_map] at hmem
      rcases hmem with (h1 | ⟨x, _, h1⟩) | h1
      · injection h1 with _ _ h2
        have h3 := congrArg (fun l => l.getLast?.map (fun x => x.Color)) h2
        simp only [] at h3
        rw [cleanupAttachments_success_color, cleanupAttachments_started_color] at h3
        revert h3
        decide
      · cases h1
      · injection h1 with _ _ h2
        have h3 := congrArg (fun l => l.getLast?.map (fun x => x.Color)) h2
        simp only [] at h3
        rw [cleanupAttachments_success_color, cleanupAttachments_error_color] at h3
        revert h3
        decide

/-- Witness of C6: a batch of three targets approved by an administrator, the
account service failing the second delete call: the calls are a and b, none
for c. -/
theorem cleanup_fail_fast_witness :
    deleteCalls (handleCleanupApprove
        (sampleHandler [(sampleRequest.ID,
          { sampleRequest with Value := "a,b,c" })]) sampleEnv
        (sampleMessage sampleRequest.ID ⟨"A1", "admin1"⟩ actionCleanupApprove [])).effects
      = ["a", "b"] :=
  ((cleanup_fail_fast
    (sampleHandler [(sampleRequest.ID, { sampleRequest with Value := "a,b,c" })]) sampleEnv
    (sampleMessage sampleRequest.ID ⟨"A1", "admin1"⟩ actionCleanupApprove [])
    { sampleRequest with Value := "a,b,c" } (by decide) (by decide) rfl).2
    1 "b" "invalid status code: 500 for b" (by decide)
    (by
      intro i u hi hu
      have h0 : i = 0 := by omega
      subst h0
      rfl)
    (by decide)).1

/-! ## Theorems on the command interpreter -/

/-- C7: for a list of members whose last-access timestamps all parse, and any
cutoff, the screen names collected by the target scan are, in order, those of
the longest prefix of the list whose members all have a last access strictly
before the cutoff. A member placed after a member that is not before the
cutoff is not collected, whatever its own timestamp. When the list is sorted
ascending by last access, the collected names are those of all the members
before the cutoff. -/
theorem scan_keeps_leading_stale (parse3339 : String → Option Time) (teamName : String)
    (expireTime : Time) (members : List Member)
    (hparse : ∀ m ∈ members, ∃ t, m.LastAccessedTime parse3339 = some t) :
    (scanMembers parse3339 teamName expireTime [] [] members).1
        = (members.takeWhile (fun m =>
            match m.LastAccessedTime parse3339 with
            | some t => decide (t.unixNano < expireTime.unixNano)
            | none => false)).map (fun m => m.ScreenName)
      ∧ (∀ pre m post t, members = pre ++ m :: post →
          m.LastAccessedTime parse3339 = some t → ¬ t.unixNano < expireTime.unixNano →
          (scanMembers parse3339 teamName expireTime [] [] members).1
            = (scanMembers parse3339 teamName expireTime [] [] pre).1)
      ∧ (members.Pairwise (fun a b => ∀ ta tb,
            a.LastAccessedTime parse3339 = some ta → b.LastAccessedTime parse3339 = some tb →
            ta.unixNano ≤ tb.unixNano) →
          (scanMembers parse3339 teamName expireTime [] [] members).1
            = (members.filter (fun m =>
                match m.LastAccessedTime parse3339 with
                | some t => decide (t.unixNano < expireTime.unixNano)
                | none => false)).map (fun m => m.ScreenName)) := by
  have hfun : (fun m : Member =>
      match m.LastAccessedTime parse3339 with
      | some t => decide (t.unixNano < expireTime.unixNano)
      | none => false) = staleBefore parse3339 expireTime := by
    funext m
    unfold staleBefore
    cases m.LastAccessedTime parse3339 <;> rfl
  rw [hfun]
  have hscan := scanMembers_acc parse3339 teamName expireTime members [] [] hparse
  rw [List.nil_append] at hscan
  refine ⟨hscan, ?_, ?_⟩
  · intro pre m post t hsplit ht hnot
    have hpre : ∀ x ∈ pre, ∃ t, x.LastAccessedTime parse3339 = some t := by
      intro x hx
      apply hparse
      rw [hsplit]
      exact List.mem_append_left _ hx
    have hs : staleBefore parse3339 expireTime m = false := by
      simp [staleBefore, ht, hnot]
    have h2 := scanMembers_acc parse3339 teamName expireTime pre [] [] hpre
    rw [List.nil_append] at h2
    rw [hscan, h2, hsplit, takeWhile_append_of_neg _ _ _ _ hs]
  · intro hsorted
    rw [hscan, takeWhile_eq_filter_of_sorted parse3339 expireTime members hparse hsorted]

/-- Witness of C7: with the cutoff at 2023-07-01 the scan of sampleMembers
collects the first member only; the third, placed after a fresh member, is not
collected although its own last access is before the cutoff. -/
theorem scan_keeps_leading_stale_witness :
    (scanMembers sampleParse3339 "team" ⟨1688137200000000000⟩ [] [] sampleMembers).1
      = ["old"] :=
  (scan_keeps_leading_stale sampleParse3339 "team" ⟨1688137200000000000⟩ sampleMembers
    (by
      intro m hm
      simp only [sampleMembers, List.mem_cons, List.mem_singleton, List.not_mem_nil,
        or_false] at hm
      rcases hm with hm | hm | hm
      · exact ⟨⟨1672498800000000000⟩, by rw [hm]; decide⟩
      · exact ⟨⟨1701356400000000000⟩, by rw [hm]; decide⟩
      · exact ⟨⟨1675177200000000000⟩, by rw [hm]; decide⟩)).1.trans (by decide)

/-- C10, evaluation at the failing input: the command "<@B1> delete", which
carries no target, sent by a user whose profile has an address, returns no
error and stores a request whose value is the address of the requester. -/
theorem delete_without_target_is_stored :
    (handleDeleteAccount sampleListener sampleListenerEnv ⟨"C1", "U1", "<@B1> delete"⟩).map
        (fun o => (o.err, o.callbacks.values))
      = some (none,
          [("2024-01-05T00:00:00Z",
            ⟨"2024-01-05T00:00:00Z", "user1@example.com", "",
              ⟨"U1", "user1", "user1@example.com"⟩⟩)]) := by
  decide

/-! ## The invite and cleanup commands -/

theorem splitChars_of_not_mem (sep : Char) (a : List Char) (h : sep ∉ a) :
    splitChars sep a = [a] := by
  induction a with
  | nil => rfl
  | cons c cs ih =>
    have hc : c ≠ sep := fun hx => h (hx ▸ List.mem_cons_self _ _)
    have hcs : sep ∉ cs := fun hx => h (List.mem_cons_of_mem _ hx)
    simp [splitChars, hc, ih hcs]

theorem splitChars_append_sep (sep : Char) (a rest : List Char) (h : sep ∉ a) :
    splitChars sep (a ++ sep :: rest) = a :: splitChars sep rest := by
  induction a with
  | nil => simp [splitChars]
  | cons c cs ih =>
    have hc : c ≠ sep := fun hx => h (hx ▸ List.mem_cons_self _ _)
    have hcs : sep ∉ cs := fun hx => h (List.mem_cons_of_mem _ hx)
    simp [splitChars, hc, ih hcs]

theorem removeMailtoMeta_wrapped (addr label : String) (h : '|' ∉ addr.data) :
    RemoveMailtoMeta ("<mailto:" ++ addr ++ "|" ++ label ++ ">") = addr := by
  have hd : ("<mailto:" ++ addr ++ "|" ++ label ++ ">").data
      = "<mailto:".data ++ (addr.data ++ '|' :: (label.data ++ ['>'])) := by
    simp [String.data_append]
  have hp : "<mailto:".data.isPrefixOf
      ("<mailto:".data ++ (addr.data ++ '|' :: (label.data ++ ['>']))) = true := by
    simp
  have hdrop : ("<mailto:".data ++ (addr.data ++ '|' :: (label.data ++ ['>']))).drop
      "<mailto:".length = addr.data ++ '|' :: (label.data ++ ['>']) := by
    have : "<mailto:".length = "<mailto:".data.length := rfl
    rw [this, List.drop_left]
  unfold RemoveMailtoMeta
  simp only [hd, hp, hdrop, if_true, stringsSplit, splitChars_append_sep _ _ _ h,
    List.map_cons]

theorem validEmail_iff (isEmail : String → Bool) (r : Repository) (email : String) :
    r.ValidEmail isEmail email = some none
      ↔ (isEmail email = true
          ∧ (r.allowEmailDomains = []
            ∨ ∃ domain rest, (stringsSplit email '@').drop 1 = domain :: rest
                ∧ domain ∈ r.allowEmailDomains)) := by
  unfold Repository.ValidEmail
  by_cases he : isEmail email = true
  · by_cases hd : r.allowEmailDomains = []
    · simp [he, hd]
    · have hlen : ¬ r.allowEmailDomains.length = 0 := by
        intro h0
        exact hd (List.length_eq_zero.1 h0)
      cases hs : (stringsSplit email '@').drop 1 with
      | nil => simp [he, hd, hlen]
      | cons domain rest =>
        by_cases hm : domain ∈ r.allowEmailDomains
        · simp [he, hd, hlen, hm]
        · simp [he, hd, hlen, hm]
  · simp [he]

theorem validEmail_of_not_isEmail (isEmail : String → Bool) (r : Repository)
    (email : String) (he : isEmail email = false) :
    r.ValidEmail isEmail email
      = some (some ("invalid email: " ++ WrapTextInInlineCodeBlock email)) := by
  simp [Repository.ValidEmail, he]

theorem validEmail_of_foreign_domain (isEmail : String → Bool) (r : Repository)
    (email domain : String) (rest : List String) (he : isEmail email = true)
    (hd : r.allowEmailDomains ≠ [])
    (hs : (stringsSplit email '@').drop 1 = domain :: rest)
    (hm : domain ∉ r.allowEmailDomains) :
    ∃ e, r.ValidEmail isEmail email = some (some e) := by
  have hlen : ¬ r.allowEmailDomains.length = 0 := fun h0 => hd (List.length_eq_zero.1 h0)
  unfold Repository.ValidEmail
  simp only [he, Bool.not_true, Bool.false_eq_true, if_false, beq_iff_eq, hlen, hs, hm]
  exact ⟨_, rfl⟩

theorem validEmail_of_no_at (isEmail : String → Bool) (r : Repository)
    (email : String) (he : isEmail email = true) (hd : r.allowEmailDomains ≠ [])
    (hs : (stringsSplit email '@').drop 1 = []) :
    r.ValidEmail isEmail email = none := by
  have hlen : ¬ r.allowEmailDomains.length = 0 := fun h0 => hd (List.length_eq_zero.1 h0)
  unfold Repository.ValidEmail
  simp only [he, Bool.not_true, Bool.false_eq_true, if_false, beq_iff_eq, hlen, hs]

theorem handleInviteAccount_cases (isEmail : String → Bool) (s : MessageListener)
    (env : ListenerEnv) (ev : MessageEvent) (user : User) (value : String)
    (huser : s.slackClient.GetUserInfo ev.User = .ok user)
    (hcmd : 2 ≤ (stringsSplit (TrimSpace ev.Text) ' ').length)
    (hvalue : (∃ o, (stringsSplit (TrimSpace ev.Text) ' ').drop 2 = [o] ∧ o ≠ ""
          ∧ value = RemoveMailtoMeta o)
      ∨ ((∀ o, (stringsSplit (TrimSpace ev.Text) ' ').drop 2 = [o] → o = "")
          ∧ value = user.Email)) :
    (s.repository.ValidEmail isEmail value = some none →
        ∃ out, handleInviteAccount isEmail s env ev = some out
          ∧ out.callbacks = s.repository.callbacks.Set
              ⟨CallbackMap.GenerateID env.format env.timeNow, value, "",
                ⟨user.ID, user.Name, user.Email⟩⟩)
      ∧ (∀ e, s.repository.ValidEmail isEmail value = some (some e) →
          handleInviteAccount isEmail s env ev = some ⟨some e, s.repository.callbacks, []⟩)
      ∧ (s.repository.ValidEmail isEmail value = none →
          handleInviteAccount isEmail s env ev = none) := by
  have hlt : ¬ (stringsSplit (TrimSpace ev.Text) ' ').length < 2 := by omega
  rcases hvalue with ⟨o, hopt, ho, hv⟩ | ⟨hempty, hv⟩
  · subst hv
    simp only [handleInviteAccount, huser, hlt, if_false, hopt, bne_iff_ne, ne_eq, ho,
      not_false_eq_true, if_true]
    cases hval : s.repository.ValidEmail isEmail (RemoveMailtoMeta o) with
    | none => simp
    | some r =>
      cases r with
      | none =>
        refine ⟨fun _ => ?_, fun e he => (by cases he), fun he => (by cases he)⟩
        dsimp only
        split <;> exact ⟨_, rfl, rfl⟩
      | some e => simp
  · subst hv
    have hopts : (stringsSplit (TrimSpace ev.Text) ' ').drop 2 = []
        ∨ (stringsSplit (TrimSpace ev.Text) ' ').drop 2 = [""]
        ∨ ∃ a b rest, (stringsSplit (TrimSpace ev.Text) ' ').drop 2 = a :: b :: rest := by
      cases hopt : (stringsSplit (TrimSpace ev.Text) ' ').drop 2 with
      | nil => exact Or.inl rfl
      | cons o rest =>
        cases rest with
        | nil =>
          have ho : o = "" := hempty o hopt
          subst ho
          exact Or.inr (Or.inl rfl)
        | cons o2 rest2 => exact Or.inr (Or.inr ⟨o, o2, rest2, rfl⟩)
    rcases hopts with hopt | hopt | ⟨a, b, rest, hopt⟩ <;>
    · simp only [handleInviteAccount, huser, hlt, if_false, hopt, bne_self_eq_false,
        Bool.false_eq_true]
      cases hval : s.repository.ValidEmail isEmail user.Email with
      | none => simp
      | some r =>
        cases r with
        | none =>
          refine ⟨fun _ => ?_, fun e he => (by cases he), fun he => (by cases he)⟩
          dsimp only
          split <;> exact ⟨_, rfl, rfl⟩
        | some e => simp

/-- C11, counterexample: an invite command that carries the target
a@example.com after a doubled blank, and one that carries a further word
after the target. In both the words after the command word are two, the
target is not used, and the request stored holds the requester's own
address. -/
theorem invite_target_needs_single_word :
    (stringsSplit (TrimSpace "<@B1> invite  a@example.com") ' ').drop 2
        = ["", "a@example.com"]
      ∧ (handleInviteAccount sampleIsEmail sampleListener sampleListenerEnv
          ⟨"C1", "U1", "<@B1> invite  a@example.com"⟩).map
            (fun out => (out.err, out.callbacks))
        = some (none, sampleListener.repository.callbacks.Set
            ⟨"2024-01-05T00:00:00Z", "user1@example.com", "",
              ⟨"U1", "user1", "user1@example.com"⟩⟩)
      ∧ (handleInviteAccount sampleIsEmail sampleListener sampleListenerEnv
          ⟨"C1", "U1", "<@B1> invite a@example.com please"⟩).map
            (fun out => (out.err, out.callbacks))
        = some (none, sampleListener.repository.callbacks.Set
            ⟨"2024-01-05T00:00:00Z", "user1@example.com", "",
              ⟨"U1", "user1", "user1@example.com"⟩⟩) := by
  decide

/-- C11, amended: for an invite command of a known requester. The value of the
request is the word after the command word with the mailto wrapper removed
when exactly one, non-empty, word follows the command word, and the
requester's own address in every other case: no word, an empty word, or
several words, whatever they are. The request with that value, the requester
as owner and an empty organization is stored exactly when the value is
accepted by the syntax check and, when the list of allowed domains is not
empty, the text between its first and its second at sign (all the text after
the at sign of an address with one at sign) is in the list. A value the syntax
check refuses gives the error "invalid email" and one with another such text
gives an error, both with the store as it was and nothing posted; an accepted
value without at sign, with a non-empty list, ends the handler abnormally.
The wrapper removal yields the address of a wrapped text and leaves any other
text unchanged. -/
theorem invite_value_and_validation (isEmail : String → Bool) (s : MessageListener)
    (env : ListenerEnv) (ev : MessageEvent) (user : User) (value : String)
    (huser : s.slackClient.GetUserInfo ev.User = .ok user)
    (hcmd : 2 ≤ (stringsSplit (TrimSpace ev.Text) ' ').length)
    (hvalue : (∃ o, (stringsSplit (TrimSpace ev.Text) ' ').drop 2 = [o] ∧ o ≠ ""
          ∧ value = RemoveMailtoMeta o)
      ∨ ((∀ o, (stringsSplit (TrimSpace ev.Text) ' ').drop 2 = [o] → o = "")
          ∧ value = user.Email)) :
    ((isEmail value = true
        ∧ (s.repository.allowEmailDomains = []
          ∨ ∃ domain rest, (stringsSplit value '@').drop 1 = domain :: rest
              ∧ domain ∈ s.repository.allowEmailDomains)) →
      ∃ out, handleInviteAccount isEmail s env ev = some out
        ∧ out.callbacks = s.repository.callbacks.Set
            ⟨CallbackMap.GenerateID env.format env.timeNow, value, "",
              ⟨user.ID, user.Name, user.Email⟩⟩)
    ∧ (isEmail value = false →
        handleInviteAccount isEmail s env ev
          = some ⟨some ("invalid email: " ++ WrapTextInInlineCodeBlock value),
              s.repository.callbacks, []⟩)
    ∧ (isEmail value = true → s.repository.allowEmailDomains ≠ [] →
        ∀ domain rest, (stringsSplit value '@').drop 1 = domain :: rest →
          domain ∉ s.repository.allowEmailDomains →
          ∃ e, handleInviteAccount isEmail s env ev
            = some ⟨some e, s.repository.callbacks, []⟩)
    ∧ (isEmail value = true → s.repository.allowEmailDomains ≠ [] →
        (stringsSplit value '@').drop 1 = [] →
        handleInviteAccount isEmail s env ev = none)
    ∧ (∀ addr label : String, '|' ∉ addr.data →
        RemoveMailtoMeta ("<mailto:" ++ addr ++ "|" ++ label ++ ">") = addr)
    ∧ (∀ text : String, "<mailto:".data.isPrefixOf text.data = false →
        RemoveMailtoMeta text = text)
    ∧ (∀ loc dom : String, '@' ∉ loc.data → '@' ∉ dom.data →
        (stringsSplit (loc ++ "@" ++ dom) '@').drop 1 = [dom])
    ∧ (∀ loc mid more : String, '@' ∉ loc.data → '@' ∉ mid.data →
        ((stringsSplit (loc ++ "@" ++ mid ++ "@" ++ more) '@').drop 1).head? = some mid) := by
  obtain ⟨h1, h2, h3⟩ := handleInviteAccount_cases isEmail s env ev user value huser hcmd hvalue
  refine ⟨?_, ?_, ?_, ?_, removeMailtoMeta_wrapped, ?_, ?_, ?_⟩
  · intro hv
    exact h1 ((validEmail_iff isEmail s.repository value).2 hv)
  · intro he
    exact h2 _ (validEmail_of_not_isEmail isEmail s.repository value he)
  · intro he hd domain rest hs hm
    obtain ⟨e, hval⟩ := validEmail_of_foreign_domain isEmail s.repository value domain rest
      he hd hs hm
    exact ⟨e, h2 e hval⟩
  · intro he hd hs
    exact h3 (validEmail_of_no_at isEmail s.repository value he hd hs)
  · intro text hp
    unfold RemoveMailtoMeta
    simp only [hp, Bool.false_eq_true, if_false]
  · intro loc dom hl hd
    have hdata : (loc ++ "@" ++ dom).data = loc.data ++ '@' :: dom.data := by
      simp [String.data_append]
    simp only [stringsSplit, hdata, splitChars_append_sep _ _ _ hl,
      splitChars_of_not_mem _ _ hd, List.map_cons, List.map_nil, List.drop_succ_cons,
      List.drop_zero]
  · intro loc mid more hl hm
    have hdata : (loc ++ "@" ++ mid ++ "@" ++ more).data
        = loc.data ++ '@' :: (mid.data ++ '@' :: more.data) := by
      simp [String.data_append]
    simp only [stringsSplit, hdata, splitChars_append_sep _ _ _ hl,
      splitChars_append_sep _ _ _ hm, List.map_cons, List.drop_succ_cons, List.drop_zero,
      List.head?_cons]

/-- Witness of C11 amended: with example.com as the one allowed domain, the
user U1 invites the wrapped address a@example.com. -/
theorem invite_value_and_validation_witness :
    ∃ out, handleInviteAccount sampleIsEmail
        { sampleListener with
          repository := { sampleListener.repository with
            allowEmailDomains := ["example.com"] } }
        sampleListenerEnv
        ⟨"C1", "U1", "<@B1> invite <mailto:a@example.com|a@example.com>"⟩ = some out
      ∧ out.callbacks = sampleListener.repository.callbacks.Set
          ⟨"2024-01-05T00:00:00Z", "a@example.com", "",
            ⟨"U1", "user1", "user1@example.com"⟩⟩ :=
  (invite_value_and_validation sampleIsEmail
    { sampleListener with
      repository := { sampleListener.repository with
        allowEmailDomains := ["example.com"] } }
    sampleListenerEnv
    ⟨"C1", "U1", "<@B1> invite <mailto:a@example.com|a@example.com>"⟩
    ⟨"U1", "user1", "user1@example.com"⟩ "a@example.com" rfl (by decide)
    (Or.inl ⟨"<mailto:a@example.com|a@example.com>", by decide, by decide, by decide⟩)).1
    ⟨by decide, Or.inr ⟨"example.com", [], by decide, by decide⟩⟩

theorem cleanupTargetMonth_default (accountExpireMonth : Int) (options : List String)
    (hempty : ∀ o, options = [o] → o = "") :
    cleanupTargetMonth accountExpireMonth options = .ok accountExpireMonth := by
  cases options with
  | nil => rfl
  | cons o rest =>
    cases rest with
    | nil =>
      have ho : o = "" := hempty o rfl
      subst ho
      rfl
    | cons o2 rest2 => rfl

theorem cleanupTargetMonth_valid (accountExpireMonth : Int) (o : String) (ho : o ≠ "")
    (hparse : (Atoi o).2 = true) (hmin : accountExpireMonth ≤ (Atoi o).1) :
    cleanupTargetMonth accountExpireMonth [o] = .ok (Atoi o).1 := by
  have hlt : ¬ (Atoi o).1 < accountExpireMonth := by omega
  simp [cleanupTargetMonth, ho, hparse, hlt]

theorem handleCleanupAccount_queries (s : MessageListener) (env : ListenerEnv)
    (cenv : CleanupEnv) (ev : MessageEvent) (user : User) (month : Int)
    (huser : s.slackClient.GetUserInfo ev.User = .ok user)
    (hcmd : 2 ≤ (stringsSplit (TrimSpace ev.Text) ' ').length)
    (hmonth : cleanupTargetMonth s.accountExpireMonth
      ((stringsSplit (TrimSpace ev.Text) ' ').drop 2) = .ok month) :
    ∃ out, handleCleanupAccount s env cenv ev = some out ∧ out.listCalls = 1 := by
  have hlt : ¬ (stringsSplit (TrimSpace ev.Text) ' ').length < 2 := by omega
  simp only [handleCleanupAccount, huser, hlt, if_false, hmonth]
  repeat' split
  all_goals exact ⟨_, rfl, rfl⟩

theorem handleCleanupAccount_month (s : MessageListener) (env : ListenerEnv)
    (cenv : CleanupEnv) (ev : MessageEvent) (user : User) (month : Int)
    (members : List Member)
    (huser : s.slackClient.GetUserInfo ev.User = .ok user)
    (hcmd : 2 ≤ (stringsSplit (TrimSpace ev.Text) ' ').length)
    (hmonth : cleanupTargetMonth s.accountExpireMonth
      ((stringsSplit (TrimSpace ev.Text) ' ').drop 2) = .ok month)
    (hlist : cenv.ListAccount = .ok members)
    (hscan : (scanMembers cenv.parse3339 s.esaClient.GetTeamName
      (cenv.addMonths cenv.now (-month)) [] [] members).1 ≠ []) :
    ∃ out, handleCleanupAccount s env cenv ev = some out
      ∧ out.callbacks = s.repository.callbacks.Set
          ⟨CallbackMap.GenerateID env.format env.timeNow,
            stringsJoin (scanMembers cenv.parse3339 s.esaClient.GetTeamName
              (cenv.addMonths cenv.now (-month)) [] [] members).1 ",",
            "", ⟨user.ID, user.Name, user.Email⟩⟩
      ∧ out.listCalls = 1 := by
  have hlt : ¬ (stringsSplit (TrimSpace ev.Text) ' ').length < 2 := by omega
  have hm : ¬ members.length = 0 := by
    intro h0
    have : members = [] := List.length_eq_zero.1 h0
    subst this
    exact hscan rfl
  have hs : ¬ (scanMembers cenv.parse3339 s.esaClient.GetTeamName
      (cenv.addMonths cenv.now (-month)) [] [] members).1.length = 0 :=
    fun h0 => hscan (List.length_eq_zero.1 h0)
  simp only [handleCleanupAccount, huser, hlt, if_false, hmonth, hlist,
    beq_iff_eq, hm, hs]
  split <;> exact ⟨_, rfl, rfl, rfl⟩

/-- C12, counterexample: with a configured minimum of six months, the commands
cleanup 3 x and cleanup 3 after a doubled blank carry the argument 3, which is
below the minimum. Both return no error, make one directory query and store a
request: the words after the command word are two, so the month count is the
configured minimum. -/
theorem cleanup_bad_month_accepted :
    (stringsSplit (TrimSpace "<@B1> cleanup  3") ' ').drop 2 = ["", "3"]
      ∧ (handleCleanupAccount sampleListener sampleListenerEnv sampleCleanupEnv
          ⟨"C1", "U1", "<@B1> cleanup 3 x"⟩).map
            (fun out => (out.err, out.callbacks, out.listCalls))
        = some (none, NewCallbackMap.Set
            ⟨"2024-01-05T00:00:00Z", "old", "", ⟨"U1", "user1", "user1@example.com"⟩⟩, 1)
      ∧ (handleCleanupAccount sampleListener sampleListenerEnv sampleCleanupEnv
          ⟨"C1", "U1", "<@B1> cleanup  3"⟩).map
            (fun out => (out.err, out.callbacks, out.listCalls))
        = some (none, NewCallbackMap.Set
            ⟨"2024-01-05T00:00:00Z", "old", "", ⟨"U1", "user1", "user1@example.com"⟩⟩, 1) := by
  decide

/-- C12, amended: for a cleanup command of a known requester. When exactly
one, non-empty, word follows the command word and it does not parse as an
integer or is smaller than the configured minimum of months,
handleCleanupAccount returns the error "invalid month", leaves the store as it
was, posts nothing and makes no directory query. In every other case it makes
one directory query: the month count is the word when it parses and is at
least the minimum, and the configured minimum when no word, an empty word or
several words follow the command word, whatever they are. The cutoff of the
scan is the current time moved back by the month count, and the request stored
holds the names that scan collects. -/
theorem cleanup_month_by_shape (s : MessageListener) (env : ListenerEnv)
    (cenv : CleanupEnv) (ev : MessageEvent) (user : User)
    (huser : s.slackClient.GetUserInfo ev.User = .ok user)
    (hcmd : 2 ≤ (stringsSplit (TrimSpace ev.Text) ' ').length) :
    (∀ o, (stringsSplit (TrimSpace ev.Text) ' ').drop 2 = [o] → o ≠ "" →
      ((Atoi o).2 = false ∨ (Atoi o).1 < s.accountExpireMonth) →
      handleCleanupAccount s env cenv ev
        = some ⟨some ("invalid month, you must be at least "
              ++ toString s.accountExpireMonth ++ ": " ++ toString (Atoi o).1),
            s.repository.callbacks, [], 0⟩)
    ∧ (∀ month,
        ((∃ o, (stringsSplit (TrimSpace ev.Text) ' ').drop 2 = [o] ∧ o ≠ ""
            ∧ (Atoi o).2 = true ∧ s.accountExpireMonth ≤ (Atoi o).1 ∧ month = (Atoi o).1)
          ∨ ((∀ o, (stringsSplit (TrimSpace ev.Text) ' ').drop 2 = [o] → o = "")
            ∧ month = s.accountExpireMonth)) →
        (∃ out, handleCleanupAccount s env cenv ev = some out ∧ out.listCalls = 1)
        ∧ ∀ members, cenv.ListAccount = .ok members →
          (scanMembers cenv.parse3339 s.esaClient.GetTeamName
            (cenv.addMonths cenv.now (-month)) [] [] members).1 ≠ [] →
          ∃ out, handleCleanupAccount s env cenv ev = some out
            ∧ out.callbacks = s.repository.callbacks.Set
                ⟨CallbackMap.GenerateID env.format env.timeNow,
                  stringsJoin (scanMembers cenv.parse3339 s.esaClient.GetTeamName
                    (cenv.addMonths cenv.now (-month)) [] [] members).1 ",",
                  "", ⟨user.ID, user.Name, user.Email⟩⟩
            ∧ out.listCalls = 1) := by
  have hlt : ¬ (stringsSplit (TrimSpace ev.Text) ' ').length < 2 := by omega
  refine ⟨?_, ?_⟩
  · intro o hopt ho hbad
    have hb : (!(Atoi o).2 || decide ((Atoi o).1 < s.accountExpireMonth)) = true := by
      rcases hbad with h1 | h1
      · simp [h1]
      · simp [h1]
    simp only [handleCleanupAccount, huser, hlt, if_false, hopt, cleanupTargetMonth,
      bne_iff_ne, ne_eq, ho, not_false_eq_true, if_true, hb]
  · intro month hshape
    have hmonth : cleanupTargetMonth s.accountExpireMonth
        ((stringsSplit (TrimSpace ev.Text) ' ').drop 2) = .ok month := by
      rcases hshape with ⟨o, hopt, ho, hparse, hmin, hm⟩ | ⟨hempty, hm⟩
      · rw [hopt, hm]
        exact cleanupTargetMonth_valid _ o ho hparse hmin
      · rw [hm]
        exact cleanupTargetMonth_default _ _ hempty
    refine ⟨handleCleanupAccount_queries s env cenv ev user month huser hcmd hmonth, ?_⟩
    intro members hlist hscan
    exact handleCleanupAccount_month s env cenv ev user month members huser hcmd hmonth
      hlist hscan

/-- Witness of C12 amended: the command cleanup 3 with a configured minimum of
six months. -/
theorem cleanup_month_by_shape_witness :
    handleCleanupAccount sampleListener sampleListenerEnv sampleCleanupEnv
        ⟨"C1", "U1", "<@B1> cleanup 3"⟩
      = some ⟨some "invalid month, you must be at least 6: 3", NewCallbackMap, [], 0⟩ :=
  ((cleanup_month_by_shape sampleListener sampleListenerEnv sampleCleanupEnv
    ⟨"C1", "U1", "<@B1> cleanup 3"⟩ ⟨"U1", "user1", "user1@example.com"⟩
    rfl (by decide)).1 "3" (by decide) (by decide) (Or.inr (by decide))).trans
    (by decide)

/-! ## The HTTP entry point -/

/-- C13: for a POST whose body decodes to a callback carrying a token other
than the configured verification token, or a channel id other than the
configured channel, ServeHTTP answers 401 and does not call handle: the
callback map is the one before the request and there is no effect, so no call
of the account service. -/
theorem serveHTTP_rejects_foreign_callback (h : InteractionHandler) (env : Env)
    (dec : Decoder) (r : HTTPRequest) (buf body : List UInt8) (message : InteractionCallback)
    (hm : r.Method = "POST") (hb : r.Body = .ok buf) (hlen : 8 ≤ buf.length)
    (hu : dec.QueryUnescape (buf.drop 8) = some body)
    (hj : dec.Unmarshal body = some message)
    (hbad : message.Token ≠ h.verificationToken ∨ message.ChannelID ≠ h.channelID) :
    (ServeHTTP h env dec r).status = some 401
      ∧ (ServeHTTP h env dec r).ran = none
      ∧ (ServeHTTP h env dec r).callbacks h = h.repository.callbacks
      ∧ (ServeHTTP h env dec r).effects = [] := by
  have hlt : ¬ buf.length < 8 := by omega
  have hout : ServeHTTP h env dec r = ⟨some 401, none⟩ := by
    rcases hbad with ht | hc
    · simp [ServeHTTP, hm, hb, hlt, hu, hj, ht]
    · by_cases ht : message.Token = h.verificationToken
      · simp [ServeHTTP, hm, hb, hlt, hu, hj, ht, hc]
      · simp [ServeHTTP, hm, hb, hlt, hu, hj, ht]
  rw [hout]
  exact ⟨rfl, rfl, rfl, rfl⟩

/-- Witness of C13: an approve by an administrator for a stored request,
carrying a wrong token. -/
theorem serveHTTP_rejects_foreign_callback_witness :
    (ServeHTTP (sampleHandler [(sampleRequest.ID, sampleRequest)]) sampleEnv
      (sampleDecoder { sampleMessage sampleRequest.ID ⟨"A1", "admin1"⟩ actionDeleteApprove []
        with Token := "forged" })
      ⟨"POST", .ok [112, 97, 121, 108, 111, 97, 100, 61, 123]⟩).status = some 401 :=
  (serveHTTP_rejects_foreign_callback (sampleHandler [(sampleRequest.ID, sampleRequest)])
    sampleEnv
    (sampleDecoder { sampleMessage sampleRequest.ID ⟨"A1", "admin1"⟩ actionDeleteApprove []
      with Token := "forged" })
    ⟨"POST", .ok [112, 97, 121, 108, 111, 97, 100, 61, 123]⟩
    [112, 97, 121, 108, 111, 97, 100, 61, 123] [123]
    { sampleMessage sampleRequest.ID ⟨"A1", "admin1"⟩ actionDeleteApprove []
      with Token := "forged" }
    rfl rfl (by decide) rfl rfl (Or.inl (by decide))).1

/-- C14, evaluation at the failing inputs. A POST whose body has three bytes
makes ServeHTTP panic in the slice expression string(buf)[8:]: no status is
written. A POST whose payload decodes to a callback with the right token and
channel and an empty list of attachment actions makes handle panic in the
index expression AttachmentActions[0]: again no status is written. A body
that fails the unescaping or the JSON decoding is answered with 500. -/
theorem serveHTTP_malformed_body :
    ServeHTTP (sampleHandler []) sampleEnv
        (sampleDecoder (sampleMessage "x" ⟨"U1", "user1"⟩ actionCancel []))
        ⟨"POST", .ok [112, 97, 121]⟩ = ⟨none, none⟩
      ∧ (ServeHTTP (sampleHandler []) sampleEnv
          (sampleDecoder { sampleMessage "x" ⟨"U1", "user1"⟩ actionCancel []
            with AttachmentActions := [] })
          ⟨"POST", .ok [112, 97, 121, 108, 111, 97, 100, 61, 123]⟩).status = none
      ∧ (ServeHTTP (sampleHandler []) sampleEnv
          (sampleDecoder { sampleMessage "x" ⟨"U1", "user1"⟩ actionCancel []
            with AttachmentActions := [] })
          ⟨"POST", .ok [112, 97, 121, 108, 111, 97, 100, 61, 123]⟩).ran.map
            (fun out => out.reply) = some Reply.indexOutOfRange
      ∧ ServeHTTP (sampleHandler []) sampleEnv
          (sampleDecoder (sampleMessage "x" ⟨"U1", "user1"⟩ actionCancel []))
          ⟨"POST", .ok [112, 97, 121, 108, 111, 97, 100, 61, 123, 125]⟩ = ⟨some 500, none⟩ := by
  decide

/-! ## Identifiers and repeated lookups -/

theorem lookup_set_set_of_ne (cm : CallbackMap) (r1 r2 : Callback) (hne : r1.ID ≠ r2.ID) :
    ((cm.Set r1).Set r2).values.lookup r1.ID = some r1
      ∧ ((cm.Set r1).Set r2).values.lookup r2.ID = some r2 := by
  simp only [CallbackMap.Set, lookup_mapAssign, hne, if_false, if_true]
  exact ⟨trivial, trivial⟩

/-- C15, counterexample: it is not the case that any two calls of GenerateID,
the later at a clock reading not before that of the earlier, return different
identifiers. Two delete commands handled at the same clock reading get the
same identifier, and the request of the second replaces that of the first. -/
theorem generateID_not_always_fresh :
    ¬ (∀ (format : Time → String) (t1 t2 : Time), t1.unixNano ≤ t2.unixNano →
        CallbackMap.GenerateID format t1 ≠ CallbackMap.GenerateID format t2)
      ∧ ((handleDeleteAccount sampleListener sampleListenerEnv
            ⟨"C1", "U1", "<@B1> delete alice"⟩).bind (fun first =>
          handleDeleteAccount
            { sampleListener with
              repository := { sampleListener.repository with callbacks := first.callbacks } }
            sampleListenerEnv ⟨"C1", "U1", "<@B1> delete bob"⟩)).map
          (fun second => second.callbacks.values.map (fun e => (e.1, e.2.Value)))
        = some [("2024-01-05T00:00:00Z", "bob")] := by
  refine ⟨?_, by decide⟩
  intro hall
  exact hall (fun _ => "2024-01-05T00:00:00Z") ⟨0⟩ ⟨0⟩ (le_refl _) rfl

/-- C15, amended: two calls of GenerateID at clock readings t1 and t2 that the
formatter renders faithfully (parsing the identifier gives the reading back)
and with t1 strictly before t2 return different identifiers, the later one
encoding the strictly later time, and Set of a request under the second
identifier keeps the request stored under the first. Two calls at the same
clock reading return the same identifier, and then Set of the second request
replaces the first. -/
theorem generateID_distinct_on_later_clock (format : Time → String)
    (parse : String → Option Time) (t1 t2 : Time)
    (hrt1 : parse (format t1) = some t1) (hrt2 : parse (format t2) = some t2)
    (hlt : t1.unixNano < t2.unixNano) :
    CallbackMap.GenerateID format t1 ≠ CallbackMap.GenerateID format t2
      ∧ (∃ u1 u2, parse (CallbackMap.GenerateID format t1) = some u1
          ∧ parse (CallbackMap.GenerateID format t2) = some u2
          ∧ u1.unixNano < u2.unixNano)
      ∧ (∀ (cm : CallbackMap) (r1 r2 : Callback),
          r1.ID = CallbackMap.GenerateID format t1 →
          r2.ID = CallbackMap.GenerateID format t2 →
          ((cm.Set r1).Set r2).values.lookup r1.ID = some r1
            ∧ ((cm.Set r1).Set r2).values.lookup r2.ID = some r2)
      ∧ (∀ (cm : CallbackMap) (r1 r2 : Callback),
          r1.ID = CallbackMap.GenerateID format t1 →
          r2.ID = CallbackMap.GenerateID format t1 →
          ((cm.Set r1).Set r2).values.lookup r1.ID = some r2) := by
  have hne : CallbackMap.GenerateID format t1 ≠ CallbackMap.GenerateID format t2 := by
    intro heq
    unfold CallbackMap.GenerateID at heq
    rw [heq, hrt2] at hrt1
    cases hrt1
    omega
  refine ⟨hne, ⟨t1, t2, hrt1, hrt2, hlt⟩, ?_, ?_⟩
  · intro cm r1 r2 h1 h2
    exact lookup_set_set_of_ne cm r1 r2 (by rw [h1, h2]; exact hne)
  · intro cm r1 r2 h1 h2
    simp only [CallbackMap.Set, lookup_mapAssign, h1, h2, if_true]

/-- Witness of C15 amended: two readings one second apart under sampleParse. -/
theorem generateID_distinct_on_later_clock_witness :
    CallbackMap.GenerateID
        (fun t => if t.unixNano = 1704067200000000000 then "2024-01-01T00:00:00Z"
          else "2024-01-05T00:00:00Z") ⟨1704067200000000000⟩
      ≠ CallbackMap.GenerateID
        (fun t => if t.unixNano = 1704067200000000000 then "2024-01-01T00:00:00Z"
          else "2024-01-05T00:00:00Z") ⟨1704412800000000000⟩ :=
  (generateID_distinct_on_later_clock
    (fun t => if t.unixNano = 1704067200000000000 then "2024-01-01T00:00:00Z"
      else "2024-01-05T00:00:00Z")
    sampleParse ⟨1704067200000000000⟩ ⟨1704412800000000000⟩
    (by decide) (by decide) (by decide)).1

/-- C18, counterexample: a request created on 2024-01-05 is found by a Get six
days later and not found by the next Get two days after that, with no Set in
between. -/
theorem get_twice_differs_across_expiry :
    ((CallbackMap.mk [(sampleRequest.ID, sampleRequest)]).Get sampleParse
        ⟨1704931200000000000⟩ sampleRequest.ID).1 = (sampleRequest, true)
      ∧ (((CallbackMap.mk [(sampleRequest.ID, sampleRequest)]).Get sampleParse
          ⟨1704931200000000000⟩ sampleRequest.ID).2.Get sampleParse
          ⟨1705104000000000000⟩ sampleRequest.ID).1 = (default, false) := by
  decide

/-- C18, amended: two successive Get calls for an id, at clock readings t1 and
t2 with no Set in between, return the same found flag and the same request,
provided the id is within the retention window at the second call whenever
the first call found it. When the first call found the request and the id is
past the window at the second call, the second call returns found = false. -/
theorem get_twice_same_within_retention (parse : String → Option Time) (t1 t2 : Time)
    (cm : CallbackMap) (k : String)
    (hwithin : (cm.Get parse t1 k).1.2 = true →
      ∃ t, parse k = some t ∧ t2.unixNano - t.unixNano ≤ 7 * 24 * 3600 * 1000000000) :
    ((cm.Get parse t1 k).2.Get parse t2 k).1 = (cm.Get parse t1 k).1
      ∧ (∀ t, parse k = some t →
          7 * 24 * 3600 * 1000000000 < t2.unixNano - t.unixNano →
          (((cm.Get parse t2 k).1.2 = false)
            ∧ ((cm.Get parse t1 k).2.Get parse t2 k).1.2 = false)) := by
  refine ⟨?_, ?_⟩
  · rw [get_snd, get_fst, get_fst]
    by_cases hf1 : fresh parse t1 k = true
    · rw [if_pos hf1]
      have hidx : mapIndex (cm.cleanup parse t1).values k = mapIndex cm.values k := by
        unfold mapIndex
        rw [lookup_cleanup, if_pos hf1]
      rw [hidx]
      cases hl : cm.values.lookup k with
      | none =>
        rw [mapIndex_of_none _ _ hl]
        by_cases hf2 : fresh parse t2 k = true <;> simp [hf2]
      | some v =>
        have hfound : (cm.Get parse t1 k).1.2 = true := by
          rw [get_fst, if_pos hf1]
          unfold mapIndex
          rw [hl]
        have hf2 : fresh parse t2 k = true := (fresh_iff parse t2 k).2 (hwithin hfound)
        rw [if_pos hf2]
    · rw [if_neg hf1]
      have hidx : mapIndex (cm.cleanup parse t1).values k = (default, false) := by
        apply mapIndex_of_none
        rw [lookup_cleanup, if_neg hf1]
      rw [hidx]
      by_cases hf2 : fresh parse t2 k = true <;> simp [hf2]
  · intro t ht hlt
    have hnf : fresh parse t2 k = false := by
      unfold fresh
      rw [ht]
      simp only [decide_eq_false_iff_not]
      omega
    constructor
    · rw [get_fst, hnf]
      rfl
    · rw [get_fst, hnf]
      rfl

/-- Witness of C18 amended: the sample request looked up twice on its sixth day. -/
theorem get_twice_same_within_retention_witness :
    (((CallbackMap.mk [(sampleRequest.ID, sampleRequest)]).Get sampleParse
        ⟨1704931200000000000⟩ sampleRequest.ID).2.Get sampleParse
        ⟨1704931201000000000⟩ sampleRequest.ID).1
      = ((CallbackMap.mk [(sampleRequest.ID, sampleRequest)]).Get sampleParse
        ⟨1704931200000000000⟩ sampleRequest.ID).1 :=
  (get_twice_same_within_retention sampleParse ⟨1704931200000000000⟩
    ⟨1704931201000000000⟩ ⟨[(sampleRequest.ID, sampleRequest)]⟩ sampleRequest.ID
    (fun _ => ⟨⟨1704412800000000000⟩, by decide, by decide⟩)).1

/-! ## The result message of a failed cleanup -/

theorem failure_text_ne_empty (target e : String) :
    (":x: Failed to delete expired account " ++ WrapTextInInlineCodeBlock target ++ ": " ++ e
      != "") = true := by
  rw [bne_iff_ne]
  intro hx
  have h1 := congrArg String.data hx
  simp [String.data_append] at h1

/-- C17, counterexample: a batch of the three targets u1, u2, u3 approved by
an administrator, the second delete failing after u1 was deleted. The last
update of the message has two attachments, the approved one and the result
attachment; the result names u2 and the error, and the name u1 of the account
already deleted occurs in neither text. -/
theorem cleanup_failure_omits_deleted :
    deleteCalls (handleCleanupApprove
        (sampleHandler [(sampleRequest.ID, { sampleRequest with Value := "u1,u2,u3" })])
        sampleEnv
        (sampleMessage sampleRequest.ID ⟨"A1", "admin1"⟩ actionCleanupApprove [])).effects
        = ["u1", "u2"]
      ∧ (handleCleanupApprove
        (sampleHandler [(sampleRequest.ID, { sampleRequest with Value := "u1,u2,u3" })])
        sampleEnv
        (sampleMessage sampleRequest.ID ⟨"A1", "admin1"⟩ actionCleanupApprove [])).effects.getLast?
        = some (.UpdateMessage "C1" "1704931200.000100" [
            { Title := "01/05 00:00 - Confirm"
              Text := ":white_check_mark: <@admin1> approved the request"
              Color := ColorCodeGreen, CallbackID := sampleRequest.ID
              Actions := [], Fields := [] },
            { Title := "01/11 00:00 - Execute"
              Text := ":x: Failed to delete expired account `u2`: "
                ++ "invalid status code: 500 for u2"
              Color := ColorCodeRed, CallbackID := "", Actions := [], Fields := [] }])
      ∧ ¬ ("u1".data <:+: (":x: Failed to delete expired account `u2`: "
            ++ "invalid status code: 500 for u2").data)
      ∧ ¬ ("u1".data <:+: ":white_check_mark: <@admin1> approved the request".data) := by
  set_option maxRecDepth 100000 in
  decide

/-- C17, amended: for a cleanup request approved by an administrator in which
the delete of target t is the first to fail, with error e, the last update of
the message is the approved original message followed by the Execute
attachment marked red with the text "Failed to delete expired account",
the name t and the error e, and with no action and no field. The text is
made of t and e alone: the accounts deleted before the failure are the
targets of the delete calls made before t and are not part of the message. -/
theorem cleanup_failure_message (h : InteractionHandler) (env : Env)
    (message : InteractionCallback) (cb : Callback) (k : Nat) (t e : String)
    (hget : (h.repository.callbacks.Get env.parse env.timeNow message.CallbackID).1
      = (cb, true))
    (hadm : message.User.ID ∈ h.repository.admins.map Prod.fst)
    (hw : env.writeErr = none)
    (hk : (stringsSplit cb.Value ',')[k]? = some t)
    (hprev : ∀ i u, i < k → (stringsSplit cb.Value ',')[i]? = some u →
      h.esaClient.DeleteAccount ((stringsSplit cb.Value ',').take i) u = none)
    (hfail : h.esaClient.DeleteAccount ((stringsSplit cb.Value ',').take k) t = some e) :
    (handleCleanupApprove h env message).effects.getLast?
        = some (.UpdateMessage message.ChannelID message.MessageTs
            (setSuccessToLastAttachment message.OriginalMessage.Attachments
                (":white_check_mark: " ++ WrapUserNameInLink message.User.Name
                  ++ " approved the request")
              ++ [{ Title := env.dateTimePrefix ++ "Execute"
                    Text := ":x: Failed to delete expired account "
                      ++ WrapTextInInlineCodeBlock t ++ ": " ++ e
                    Color := ColorCodeRed, CallbackID := "", Actions := [], Fields := [] }]))
      ∧ deleteCalls (handleCleanupApprove h env message).effects
          = (stringsSplit cb.Value ',').take k ++ [t] := by
  have hadm1 : h.repository.IsAdminUserID message.User.ID = true :=
    (isAdminUserID_iff _ _).2 hadm
  have hrun := handleCleanupApprove_run h env message cb hget hadm1 hw
  have hl := cleanupLoop_first_failure h.esaClient (stringsSplit cb.Value ',') []
    ["期限切れアカウント (" ++ toString (stringsSplit cb.Value ',').length
      ++ "件) を削除しました"]
    k t e hk (by simpa using hprev) (by simpa using hfail)
  rw [hrun, hl]
  refine ⟨?_, ?_⟩
  · rw [List.getLast?_concat]
    simp only [setErrorToLastAttachment, setToLastAttachment, cleanupAttachments,
      modifyLast_concat, failure_text_ne_empty, if_true, executeAttachment]
  · rw [deleteCalls_run]
    have hklt : k < (stringsSplit cb.Value ',').length := by
      by_contra hge
      rw [List.getElem?_eq_none (by omega)] at hk
      cases hk
    rw [List.take_succ, hk]
    rfl

/-- Witness of C17 amended: the batch a, b, c with the second delete failing. -/
theorem cleanup_failure_message_witness :
    deleteCalls (handleCleanupApprove
        (sampleHandler [(sampleRequest.ID, { sampleRequest with Value := "a,b,c" })])
        sampleEnv
        (sampleMessage sampleRequest.ID ⟨"A1", "admin1"⟩ actionCleanupApprove [])).effects
      = ["a"] ++ ["b"] :=
  (cleanup_failure_message
    (sampleHandler [(sampleRequest.ID, { sampleRequest with Value := "a,b,c" })]) sampleEnv
    (sampleMessage sampleRequest.ID ⟨"A1", "admin1"⟩ actionCleanupApprove [])
    { sampleRequest with Value := "a,b,c" } 1 "b" "invalid status code: 500 for b"
    (by decide) (by decide) rfl (by decide)
    (by
      intro i u hi hu
      have h0 : i = 0 := by omega
      subst h0
      rfl)
    (by decide)).2

/-! ## Sequences of callbacks -/

theorem cleanup_cleanup_of_le (parse : String → Option Time) (t1 t2 : Time) (cm : CallbackMap)
    (hle : t1.unixNano ≤ t2.unixNano) :
    (cm.cleanup parse t1).cleanup parse t2 = cm.cleanup parse t2 := by
  have hv : ((cm.cleanup parse t1).cleanup parse t2).values = (cm.cleanup parse t2).values := by
    rw [cleanup_values, cleanup_values, cleanup_values, List.filter_filter]
    apply List.filter_congr
    intro e _
    by_cases hf2 : fresh parse t2 e.1 = true
    · obtain ⟨t, ht, hage⟩ := (fresh_iff parse t2 e.1).1 hf2
      have hf1 : fresh parse t1 e.1 = true :=
        (fresh_iff parse t1 e.1).2 ⟨t, ht, by omega⟩
      simp [hf1, hf2]
    · simp [hf2]
  cases hc1 : (cm.cleanup parse t1).cleanup parse t2 with
  | mk v1 =>
    cases hc2 : cm.cleanup parse t2 with
    | mk v2 =>
      rw [hc1, hc2] at hv
      simp only at hv
      rw [hv]

theorem get_cleanup_of_le (parse : String → Option Time) (t1 t2 : Time) (cm : CallbackMap)
    (k : String) (hle : t1.unixNano ≤ t2.unixNano) :
    (cm.cleanup parse t1).Get parse t2 k = cm.Get parse t2 k := by
  unfold CallbackMap.Get
  simp only [cleanup_cleanup_of_le parse t1 t2 cm hle]

/-- A handler reads the callback map through Get only: on two maps on which
Get agrees, each of the nine actions has the same outcome. -/
theorem handle_congr_store (h : InteractionHandler) (env : Env) (message : InteractionCallback)
    (cm : CallbackMap) (a : AttachmentAction) (rest : List AttachmentAction)
    (hact : message.AttachmentActions = a :: rest) (hname : a.Name ∈ actionNames)
    (hG : cm.Get env.parse env.timeNow message.CallbackID
      = h.repository.callbacks.Get env.parse env.timeNow message.CallbackID) :
    handle (withCallbacks h cm) env message = handle h env message := by
  simp only [actionNames, List.mem_cons, List.mem_singleton, List.not_mem_nil, or_false]
    at hname
  rcases hname with hn | hn | hn | hn | hn | hn | hn | hn | hn
  · rw [handle_inviteSelectOrganization _ env message a rest hact hn,
      handle_inviteSelectOrganization _ env message a rest hact hn]
    simp only [handleInviteSelectOrganization, withCallbacks, hG]
  · rw [handle_inviteConfirm _ env message a rest hact hn,
      handle_inviteConfirm _ env message a rest hact hn]
    simp only [handleConfirm, confirmAdmins, withCallbacks, hG]
  · rw [handle_inviteApprove _ env message a rest hact hn,
      handle_inviteApprove _ env message a rest hact hn]
    simp only [handleInviteApprove, Repository.IsAdminUserID, withCallbacks, hG]
  · rw [handle_deleteConfirm _ env message a rest hact hn,
      handle_deleteConfirm _ env message a rest hact hn]
    simp only [handleConfirm, confirmAdmins, withCallbacks, hG]
  · rw [handle_deleteApprove _ env message a rest hact hn,
      handle_deleteApprove _ env message a rest hact hn]
    simp only [handleDeleteApprove, Repository.IsAdminUserID, withCallbacks, hG]
  · rw [handle_cleanupConfirm _ env message a rest hact hn,
      handle_cleanupConfirm _ env message a rest hact hn]
    simp only [handleConfirm, confirmAdmins, withCallbacks, hG]
  · rw [handle_cleanupApprove _ env message a rest hact hn,
      handle_cleanupApprove _ env message a rest hact hn]
    simp only [handleCleanupApprove, Repository.IsAdminUserID, withCallbacks, hG]
  · rw [handle_cancel _ env message a rest hact hn, handle_cancel _ env message a rest hact hn]
    simp only [handleCancel, withCallbacks, hG]
  · rw [handle_reject _ env message a rest hact hn, handle_reject _ env message a rest hact hn]
    simp only [handleReject, Repository.IsAdminUserID, withCallbacks, hG]

/-- One callback, seen from a request stored afterwards: it was stored before
under the same key with the same id, value and owner, and its organization is
the one before or a non-empty value selected by its owner. -/
theorem handle_step_frame (h : InteractionHandler) (env : Env) (message : InteractionCallback)
    (hwk : WellKeyed h.repository.callbacks) (k : String) (cb1 : Callback)
    (hl : (handle h env message).callbacks.values.lookup k = some cb1) :
    ∃ cb0, h.repository.callbacks.values.lookup k = some cb0
      ∧ cb1.ID = cb0.ID ∧ cb1.Value = cb0.Value ∧ cb1.OwnerUser = cb0.OwnerUser
      ∧ (cb1.Organization = cb0.Organization
        ∨ (cb1.Organization ≠ "" ∧ k = message.CallbackID
            ∧ message.User.ID = cb0.OwnerUser.ID
            ∧ ∃ a rest sel more, message.AttachmentActions = a :: rest
              ∧ a.Name = actionInviteSelectOrganization
              ∧ a.SelectedOptions = sel :: more ∧ cb1.Organization = sel.Value)) := by
  rcases handle_callbacks h env message with hc | hc | hc
  · rw [hc] at hl
    exact ⟨cb1, hl, rfl, rfl, rfl, Or.inl rfl⟩
  · rw [hc, lookup_cleanup] at hl
    by_cases hf : fresh env.parse env.timeNow k = true
    · rw [if_pos hf] at hl
      exact ⟨cb1, hl, rfl, rfl, rfl, Or.inl rfl⟩
    · rw [if_neg hf] at hl
      cases hl
  · obtain ⟨cb, a, rest, sel, more, hg, ho, ha, hn, hs, hv, hc⟩ := hc
    obtain ⟨hfr, hlk⟩ := fresh_of_get _ _ _ _ _ hg
    have hid : cb.ID = message.CallbackID := wellKeyed_lookup _ hwk _ _ hlk
    rw [hc] at hl
    simp only [CallbackMap.Set, lookup_mapAssign] at hl
    by_cases hk : k = cb.ID
    · rw [if_pos hk] at hl
      cases hl
      refine ⟨cb, ?_, rfl, rfl, rfl, Or.inr ⟨hv, hk.trans hid, ho.symm, a, rest, sel, more,
        ha, hn, hs, rfl⟩⟩
      rw [hk, hid]
      exact hlk
    · rw [if_neg hk, lookup_cleanup] at hl
      by_cases hf : fresh env.parse env.timeNow k = true
      · rw [if_pos hf] at hl
        exact ⟨cb1, hl, rfl, rfl, rfl, Or.inl rfl⟩
      · rw [if_neg hf] at hl
        cases hl

/-- C16, counterexample: the owner of a stored request selects the
organization Org1 and then, by a second select-organization callback for the
same request, Org2. The stored organization is empty at first, Org1 after the
first callback and Org2 after the second: it changed twice, the second time
from a non-empty value. -/
theorem organization_changes_twice :
    ((sampleHandler [(sampleRequest.ID, sampleRequest)]).repository.callbacks.values.lookup
        sampleRequest.ID).map (fun cb => cb.Organization) = some ""
      ∧ ((runCallbacks (sampleHandler [(sampleRequest.ID, sampleRequest)])
          [(sampleEnv, sampleMessage sampleRequest.ID ⟨"U1", "user1"⟩
            actionInviteSelectOrganization [⟨"Org1", "Org1"⟩])]).values.lookup
        sampleRequest.ID).map (fun cb => cb.Organization) = some "Org1"
      ∧ ((runCallbacks (sampleHandler [(sampleRequest.ID, sampleRequest)])
          [(sampleEnv, sampleMessage sampleRequest.ID ⟨"U1", "user1"⟩
            actionInviteSelectOrganization [⟨"Org1", "Org1"⟩]),
           (sampleEnv, sampleMessage sampleRequest.ID ⟨"U1", "user1"⟩
            actionInviteSelectOrganization [⟨"Org2", "Org2"⟩])]).values.lookup
        sampleRequest.ID).map (fun cb => cb.Organization) = some "Org2" := by
  decide

/-- C16, amended: along every sequence of interaction callbacks, on a store in
which every request is kept under its own id, a request stored at the end was
stored at the start with the same id, value and owner, and its organization
at the end is either the one at the start or a non-empty value that a
select-organization callback of the sequence, sent by its owner for this
request, selected. The organization may thus change at each such callback
(more than once), always to a non-empty value, and never by another action. -/
theorem organization_changes_only_by_selection (steps : List (Env × InteractionCallback)) :
    ∀ (h : InteractionHandler), WellKeyed h.repository.callbacks →
      ∀ k cb1, (runCallbacks h steps).values.lookup k = some cb1 →
        ∃ cb0, h.repository.callbacks.values.lookup k = some cb0
          ∧ cb1.ID = cb0.ID ∧ cb1.Value = cb0.Value ∧ cb1.OwnerUser = cb0.OwnerUser
          ∧ (cb1.Organization = cb0.Organization
            ∨ (cb1.Organization ≠ ""
                ∧ ∃ step ∈ steps, step.2.CallbackID = k
                  ∧ step.2.User.ID = cb0.OwnerUser.ID
                  ∧ ∃ a rest sel more, step.2.AttachmentActions = a :: rest
                    ∧ a.Name = actionInviteSelectOrganization
                    ∧ a.SelectedOptions = sel :: more
                    ∧ cb1.Organization = sel.Value)) := by
  induction steps with
  | nil =>
    intro h _ k cb1 hl
    exact ⟨cb1, hl, rfl, rfl, rfl, Or.inl rfl⟩
  | cons step rest ih =>
    intro h hwk k cb1 hl
    have hwk1 : WellKeyed (withCallbacks h (handle h step.1 step.2).callbacks).repository.callbacks :=
      wellKeyed_handle h step.1 step.2 hwk
    obtain ⟨cbm, hlm, hid, hval, hown, horg⟩ := ih _ hwk1 k cb1 hl
    obtain ⟨cb0, hl0, hid0, hval0, hown0, horg0⟩ :=
      handle_step_frame h step.1 step.2 hwk k cbm hlm
    refine ⟨cb0, hl0, hid.trans hid0, hval.trans hval0, hown.trans hown0, ?_⟩
    rcases horg with heq | ⟨hne, st, hst, hcid, huid, hsel⟩
    · rcases horg0 with heq0 | ⟨hne0, hk0, hu0, a, rs, sel, more, ha, hn, hs, hv⟩
      · exact Or.inl (heq.trans heq0)
      · right
        refine ⟨by rw [heq]; exact hne0, step, List.mem_cons_self _ _, hk0.symm, hu0,
          a, rs, sel, more, ha, hn, hs, by rw [heq]; exact hv⟩
    · right
      refine ⟨hne, st, List.mem_cons_of_mem _ hst, hcid, ?_, hsel⟩
      rw [huid, hown0]

/-- Witness of C16 amended: the two selections of the counterexample; the
organization at the end is the second selected value. -/
theorem organization_changes_only_by_selection_witness :
    ∃ cb0, (sampleHandler [(sampleRequest.ID, sampleRequest)]).repository.callbacks.values.lookup
        sampleRequest.ID = some cb0
      ∧ (⟨"2024-01-05T00:00:00Z", "alice", "Org2",
          ⟨"U1", "user1", "user1@example.com"⟩⟩ : Callback).Value = cb0.Value :=
  have w := organization_changes_only_by_selection
    [(sampleEnv, sampleMessage sampleRequest.ID ⟨"U1", "user1"⟩
        actionInviteSelectOrganization [⟨"Org1", "Org1"⟩]),
      (sampleEnv, sampleMessage sampleRequest.ID ⟨"U1", "user1"⟩
        actionInviteSelectOrganization [⟨"Org2", "Org2"⟩])]
    (sampleHandler [(sampleRequest.ID, sampleRequest)])
    (by intro e he; simp only [sampleHandler, List.mem_singleton] at he; rw [he])
    sampleRequest.ID
    ⟨"2024-01-05T00:00:00Z", "alice", "Org2", ⟨"U1", "user1", "user1@example.com"⟩⟩
    (by decide)
  match w with
  | ⟨cb0, h0, _, hv, _⟩ => ⟨cb0, h0, hv⟩

/-- C20: cancel, reject and the three approve actions leave the store as a
sweep leaves it: every unexpired request is still stored, unmodified. A
further callback of any of the nine actions, handled afterwards at a clock
reading not before the first, has the outcome it would have had without the
first one. In particular a second approve by an administrator for a request
still found makes the invite call, or the delete call, again. -/
theorem terminal_action_can_be_replayed (h : InteractionHandler) (env1 env2 : Env)
    (m1 m2 : InteractionCallback) (a1 a2 : AttachmentAction)
    (rest1 rest2 : List AttachmentAction)
    (hact1 : m1.AttachmentActions = a1 :: rest1)
    (hname1 : a1.Name ∈ [actionCancel, actionReject, actionInviteApprove,
      actionDeleteApprove, actionCleanupApprove])
    (hact2 : m2.AttachmentActions = a2 :: rest2) (hname2 : a2.Name ∈ actionNames)
    (hparse : env2.parse = env1.parse)
    (htime : env1.timeNow.unixNano ≤ env2.timeNow.unixNano) :
    (∀ k, fresh env1.parse env1.timeNow k = true →
        (handle h env1 m1).callbacks.values.lookup k
          = h.repository.callbacks.values.lookup k)
      ∧ handle (withCallbacks h (handle h env1 m1).callbacks) env2 m2 = handle h env2 m2
      ∧ (∀ cb, (h.repository.callbacks.Get env2.parse env2.timeNow m2.CallbackID).1
            = (cb, true) →
          m2.User.ID ∈ h.repository.admins.map Prod.fst → env2.writeErr = none →
          (a2.Name = actionInviteApprove →
            Effect.InviteAccount cb.Value
              ∈ (handle (withCallbacks h (handle h env1 m1).callbacks) env2 m2).effects)
          ∧ (a2.Name = actionDeleteApprove →
            Effect.DeleteAccount cb.Value
              ∈ (handle (withCallbacks h (handle h env1 m1).callbacks) env2 m2).effects)) := by
  have hstore : (handle h env1 m1).callbacks
      = h.repository.callbacks.cleanup env1.parse env1.timeNow := by
    simp only [List.mem_cons, List.mem_singleton, List.not_mem_nil, or_false] at hname1
    rcases hname1 with hn | hn | hn | hn | hn
    · rw [handle_cancel h env1 m1 a1 rest1 hact1 hn]
      exact handleCancel_callbacks h env1 m1
    · rw [handle_reject h env1 m1 a1 rest1 hact1 hn]
      exact handleReject_callbacks h env1 m1
    · rw [handle_inviteApprove h env1 m1 a1 rest1 hact1 hn]
      exact handleInviteApprove_callbacks h env1 m1
    · rw [handle_deleteApprove h env1 m1 a1 rest1 hact1 hn]
      exact handleDeleteApprove_callbacks h env1 m1
    · rw [handle_cleanupApprove h env1 m1 a1 rest1 hact1 hn]
      exact handleCleanupApprove_callbacks h env1 m1
  have hsame : handle (withCallbacks h (handle h env1 m1).callbacks) env2 m2
      = handle h env2 m2 := by
    apply handle_congr_store h env2 m2 _ a2 rest2 hact2 hname2
    rw [hstore, hparse]
    exact get_cleanup_of_le env1.parse env1.timeNow env2.timeNow _ _ htime
  refine ⟨?_, hsame, ?_⟩
  · intro k hf
    rw [hstore, lookup_cleanup, if_pos hf]
  · intro cb hget hadm hw
    have hadm1 : h.repository.IsAdminUserID m2.User.ID = true :=
      (isAdminUserID_iff _ _).2 hadm
    rw [hsame]
    constructor
    · intro hn
      rw [handle_inviteApprove h env2 m2 a2 rest2 hact2 hn]
      simp only [handleInviteApprove, hget, hadm1, hw]
      cases h.esaClient.InviteAccount cb.Value <;> simp
    · intro hn
      rw [handle_deleteApprove h env2 m2 a2 rest2 hact2 hn]
      simp only [handleDeleteApprove, hget, hadm1, hw]
      cases h.esaClient.DeleteAccount [] cb.Value <;> simp

/-- Witness of C20: an administrator approves a stored delete request twice. -/
theorem terminal_action_can_be_replayed_witness :
    Effect.DeleteAccount "alice"
      ∈ (handle (withCallbacks (sampleHandler [(sampleRequest.ID, sampleRequest)])
          (handle (sampleHandler [(sampleRequest.ID, sampleRequest)]) sampleEnv
            (sampleMessage sampleRequest.ID ⟨"A1", "admin1"⟩ actionDeleteApprove [])).callbacks)
        sampleEnv
        (sampleMessage sampleRequest.ID ⟨"A1", "admin1"⟩ actionDeleteApprove [])).effects :=
  ((terminal_action_can_be_replayed (sampleHandler [(sampleRequest.ID, sampleRequest)])
    sampleEnv sampleEnv
    (sampleMessage sampleRequest.ID ⟨"A1", "admin1"⟩ actionDeleteApprove [])
    (sampleMessage sampleRequest.ID ⟨"A1", "admin1"⟩ actionDeleteApprove [])
    { Name := actionDeleteApprove, Text := "", Typ := "button", Style := "",
      Options := [], SelectedOptions := [] }
    { Name := actionDeleteApprove, Text := "", Typ := "button", Style := "",
      Options := [], SelectedOptions := [] } [] [] rfl (by decide) rfl (by decide) rfl
    (le_refl _)).2.2 sampleRequest (by decide) (by decide) rfl).2 rfl

/-! ## buildURL and the query options -/

theorem keyLE_refl (a : List Char) : keyLE a a = true := by
  induction a with
  | nil => rfl
  | cons c cs ih => simp [keyLE, ih]

theorem keyLE_total (a b : List Char) : keyLE a b = true ∨ keyLE b a = true := by
  induction a generalizing b with
  | nil => exact Or.inl rfl
  | cons c cs ih =>
    cases b with
    | nil => exact Or.inr rfl
    | cons d ds =>
      simp only [keyLE, Bool.or_eq_true, decide_eq_true_eq, Bool.and_eq_true, beq_iff_eq]
      rcases Nat.lt_trichotomy c.toNat d.toNat with h | h | h
      · exact Or.inl (Or.inl h)
      · rcases ih ds with h1 | h1
        · exact Or.inl (Or.inr ⟨h, h1⟩)
        · exact Or.inr (Or.inr ⟨h.symm, h1⟩)
      · exact Or.inr (Or.inl h)

theorem keyLE_trans (a b c : List Char) (h1 : keyLE a b = true) (h2 : keyLE b c = true) :
    keyLE a c = true := by
  induction a generalizing b c with
  | nil => rfl
  | cons x xs ih =>
    cases b with
    | nil => simp [keyLE] at h1
    | cons y ys =>
      cases c with
      | nil => simp [keyLE] at h2
      | cons z zs =>
        simp only [keyLE, Bool.or_eq_true, decide_eq_true_eq, Bool.and_eq_true,
          beq_iff_eq] at h1 h2 ⊢
        rcases h1 with h1 | ⟨h1, h1r⟩
        · rcases h2 with h2 | ⟨h2, _⟩
          · exact Or.inl (by omega)
          · exact Or.inl (by omega)
        · rcases h2 with h2 | ⟨h2, h2r⟩
          · exact Or.inl (by omega)
          · exact Or.inr ⟨by omega, ih ys zs h1r h2r⟩

theorem keyLE_antisymm (a b : List Char) (h1 : keyLE a b = true) (h2 : keyLE b a = true) :
    a = b := by
  induction a generalizing b with
  | nil =>
    cases b with
    | nil => rfl
    | cons d ds => simp [keyLE] at h2
  | cons c cs ih =>
    cases b with
    | nil => simp [keyLE] at h1
    | cons d ds =>
      simp only [keyLE, Bool.or_eq_true, decide_eq_true_eq, Bool.and_eq_true,
        beq_iff_eq] at h1 h2
      have hcd : c.toNat = d.toNat := by
        rcases h1 with h1 | ⟨h1, _⟩
        · rcases h2 with h2 | ⟨h2, _⟩
          · omega
          · omega
        · exact h1
      have hr1 : keyLE cs ds = true := by
        rcases h1 with h1 | ⟨_, h1⟩
        · omega
        · exact h1
      have hr2 : keyLE ds cs = true := by
        rcases h2 with h2 | ⟨_, h2⟩
        · omega
        · exact h2
      have hc : c = d := Char.eq_of_val_eq (UInt32.ext hcd)
      rw [hc, ih ds hr1 hr2]

theorem keyOrder_total : IsTotal String (fun a b => keyLE a.data b.data = true) :=
  ⟨fun a b => keyLE_total a.data b.data⟩

theorem keyOrder_trans : IsTrans String (fun a b => keyLE a.data b.data = true) :=
  ⟨fun a b c => keyLE_trans a.data b.data c.data⟩

theorem keyOrder_antisymm : IsAntisymm String (fun a b => keyLE a.data b.data = true) :=
  ⟨fun a b h1 h2 => String.ext (keyLE_antisymm a.data b.data h1 h2)⟩

theorem intercalate_cons_cons (sep p q : List Char) (rest : List (List Char)) :
    List.intercalate sep (p :: q :: rest) = p ++ (sep ++ List.intercalate sep (q :: rest)) := by
  simp [List.intercalate, List.intersperse]

theorem splitChars_intercalate (sep : Char) (pieces : List (List Char)) (hne : pieces ≠ [])
    (hfree : ∀ piece ∈ pieces, sep ∉ piece) :
    splitChars sep (List.intercalate [sep] pieces) = pieces := by
  induction pieces with
  | nil => exact absurd rfl hne
  | cons piece rest ih =>
    cases rest with
    | nil =>
      have : List.intercalate [sep] [piece] = piece := by
        simp [List.intercalate, List.intersperse]
      rw [this]
      exact splitChars_of_not_mem sep piece (hfree piece (List.mem_cons_self _ _))
    | cons q rest =>
      rw [intercalate_cons_cons, List.singleton_append,
        splitChars_append_sep sep piece _ (hfree piece (List.mem_cons_self _ _)),
        ih (by simp) (fun x hx => hfree x (List.mem_cons_of_mem _ hx))]

theorem cutChars_append_sep (sep : Char) (a rest : List Char) (h : sep ∉ a) :
    cutChars sep (a ++ sep :: rest) = (a, rest, true) := by
  induction a with
  | nil => simp [cutChars]
  | cons c cs ih =>
    have hc : c ≠ sep := fun hx => h (hx ▸ List.mem_cons_self _ _)
    have hcs : sep ∉ cs := fun hx => h (List.mem_cons_of_mem _ hx)
    simp [cutChars, hc, ih hcs]

theorem values_lookup_append_single (m : Values) (k x : String) (v : String)
    (hx : x ≠ k) : List.lookup x (m ++ [(k, [v])]) = List.lookup x m := by
  induction m with
  | nil =>
    have : (x == k) = false := by simpa using hx
    simp [List.lookup, this]
  | cons e es ih =>
    obtain ⟨a, b⟩ := e
    by_cases ha : x = a
    · subst ha
      simp [List.lookup_cons]
    · have : (x == a) = false := by simpa using ha
      simp only [List.cons_append, List.lookup_cons, this, ih]

/-- One escaped setting key=value is parsed back to its key and value. -/
theorem parseSetting_encoded (lib : NetURL) (m : Values) (k v : String)
    (hsk : SafeText lib k) (hsv : SafeText lib v) (hk : m.lookup k = none) :
    parseSetting lib m (lib.QueryEscape k ++ "=" ++ lib.QueryEscape v).data
      = m ++ [(k, [v])] := by
  have hdata : (lib.QueryEscape k ++ "=" ++ lib.QueryEscape v).data
      = (lib.QueryEscape k).data ++ '=' :: (lib.QueryEscape v).data := by
    simp [String.data_append]
  have hsemi : ((lib.QueryEscape k).data ++ '=' :: (lib.QueryEscape v).data).contains ';'
      = false := by
    rw [Bool.eq_false_iff]
    intro hc
    simp only [List.contains_eq_any_beq, List.any_eq_true, beq_iff_eq, List.mem_append,
      List.mem_cons] at hc
    obtain ⟨x, hc, hx⟩ := hc
    subst hx
    rcases hc with h1 | h1 | h1
    · exact (hsk.2 _ h1).2.2 rfl
    · revert h1
      decide
    · exact (hsv.2 _ h1).2.2 rfl
  have hempty : ((lib.QueryEscape k).data ++ '=' :: (lib.QueryEscape v).data).isEmpty
      = false := by
    cases (lib.QueryEscape k).data <;> rfl
  have hcut := cutChars_append_sep '=' (lib.QueryEscape k).data (lib.QueryEscape v).data
    (fun hc => (hsk.2 _ hc).2.1 rfl)
  unfold parseSetting
  simp only [hdata, hsemi, hempty, Bool.false_eq_true, if_false, hcut, hsk.1, hsv.1,
    Values.add, hk]

theorem foldl_parseSetting_encoded (lib : NetURL) (ps : List (String × String)) :
    ∀ m : Values, (ps.map Prod.fst).Nodup → (∀ p ∈ ps, m.lookup p.1 = none) →
      (∀ p ∈ ps, SafeText lib p.1 ∧ SafeText lib p.2) →
      (ps.map (fun p => (lib.QueryEscape p.1 ++ "=" ++ lib.QueryEscape p.2).data)).foldl
          (parseSetting lib) m
        = m ++ ps.map single := by
  induction ps with
  | nil =>
    intro m _ _ _
    simp
  | cons p rest ih =>
    intro m hnd hm hs
    rw [List.map_cons, List.nodup_cons] at hnd
    rw [List.map_cons, List.foldl_cons,
      parseSetting_encoded lib m p.1 p.2 (hs p (List.mem_cons_self _ _)).1
        (hs p (List.mem_cons_self _ _)).2 (hm p (List.mem_cons_self _ _)),
      ih (m ++ [(p.1, [p.2])]) hnd.2]
    · simp [single]
    · intro q hq
      have hne : q.1 ≠ p.1 := by
        intro heq
        apply hnd.1
        rw [← heq]
        exact List.mem_map_of_mem _ hq
      rw [values_lookup_append_single m p.1 q.1 p.2 hne]
      exact hm q (List.mem_cons_of_mem _ hq)
    · exact fun q hq => hs q (List.mem_cons_of_mem _ hq)

/-- The query text of parameters with distinct keys is parsed back to them. -/
theorem query_encodePairs (lib : NetURL) (u : URL) (ps : List (String × String))
    (hnd : (ps.map Prod.fst).Nodup)
    (hs : ∀ p ∈ ps, SafeText lib p.1 ∧ SafeText lib p.2)
    (hq : u.RawQuery = encodePairs lib ps) :
    u.Query lib = ps.map single := by
  unfold URL.Query
  rw [hq]
  cases hps : ps with
  | nil =>
    simp [encodePairs, stringsJoin, List.intercalate, splitChars, parseSetting]
  | cons p rest =>
    rw [← hps]
    have hdata : (encodePairs lib ps).data
        = List.intercalate ['&']
            (ps.map (fun p => (lib.QueryEscape p.1 ++ "=" ++ lib.QueryEscape p.2).data)) := by
      simp [encodePairs, stringsJoin, List.map_map, Function.comp_def]
    rw [hdata, splitChars_intercalate '&' _ (by rw [hps]; simp)]
    · have := foldl_parseSetting_encoded lib ps [] hnd (fun _ _ => rfl) hs
      rw [this]
      simp
    · intro piece hpiece
      rw [List.mem_map] at hpiece
      obtain ⟨q, hqm, hqe⟩ := hpiece
      rw [← hqe]
      intro hc
      have hd : (lib.QueryEscape q.1 ++ "=" ++ lib.QueryEscape q.2).data
          = (lib.QueryEscape q.1).data ++ '=' :: (lib.QueryEscape q.2).data := by
        simp [String.data_append]
      rw [hd, List.mem_append, List.mem_cons] at hc
      rcases hc with h1 | h1 | h1
      · exact ((hs q hqm).1.2 _ h1).1 rfl
      · revert h1
        decide
      · exact ((hs q hqm).2.2 _ h1).1 rfl

theorem lookup_map_single (qs : List (String × String)) (k : String) :
    (qs.map single).lookup k = (qs.lookup k).map (fun v => [v]) := by
  induction qs with
  | nil => rfl
  | cons q rest ih =>
    obtain ⟨a, b⟩ := q
    by_cases ha : k = a
    · subst ha
      simp [single, List.lookup_cons]
    · have : (k == a) = false := by simpa using ha
      simp only [List.map_cons, single, List.lookup_cons, this]
      exact ih

/-- Encode on a map whose keys have one value each: the parameters in
ascending order of their keys. -/
theorem encode_map_single (lib : NetURL) (qs : List (String × String)) :
    Values.Encode lib (qs.map single) = encodePairs lib (canon qs) := by
  have hkeys : (qs.map single).map Prod.fst = qs.map Prod.fst := by
    simp [List.map_map, Function.comp_def, single]
  unfold Values.Encode encodePairs canon
  rw [hkeys]
  congr 1
  generalize (qs.map Prod.fst).insertionSort (fun a b => keyLE a.data b.data = true) = ks
  induction ks with
  | nil => rfl
  | cons k rest ih =>
    rw [List.flatMap_cons, ih]
    simp only [Values.get, lookup_map_single, List.filterMap_cons]
    cases qs.lookup k with
    | none => simp
    | some v => simp

theorem lookup_filterMap_keys (qs : List (String × String)) (ks : List String) (x : String) :
    (ks.filterMap (fun k => (qs.lookup k).map (fun v => (k, v)))).lookup x
      = if x ∈ ks then qs.lookup x else none := by
  induction ks with
  | nil => simp
  | cons k rest ih =>
    rw [List.filterMap_cons]
    by_cases hxk : x = k
    · subst hxk
      cases hl : qs.lookup x with
      | none =>
        simp only [Option.map_none', ih, List.mem_cons, true_or, if_true]
        by_cases hm : x ∈ rest <;> simp [hm, hl]
      | some v => simp [List.lookup_cons]
    · have hb : (x == k) = false := by simpa using hxk
      cases hl : qs.lookup k with
      | none => simp [ih, hxk]
      | some v => simp [List.lookup_cons, hb, ih, hxk]

theorem lookup_eq_none_of_not_key (qs : List (String × String)) (x : String)
    (hx : x ∉ qs.map Prod.fst) : qs.lookup x = none := by
  induction qs with
  | nil => rfl
  | cons q rest ih =>
    obtain ⟨a, b⟩ := q
    simp only [List.map_cons, List.mem_cons, not_or] at hx
    have hb : (x == a) = false := by simpa using hx.1
    rw [List.lookup_cons, hb]
    exact ih hx.2

theorem lookup_isSome_of_key (qs : List (String × String)) (x : String)
    (hx : x ∈ qs.map Prod.fst) : ∃ v, qs.lookup x = some v := by
  induction qs with
  | nil => cases hx
  | cons q rest ih =>
    obtain ⟨a, b⟩ := q
    by_cases ha : x = a
    · subst ha
      exact ⟨b, by simp [List.lookup_cons]⟩
    · have hb : (x == a) = false := by simpa using ha
      rw [List.lookup_cons, hb]
      apply ih
      simp only [List.map_cons, List.mem_cons] at hx
      rcases hx with h1 | h1
      · exact absurd h1 ha
      · exact h1

theorem lookup_canon (qs : List (String × String)) (x : String) :
    (canon qs).lookup x = qs.lookup x := by
  unfold canon
  rw [lookup_filterMap_keys]
  by_cases hx : x ∈ (qs.map Prod.fst).insertionSort (fun a b => keyLE a.data b.data = true)
  · rw [if_pos hx]
  · rw [if_neg hx]
    have : x ∉ qs.map Prod.fst := fun hc =>
      hx ((List.perm_insertionSort _ _).mem_iff.2 hc)
    exact (lookup_eq_none_of_not_key qs x this).symm

theorem keys_canon (qs : List (String × String)) :
    (canon qs).map Prod.fst
      = (qs.map Prod.fst).insertionSort (fun a b => keyLE a.data b.data = true) := by
  unfold canon
  have hall : ∀ k ∈ (qs.map Prod.fst).insertionSort (fun a b => keyLE a.data b.data = true),
      ∃ v, qs.lookup k = some v := fun k hk =>
    lookup_isSome_of_key qs k ((List.perm_insertionSort _ _).mem_iff.1 hk)
  generalize (qs.map Prod.fst).insertionSort (fun a b => keyLE a.data b.data = true) = ks
    at hall
  induction ks with
  | nil => rfl
  | cons k rest ih =>
    obtain ⟨v, hv⟩ := hall k (List.mem_cons_self _ _)
    rw [List.filterMap_cons, hv]
    simp only [Option.map_some', List.map_cons]
    rw [ih (fun x hx => hall x (List.mem_cons_of_mem _ hx))]

theorem canon_congr (q1 q2 : List (String × String))
    (hkeys : (q1.map Prod.fst).Perm (q2.map Prod.fst))
    (hlook : ∀ x, q1.lookup x = q2.lookup x) : canon q1 = canon q2 := by
  haveI := keyOrder_total
  haveI := keyOrder_trans
  haveI := keyOrder_antisymm
  unfold canon
  have hs : (q1.map Prod.fst).insertionSort (fun a b => keyLE a.data b.data = true)
      = (q2.map Prod.fst).insertionSort (fun a b => keyLE a.data b.data = true) := by
    apply List.eq_of_perm_of_sorted (r := fun a b : String => keyLE a.data b.data = true)
    · exact ((List.perm_insertionSort _ _).trans hkeys).trans
        (List.perm_insertionSort _ _).symm
    · exact List.sorted_insertionSort _ _
    · exact List.sorted_insertionSort _ _
  rw [hs]
  congr 1
  funext k
  rw [hlook]

theorem mem_of_lookup_pair (qs : List (String × String)) (k v : String)
    (hl : qs.lookup k = some v) : (k, v) ∈ qs := by
  induction qs with
  | nil => cases hl
  | cons q rest ih =>
    obtain ⟨a, b⟩ := q
    by_cases ha : k = a
    · subst ha
      simp only [List.lookup_cons, beq_self_eq_true] at hl
      cases hl
      exact List.mem_cons_self _ _
    · have hb : (k == a) = false := by simpa using ha
      rw [List.lookup_cons, hb] at hl
      exact List.mem_cons_of_mem _ (ih hl)

theorem mem_canon (qs : List (String × String)) (p : String × String)
    (hp : p ∈ canon qs) : p ∈ qs := by
  unfold canon at hp
  rw [List.mem_filterMap] at hp
  obtain ⟨k, _, hk⟩ := hp
  cases hl : qs.lookup k with
  | none =>
    rw [hl] at hk
    cases hk
  | some v =>
    rw [hl] at hk
    simp only [Option.map_some', Option.some.injEq] at hk
    rw [← hk]
    exact mem_of_lookup_pair qs k v hl

theorem setQuery_step (lib : NetURL) (u : URL) (qs : List (String × String))
    (hnd : (qs.map Prod.fst).Nodup)
    (hs : ∀ p ∈ qs, SafeText lib p.1 ∧ SafeText lib p.2)
    (hq : u.RawQuery = encodePairs lib (canon qs)) (k v : String)
    (hk : k ∉ qs.map Prod.fst) :
    setQuery lib u k v = { u with RawQuery := encodePairs lib (canon ((k, v) :: qs)) } := by
  have hperm := List.perm_insertionSort (fun a b : String => keyLE a.data b.data = true)
    (qs.map Prod.fst)
  have hndc : ((canon qs).map Prod.fst).Nodup := by
    rw [keys_canon]
    exact hperm.nodup_iff.2 hnd
  have hkc : k ∉ (canon qs).map Prod.fst := by
    rw [keys_canon]
    exact fun hc => hk (hperm.mem_iff.1 hc)
  have hquery := query_encodePairs lib u (canon qs) hndc
    (fun p hp => hs p (mem_canon qs p hp)) hq
  have hfilter : ((canon qs).map single).filter (fun e => e.1 != k) = (canon qs).map single := by
    rw [List.filter_eq_self]
    intro e he
    rw [List.mem_map] at he
    obtain ⟨q, hqm, hqe⟩ := he
    rw [← hqe]
    simp only [single, bne_iff_ne, ne_eq]
    intro hc
    exact hkc (hc ▸ List.mem_map_of_mem _ hqm)
  have hset : (u.Query lib).Set k v = ((k, v) :: canon qs).map single := by
    rw [hquery]
    unfold Values.Set
    rw [hfilter]
    rfl
  have hcanon : canon ((k, v) :: canon qs) = canon ((k, v) :: qs) := by
    apply canon_congr
    · simp only [List.map_cons]
      rw [keys_canon]
      exact List.Perm.cons _ hperm
    · intro x
      simp only [List.lookup_cons, lookup_canon]
  unfold setQuery
  rw [hset, encode_map_single, hcanon]

theorem foldl_setQuery (lib : NetURL) (ls : List (String × String)) :
    ∀ (u : URL) (qs : List (String × String)),
      u.RawQuery = encodePairs lib (canon qs) →
      ((ls.map Prod.fst) ++ (qs.map Prod.fst)).Nodup →
      (∀ p ∈ ls ++ qs, SafeText lib p.1 ∧ SafeText lib p.2) →
      ls.foldl (fun u p => setQuery lib u p.1 p.2) u
        = { u with RawQuery := encodePairs lib (canon (ls.reverse ++ qs)) } := by
  induction ls with
  | nil =>
    intro u qs hq _ _
    simp only [List.foldl_nil, List.reverse_nil, List.nil_append]
    rw [← hq]
  | cons p rest ih =>
    intro u qs hq hnd hs
    simp only [List.map_cons, List.cons_append, List.nodup_cons, List.mem_append, not_or]
      at hnd
    have hqs : (qs.map Prod.fst).Nodup := (List.nodup_append.1 hnd.2).2.1
    rw [List.foldl_cons, setQuery_step lib u qs hqs
      (fun q hq => hs q (List.mem_append_right _ hq)) hq p.1 p.2 hnd.1.2]
    rw [ih _ (p :: qs) rfl]
    · simp only [List.reverse_cons, List.append_assoc, List.singleton_append]
    · simp only [List.map_cons]
      rw [List.nodup_append] at hnd ⊢
      refine ⟨hnd.2.1, List.nodup_cons.2 ⟨hnd.1.2, hnd.2.2.1⟩, ?_⟩
      intro a ha hb
      rcases List.mem_cons.1 hb with h1 | h1
      · exact hnd.1.1 (h1 ▸ ha)
      · exact hnd.2.2.2 ha h1
    · intro q hq
      apply hs
      simp only [List.mem_append, List.mem_cons] at hq ⊢
      rcases hq with h1 | h1 | h1
      · exact Or.inl (Or.inr h1)
      · exact Or.inl (Or.inl h1)
      · exact Or.inr h1

theorem toOption_of_valid (lib : NetURL) (c : OptionCall) (hv : c.valid) (u : URL) :
    c.toOption lib u = .ok (setQuery lib u c.setting.1 c.setting.2) := by
  cases c with
  | page value =>
    have : ¬ value < 1 := by
      simp only [OptionCall.valid] at hv
      omega
    simp [OptionCall.toOption, QueryOptionPage, OptionCall.setting, this]
  | perPage value =>
    have : ¬ value < 1 := by
      simp only [OptionCall.valid] at hv
      omega
    simp [OptionCall.toOption, QueryOptionPerPage, OptionCall.setting, this]
  | sort value =>
    simp only [OptionCall.valid] at hv
    simp [OptionCall.toOption, QueryOptionSort, OptionCall.setting, hv]
  | order value =>
    simp only [OptionCall.valid] at hv
    rcases hv with h1 | h1 <;>
      simp [OptionCall.toOption, QueryOptionOrder, OptionCall.setting, h1]

theorem applyOptions_of_valid (lib : NetURL) (calls : List OptionCall) :
    ∀ u : URL, (∀ c ∈ calls, c.valid) →
      applyOptions u (calls.map (OptionCall.toOption lib))
        = .ok ((calls.map OptionCall.setting).foldl (fun u p => setQuery lib u p.1 p.2) u) := by
  induction calls with
  | nil =>
    intro u _
    rfl
  | cons c rest ih =>
    intro u hv
    simp only [List.map_cons, applyOptions, List.foldl_cons,
      toOption_of_valid lib c (hv c (List.mem_cons_self _ _)) u]
    exact ih _ (fun x hx => hv x (List.mem_cons_of_mem _ hx))

theorem lookup_eq_of_perm (q1 q2 : List (String × String)) (hperm : q1.Perm q2)
    (hnd : (q1.map Prod.fst).Nodup) (x : String) : q1.lookup x = q2.lookup x := by
  induction hperm with
  | nil => rfl
  | cons a _ ih =>
    obtain ⟨ka, va⟩ := a
    rw [List.map_cons, List.nodup_cons] at hnd
    simp only [List.lookup_cons]
    rw [ih hnd.2]
  | swap a b l =>
    obtain ⟨ka, va⟩ := a
    obtain ⟨kb, vb⟩ := b
    simp only [List.map_cons, List.nodup_cons, List.mem_cons, not_or] at hnd
    have hne : kb ≠ ka := hnd.1.1
    simp only [List.lookup_cons]
    by_cases h1 : x = ka
    · subst h1
      have : (x == kb) = false := by
        simp only [beq_eq_false_iff_ne, ne_eq]
        exact fun hc => hne hc.symm
      simp [this]
    · have : (x == ka) = false := by simpa using h1
      simp [this]
  | trans h12 _ ih1 ih2 =>
    rw [ih1 hnd, ih2 ((h12.map Prod.fst).nodup_iff.1 hnd)]

theorem canon_four (sort order page perPage : String) :
    canon [("sort", sort), ("order", order), ("page", page), ("per_page", perPage)]
      = [("order", order), ("page", page), ("per_page", perPage), ("sort", sort)] := by
  rfl

theorem encodePairs_four (lib : NetURL) (sort order page perPage : String) :
    encodePairs lib [("order", order), ("page", page), ("per_page", perPage), ("sort", sort)]
      = lib.QueryEscape "order" ++ "=" ++ lib.QueryEscape order
        ++ "&" ++ lib.QueryEscape "page" ++ "=" ++ lib.QueryEscape page
        ++ "&" ++ lib.QueryEscape "per_page" ++ "=" ++ lib.QueryEscape perPage
        ++ "&" ++ lib.QueryEscape "sort" ++ "=" ++ lib.QueryEscape sort := by
  apply String.ext
  simp [encodePairs, stringsJoin, List.intercalate, List.intersperse, String.data_append]

theorem encodePairs_ne_empty (lib : NetURL) (p : String × String)
    (rest : List (String × String)) : (encodePairs lib (p :: rest) != "") = true := by
  rw [bne_iff_ne]
  intro hc
  have h1 := congrArg String.data hc
  cases rest with
  | nil =>
    simp [encodePairs, stringsJoin, List.intercalate, List.intersperse,
      String.data_append] at h1
  | cons q rest =>
    simp [encodePairs, stringsJoin, List.intercalate, List.intersperse,
      String.data_append] at h1

/-- The query of a URL parsed without query after the four valid option calls,
in any order. -/
theorem applyOptions_four (lib : NetURL) (u : URL) (hq : u.RawQuery = "")
    (sort order : String) (page perPage : Int)
    (hsort : sort ≠ "") (horder : order = "asc" ∨ order = "desc") (hpage : 1 ≤ page)
    (hpp : 1 ≤ perPage ∧ perPage ≤ 100)
    (hsafe : ∀ s ∈ ["sort", "order", "page", "per_page", sort, order, toString page,
      toString perPage], SafeText lib s)
    (calls : List OptionCall)
    (hperm : calls.Perm
      [OptionCall.sort sort, OptionCall.order order, OptionCall.page page,
        OptionCall.perPage perPage]) :
    applyOptions u (calls.map (OptionCall.toOption lib))
      = .ok { u with RawQuery := (encodePairs lib
          [("order", order), ("page", toString page), ("per_page", toString perPage),
            ("sort", sort)]) } := by
  have hvalid : ∀ c ∈ calls, c.valid := by
    intro c hc
    have hm := hperm.mem_iff.1 hc
    simp only [List.mem_cons, List.mem_singleton, List.not_mem_nil, or_false] at hm
    rcases hm with h1 | h1 | h1 | h1 <;> rw [h1]
    · exact hsort
    · exact horder
    · exact hpage
    · exact hpp
  have hsettings : (calls.map OptionCall.setting).Perm
      [("sort", sort), ("order", order), ("page", toString page),
        ("per_page", toString perPage)] := hperm.map OptionCall.setting
  have hkeys : ((calls.map OptionCall.setting).map Prod.fst).Perm
      ["sort", "order", "page", "per_page"] := hsettings.map Prod.fst
  have hnd : ((calls.map OptionCall.setting).map Prod.fst).Nodup :=
    hkeys.nodup_iff.2 (by decide)
  have hs : ∀ p ∈ calls.map OptionCall.setting ++ [], SafeText lib p.1 ∧ SafeText lib p.2 := by
    intro p hp
    rw [List.append_nil] at hp
    have hm := hsettings.mem_iff.1 hp
    simp only [List.mem_cons, List.mem_singleton, List.not_mem_nil, or_false] at hm
    rcases hm with h1 | h1 | h1 | h1 <;> rw [h1] <;> constructor <;> apply hsafe <;> simp
  rw [applyOptions_of_valid lib calls u hvalid,
    foldl_setQuery lib (calls.map OptionCall.setting) u [] (by rw [hq]; rfl)
      (by simpa using hnd) hs]
  have hcanon : canon ((calls.map OptionCall.setting).reverse ++ [])
      = canon [("sort", sort), ("order", order), ("page", toString page),
          ("per_page", toString perPage)] := by
    rw [List.append_nil]
    apply canon_congr
    · exact ((List.reverse_perm _).map Prod.fst).trans hkeys
    · intro x
      apply lookup_eq_of_perm _ _ ((List.reverse_perm _).trans hsettings)
      exact ((List.reverse_perm _).map Prod.fst).nodup_iff.2 hnd
  rw [hcanon, canon_four]

/-- C19, counterexample: the URL https://github.com#top is parsable, and with
the four valid options of TestBuildURL buildURL returns the query before the
fragment, not the URL followed by a question mark and the parameters. -/
theorem buildURL_fragment_url :
    (buildURL sampleNetURL "https://github.com#top"
        [QueryOptionSort sampleNetURL "createdAt", QueryOptionOrder sampleNetURL "asc",
          QueryOptionPage sampleNetURL 1, QueryOptionPerPage sampleNetURL 50]).toOption
        = some "https://github.com?order=asc&page=1&per_page=50&sort=createdAt#top"
      ∧ (buildURL sampleNetURL "https://github.com#top"
        [QueryOptionSort sampleNetURL "createdAt", QueryOptionOrder sampleNetURL "asc",
          QueryOptionPage sampleNetURL 1, QueryOptionPerPage sampleNetURL 50]).toOption
        ≠ some ("https://github.com#top" ++ "?"
            ++ "order=asc&page=1&per_page=50&sort=createdAt") := by
  decide

/-- C19, amended: for a URL that url.Parse accepts with an empty query, with
no fragment and no forced query, and renders back unchanged (as the URLs of
TestBuildURL), buildURL with no options returns the URL unchanged and no
error; with a valid sort, order, page and per_page option, passed in any
order, it returns no error and the URL followed by a question mark and the
four parameters, escaped, in ascending order of their keys: order, page,
per_page, sort. For any URL parsed with an empty query the same parameters
are the query of the result, written after the head of the URL and before its
fragment. The escaping functions are assumed to escape the eight texts
involved without ampersand, equals sign or semicolon and to unescape them
back. -/
theorem buildURL_query_in_key_order (lib : NetURL) (raw : String) (u : URL)
    (hparse : lib.Parse raw = .ok u) (hq : u.RawQuery = "")
    (sort order : String) (page perPage : Int)
    (hsort : sort ≠ "") (horder : order = "asc" ∨ order = "desc") (hpage : 1 ≤ page)
    (hpp : 1 ≤ perPage ∧ perPage ≤ 100)
    (hsafe : ∀ s ∈ ["sort", "order", "page", "per_page", sort, order, toString page,
      toString perPage], SafeText lib s) :
    buildURL lib raw [] = .ok u.String
      ∧ (∀ calls : List OptionCall,
          calls.Perm [OptionCall.sort sort, OptionCall.order order, OptionCall.page page,
            OptionCall.perPage perPage] →
          buildURL lib raw (calls.map (OptionCall.toOption lib))
            = .ok (u.head ++ ("?" ++
                (lib.QueryEscape "order" ++ "=" ++ lib.QueryEscape order
                  ++ "&" ++ lib.QueryEscape "page" ++ "=" ++ lib.QueryEscape (toString page)
                  ++ "&" ++ lib.QueryEscape "per_page" ++ "="
                  ++ lib.QueryEscape (toString perPage)
                  ++ "&" ++ lib.QueryEscape "sort" ++ "=" ++ lib.QueryEscape sort))
              ++ (if u.Fragment != "" then "#" ++ u.Fragment else "")))
      ∧ (u = ⟨raw, false, "", ""⟩ →
          buildURL lib raw [] = .ok raw
          ∧ ∀ calls : List OptionCall,
            calls.Perm [OptionCall.sort sort, OptionCall.order order, OptionCall.page page,
              OptionCall.perPage perPage] →
            buildURL lib raw (calls.map (OptionCall.toOption lib))
              = .ok (raw ++ "?" ++
                  (lib.QueryEscape "order" ++ "=" ++ lib.QueryEscape order
                    ++ "&" ++ lib.QueryEscape "page" ++ "=" ++ lib.QueryEscape (toString page)
                    ++ "&" ++ lib.QueryEscape "per_page" ++ "="
                    ++ lib.QueryEscape (toString perPage)
                    ++ "&" ++ lib.QueryEscape "sort" ++ "=" ++ lib.QueryEscape sort))) := by
  have hnone : buildURL lib raw [] = .ok u.String := by
    simp [buildURL, hparse, applyOptions]
  have hfour : ∀ calls : List OptionCall,
      calls.Perm [OptionCall.sort sort, OptionCall.order order, OptionCall.page page,
        OptionCall.perPage perPage] →
      buildURL lib raw (calls.map (OptionCall.toOption lib))
        = .ok (u.head ++ ("?" ++
            (lib.QueryEscape "order" ++ "=" ++ lib.QueryEscape order
              ++ "&" ++ lib.QueryEscape "page" ++ "=" ++ lib.QueryEscape (toString page)
              ++ "&" ++ lib.QueryEscape "per_page" ++ "="
              ++ lib.QueryEscape (toString perPage)
              ++ "&" ++ lib.QueryEscape "sort" ++ "=" ++ lib.QueryEscape sort))
          ++ (if u.Fragment != "" then "#" ++ u.Fragment else "")) := by
    intro calls hperm
    have happ := applyOptions_four lib u hq sort order page perPage hsort horder hpage hpp
      hsafe calls hperm
    have hne := encodePairs_ne_empty lib ("order", order)
      [("page", toString page), ("per_page", toString perPage), ("sort", sort)]
    simp only [buildURL, hparse, happ, URL.String, hne, Bool.or_true, if_true]
    rw [encodePairs_four]
  refine ⟨hnone, hfour, ?_⟩
  intro hu
  constructor
  · rw [hnone, hu]
    simp [URL.String]
  · intro calls hperm
    rw [hfour calls hperm, hu]
    simp [String.append_assoc]

/-- Witness of C19 amended: the third case of TestBuildURL, with the options
in another order. -/
theorem buildURL_query_in_key_order_witness :
    buildURL sampleNetURL "https://github.com"
        ([OptionCall.page 1, OptionCall.sort "createdAt", OptionCall.perPage 50,
          OptionCall.order "asc"].map (OptionCall.toOption sampleNetURL))
      = .ok ("https://github.com" ++ "?" ++
          ("order" ++ "=" ++ "asc" ++ "&" ++ "page" ++ "=" ++ toString (1 : Int)
            ++ "&" ++ "per_page" ++ "=" ++ toString (50 : Int)
            ++ "&" ++ "sort" ++ "=" ++ "createdAt")) :=
  ((buildURL_query_in_key_order sampleNetURL "https://github.com"
    ⟨"https://github.com", false, "", ""⟩ rfl rfl "createdAt" "asc" 1 50
    (by decide) (Or.inl rfl) (by decide) (by decide)
    (by
      intro s hs
      simp only [List.mem_cons, List.mem_singleton, List.not_mem_nil, or_false] at hs
      refine ⟨rfl, ?_⟩
      intro c hc
      rcases hs with h | h | h | h | h | h | h | h <;> subst h <;> revert c <;> decide)).2.2
    rfl).2
    [OptionCall.page 1, OptionCall.sort "createdAt", OptionCall.perPage 50,
      OptionCall.order "asc"]
    (by decide)

/-! ## The targets of an approved cleanup -/

theorem stringsSplit_stringsJoin (names : List String) (hne : names ≠ [])
    (hfree : ∀ name ∈ names, ',' ∉ name.data) :
    stringsSplit (stringsJoin names ",") ',' = names := by
  have hne1 : names.map String.data ≠ [] := by
    intro h0
    exact hne (List.map_eq_nil_iff.1 h0)
  have hfree1 : ∀ piece ∈ names.map String.data, ',' ∉ piece := by
    intro piece hp
    obtain ⟨name, hn, rfl⟩ := List.mem_map.1 hp
    exact hfree name hn
  have hsplit := splitChars_intercalate ',' (names.map String.data) hne1 hfree1
  have hsep : ",".data = [','] := rfl
  unfold stringsSplit stringsJoin
  rw [hsep, hsplit, List.map_map]
  have hid : (String.mk ∘ String.data) = id := by
    funext x
    rfl
  rw [hid, List.map_id]

theorem cleanupLoop_calls (esa : EsaClient) (targets : List String) :
    ∀ called results, ∃ j,
      (cleanupLoop esa called results targets).1
        = (targets.take j).map Effect.DeleteAccount := by
  induction targets with
  | nil =>
    intro called results
    exact ⟨0, rfl⟩
  | cons x xs ih =>
    intro called results
    cases h0 : esa.DeleteAccount called x with
    | some e =>
      refine ⟨1, ?_⟩
      simp [cleanupLoop, h0]
    | none =>
      obtain ⟨j, hj⟩ := ih (called ++ [x])
        (results ++ ["- https://" ++ esa.GetTeamName ++ ".esa.io/team?keyword=" ++ x])
      refine ⟨j + 1, ?_⟩
      simp only [cleanupLoop, h0, hj, List.take_succ_cons, List.map_cons]

theorem handleCleanupAccount_stores (s : MessageListener) (env : ListenerEnv)
    (cenv : CleanupEnv) (ev : MessageEvent) (user : User) (month : Int)
    (members : List Member)
    (huser : s.slackClient.GetUserInfo ev.User = .ok user)
    (hcmd : 2 ≤ (stringsSplit (TrimSpace ev.Text) ' ').length)
    (hmonth : cleanupTargetMonth s.accountExpireMonth
      ((stringsSplit (TrimSpace ev.Text) ' ').drop 2) = .ok month)
    (hlist : cenv.ListAccount = .ok members)
    (hscan : (scanMembers cenv.parse3339 s.esaClient.GetTeamName
      (cenv.addMonths cenv.now (-month)) [] [] members).1 ≠ []) :
    ∃ out, handleCleanupAccount s env cenv ev = some out
      ∧ out.callbacks = s.repository.callbacks.Set
          ⟨CallbackMap.GenerateID env.format env.timeNow,
            stringsJoin (scanMembers cenv.parse3339 s.esaClient.GetTeamName
              (cenv.addMonths cenv.now (-month)) [] [] members).1 ",",
            "", ⟨user.ID, user.Name, user.Email⟩⟩ := by
  have hlt : ¬ (stringsSplit (TrimSpace ev.Text) ' ').length < 2 := by omega
  have hm : ¬ members.length = 0 := by
    intro h0
    have : members = [] := List.length_eq_zero.1 h0
    subst this
    exact hscan rfl
  have hs : ¬ (scanMembers cenv.parse3339 s.esaClient.GetTeamName
      (cenv.addMonths cenv.now (-month)) [] [] members).1.length = 0 :=
    fun h0 => hscan (List.length_eq_zero.1 h0)
  simp only [handleCleanupAccount, huser, hlt, if_false, hmonth, hlist,
    beq_iff_eq, hm, hs]
  split <;> exact ⟨_, rfl, rfl⟩

/-- C21: for a cleanup command of a known requester whose discovery collects a
non-empty list of screen names none of which contains a comma, the request
stored holds the names joined by commas, and splitting that value on commas
gives the collected list back, in the same order and of the same length. When
an administrator approves the stored, unexpired request, the targets of the
delete calls are the collected names from the first onwards, in order, and all
of them when every delete call succeeds. -/
theorem cleanup_targets_round_trip (s : MessageListener) (env : ListenerEnv)
    (cenv : CleanupEnv) (ev : MessageEvent) (user : User) (month : Int)
    (members : List Member) (names : List String)
    (huser : s.slackClient.GetUserInfo ev.User = .ok user)
    (hcmd : 2 ≤ (stringsSplit (TrimSpace ev.Text) ' ').length)
    (hmonth : cleanupTargetMonth s.accountExpireMonth
      ((stringsSplit (TrimSpace ev.Text) ' ').drop 2) = .ok month)
    (hlist : cenv.ListAccount = .ok members)
    (hnames : (scanMembers cenv.parse3339 s.esaClient.GetTeamName
      (cenv.addMonths cenv.now (-month)) [] [] members).1 = names)
    (hne : names ≠ [])
    (hfree : ∀ name ∈ names, ',' ∉ name.data) :
    ∃ out, handleCleanupAccount s env cenv ev = some out
      ∧ out.callbacks = s.repository.callbacks.Set
          ⟨CallbackMap.GenerateID env.format env.timeNow, stringsJoin names ",", "",
            ⟨user.ID, user.Name, user.Email⟩⟩
      ∧ stringsSplit (stringsJoin names ",") ',' = names
      ∧ (stringsSplit (stringsJoin names ",") ',').length = names.length
      ∧ ∀ (h : InteractionHandler) (henv : Env) (message : InteractionCallback),
          h.repository.callbacks = out.callbacks →
          message.CallbackID = CallbackMap.GenerateID env.format env.timeNow →
          fresh henv.parse henv.timeNow message.CallbackID = true →
          message.User.ID ∈ h.repository.admins.map Prod.fst →
          henv.writeErr = none →
          (∃ j, deleteCalls (handleCleanupApprove h henv message).effects = names.take j)
          ∧ ((∀ i t, names[i]? = some t →
                h.esaClient.DeleteAccount (names.take i) t = none) →
              deleteCalls (handleCleanupApprove h henv message).effects = names) := by
  subst hnames
  obtain ⟨out, hout, hcb⟩ := handleCleanupAccount_stores s env cenv ev user month members
    huser hcmd hmonth hlist hne
  have hround := stringsSplit_stringsJoin _ hne hfree
  refine ⟨out, hout, hcb, hround, by rw [hround], ?_⟩
  intro h henv message hstore hid hfresh hadm hw
  have hget : (h.repository.callbacks.Get henv.parse henv.timeNow message.CallbackID).1
      = (⟨CallbackMap.GenerateID env.format env.timeNow,
            stringsJoin (scanMembers cenv.parse3339 s.esaClient.GetTeamName
              (cenv.addMonths cenv.now (-month)) [] [] members).1 ",",
            "", ⟨user.ID, user.Name, user.Email⟩⟩, true) := by
    rw [get_fst, hfresh, if_pos rfl, mapIndex_eq_true, hstore, hcb, hid]
    simp [CallbackMap.Set, lookup_mapAssign]
  have hadm1 : h.repository.IsAdminUserID message.User.ID = true :=
    (isAdminUserID_iff _ _).2 hadm
  have hrun := handleCleanupApprove_run h henv message _ hget hadm1 hw
  simp only [hround] at hrun
  constructor
  · obtain ⟨j, hj⟩ := cleanupLoop_calls h.esaClient
      (scanMembers cenv.parse3339 s.esaClient.GetTeamName
        (cenv.addMonths cenv.now (-month)) [] [] members).1 []
      ["期限切れアカウント (" ++ toString (scanMembers cenv.parse3339 s.esaClient.GetTeamName
        (cenv.addMonths cenv.now (-month)) [] [] members).1.length ++ "件) を削除しました"]
    refine ⟨j, ?_⟩
    rw [hrun, hj]
    exact deleteCalls_run _ _ _ _ _ _ _
  · intro hok
    have hall := cleanupLoop_all_ok h.esaClient
      (scanMembers cenv.parse3339 s.esaClient.GetTeamName
        (cenv.addMonths cenv.now (-month)) [] [] members).1 []
      ["期限切れアカウント (" ++ toString (scanMembers cenv.parse3339 s.esaClient.GetTeamName
        (cenv.addMonths cenv.now (-month)) [] [] members).1.length ++ "件) を削除しました"]
      (by simpa using hok)
    rw [hrun, hall]
    exact deleteCalls_run _ _ _ _ _ _ _

/-- Witness of C21: the command cleanup on a directory whose first two members
are stale. The request stored holds "old,late", and the approval by an
administrator six days later, with every delete call succeeding, deletes old
and then late. -/
theorem cleanup_targets_round_trip_witness :
    ∃ out, handleCleanupAccount sampleListener sampleListenerEnv
          { sampleCleanupEnv with
            ListAccount := .ok [
              ⟨"Old", "old", "", 0, "", "2023-01-01T00:00:00+09:00", "old@example.com"⟩,
              ⟨"Late", "late", "", 0, "", "2023-02-01T00:00:00+09:00", "late@example.com"⟩,
              ⟨"New", "new", "", 0, "", "2023-12-01T00:00:00+09:00", "new@example.com"⟩] }
          ⟨"C1", "U1", "<@B1> cleanup"⟩ = some out
      ∧ out.callbacks = NewCallbackMap.Set
          ⟨"2024-01-05T00:00:00Z", "old,late", "", ⟨"U1", "user1", "user1@example.com"⟩⟩
      ∧ stringsSplit "old,late" ',' = ["old", "late"]
      ∧ deleteCalls (handleCleanupApprove
          { sampleHandler [("2024-01-05T00:00:00Z",
              ⟨"2024-01-05T00:00:00Z", "old,late", "",
                ⟨"U1", "user1", "user1@example.com"⟩⟩)] with
            esaClient := sampleListener.esaClient }
          sampleEnv
          (sampleMessage "2024-01-05T00:00:00Z" ⟨"A1", "admin1"⟩ actionCleanupApprove
            [])).effects = ["old", "late"] := by
  obtain ⟨out, hout, hcb, hsplit, _, happ⟩ :=
    cleanup_targets_round_trip sampleListener sampleListenerEnv
      { sampleCleanupEnv with
        ListAccount := .ok [
          ⟨"Old", "old", "", 0, "", "2023-01-01T00:00:00+09:00", "old@example.com"⟩,
          ⟨"Late", "late", "", 0, "", "2023-02-01T00:00:00+09:00", "late@example.com"⟩,
          ⟨"New", "new", "", 0, "", "2023-12-01T00:00:00+09:00", "new@example.com"⟩] }
      ⟨"C1", "U1", "<@B1> cleanup"⟩ ⟨"U1", "user1", "user1@example.com"⟩ 6
      [⟨"Old", "old", "", 0, "", "2023-01-01T00:00:00+09:00", "old@example.com"⟩,
        ⟨"Late", "late", "", 0, "", "2023-02-01T00:00:00+09:00", "late@example.com"⟩,
        ⟨"New", "new", "", 0, "", "2023-12-01T00:00:00+09:00", "new@example.com"⟩]
      ["old", "late"] rfl (by decide) rfl rfl (by decide) (by decide) (by decide)
  refine ⟨out, hout, hcb, hsplit, ?_⟩
  exact (happ
    { sampleHandler [("2024-01-05T00:00:00Z",
        ⟨"2024-01-05T00:00:00Z", "old,late", "",
          ⟨"U1", "user1", "user1@example.com"⟩⟩)] with
      esaClient := sampleListener.esaClient }
    sampleEnv
    (sampleMessage "2024-01-05T00:00:00Z" ⟨"A1", "admin1"⟩ actionCleanupApprove [])
    (by rw [hcb]; rfl) rfl (by decide) (by decide) rfl).2 (fun _ _ _ => rfl)

end EsaAccountBot
